import Mathlib

/-!
Verification development for the whole-program GPU transformation
`GPUTransformSDFGCloudSC` (file `dace/transformation/interstate/gpu_transform_sdfg_cloudsc.py`).

The development is a shallow embedding: Python dictionaries become association
lists (insertion order preserved, as in CPython), descriptor tables and the
shadow-array registry become explicit structures, and the graph rewriting
steps of `apply` become pure functions threading the transform state.
Container-library utilities that the transform merely consumes (memlet paths,
scope dictionaries, the loop-info provider) are modelled from their documented
behaviour, since the container library is an external collaborator of the
transform.
-/

set_option autoImplicit false

namespace GpuXform

/-! ### Association-list helpers (Python `dict` with insertion order) -/

def alookup {κ α : Type} [DecidableEq κ] : List (κ × α) → κ → Option α
  | [], _ => none
  | (k, v) :: t, n => if k = n then some v else alookup t n

def aupdate {κ α : Type} [DecidableEq κ] : List (κ × α) → κ → (α → α) → List (κ × α)
  | [], _, _ => []
  | (k, v) :: t, n, f => if k = n then (k, f v) :: t else (k, v) :: aupdate t n f

/-- Python `d[k] = v`: update in place if the key exists, else append. -/
def aset {κ α : Type} [DecidableEq κ] : List (κ × α) → κ → α → List (κ × α)
  | [], n, v => [(n, v)]
  | (k, w) :: t, n, v => if k = n then (k, v) :: t else (k, w) :: aset t n v

/-- Python `defaultdict(list)`: `d[k].append(v)`. -/
def aappend {κ α : Type} [DecidableEq κ] : List (κ × List α) → κ → α → List (κ × List α)
  | [], n, v => [(n, [v])]
  | (k, w) :: t, n, v => if k = n then (k, w ++ [v]) :: t else (k, w) :: aappend t n v

def akeys {κ α : Type} (l : List (κ × α)) : List κ := l.map Prod.fst

/-- First-occurrence deduplication, as performed by `set(...)` /
`dtypes.deduplicate` on a list whose duplicates are equal tuples. -/
def dedupFirstAux {α : Type} [DecidableEq α] : List α → List α → List α
  | [], _ => []
  | a :: t, seen =>
    if a ∈ seen then dedupFirstAux t seen else a :: dedupFirstAux t (seen ++ [a])

def dedupFirst {α : Type} [DecidableEq α] (l : List α) : List α := dedupFirstAux l []

theorem mem_dedupFirstAux {α : Type} [DecidableEq α] :
    ∀ (l seen : List α) (x : α), x ∈ dedupFirstAux l seen ↔ (x ∈ l ∧ x ∉ seen) := by
  intro l
  induction l with
  | nil => intro seen x; simp [dedupFirstAux]
  | cons a t ih =>
    intro seen x
    by_cases ha : a ∈ seen
    · simp only [dedupFirstAux, ha, if_true, ih]
      constructor
      · rintro ⟨hx, hs⟩
        exact ⟨List.mem_cons_of_mem _ hx, hs⟩
      · rintro ⟨hx, hs⟩
        rcases List.mem_cons.mp hx with h | h
        · exact absurd (h ▸ ha) hs
        · exact ⟨h, hs⟩
    · simp only [dedupFirstAux, ha, if_false, List.mem_cons, ih]
      constructor
      · rintro (h | ⟨hx, hs⟩)
        · exact ⟨Or.inl h, h ▸ ha⟩
        · refine ⟨Or.inr hx, fun hmem => hs ?_⟩
          simp [hmem]
      · rintro ⟨h | h, hs⟩
        · exact Or.inl h
        · by_cases hax : x = a
          · exact Or.inl hax
          · refine Or.inr ⟨h, fun hmem => ?_⟩
            rcases List.mem_append.mp hmem with hm | hm
            · exact hs hm
            · simp at hm
              exact hax hm

theorem mem_dedupFirst {α : Type} [DecidableEq α] (l : List α) (x : α) :
    x ∈ dedupFirst l ↔ x ∈ l := by
  simp [dedupFirst, mem_dedupFirstAux]

@[simp] theorem alookup_nil {κ α : Type} [DecidableEq κ] (n : κ) :
    alookup ([] : List (κ × α)) n = none := rfl

@[simp] theorem alookup_cons {κ α : Type} [DecidableEq κ] (k : κ) (v : α)
    (t : List (κ × α)) (n : κ) :
    alookup ((k, v) :: t) n = if k = n then some v else alookup t n := rfl

theorem alookup_append {κ α : Type} [DecidableEq κ] (l₁ l₂ : List (κ × α)) (n : κ) :
    alookup (l₁ ++ l₂) n = ((alookup l₁ n).or (alookup l₂ n)) := by
  induction l₁ with
  | nil => simp [alookup]
  | cons p t ih =>
    obtain ⟨k, v⟩ := p
    by_cases h : k = n <;> simp [alookup, h, ih]

theorem alookup_aupdate_self {κ α : Type} [DecidableEq κ]
    (l : List (κ × α)) (n : κ) (f : α → α) :
    alookup (aupdate l n f) n = (alookup l n).map f := by
  induction l with
  | nil => simp [aupdate]
  | cons p t ih =>
    obtain ⟨k, v⟩ := p
    by_cases h : k = n <;> simp [aupdate, h, ih]

theorem alookup_aupdate_ne {κ α : Type} [DecidableEq κ]
    (l : List (κ × α)) (n m : κ) (f : α → α) (h : n ≠ m) :
    alookup (aupdate l n f) m = alookup l m := by
  induction l with
  | nil => simp [aupdate]
  | cons p t ih =>
    obtain ⟨k, v⟩ := p
    by_cases hk : k = n
    · subst hk
      simp [aupdate, h, ih]
    · by_cases hm : k = m
      · subst hm
        simp [aupdate, alookup, hk]
      · simp [aupdate, alookup, hk, hm, ih]

theorem alookup_aset_self {κ α : Type} [DecidableEq κ]
    (l : List (κ × α)) (n : κ) (v : α) :
    alookup (aset l n v) n = some v := by
  induction l with
  | nil => simp [aset, alookup]
  | cons p t ih =>
    obtain ⟨k, w⟩ := p
    by_cases h : k = n <;> simp [aset, alookup, h, ih]

theorem alookup_aset_ne {κ α : Type} [DecidableEq κ]
    (l : List (κ × α)) (n m : κ) (v : α) (h : n ≠ m) :
    alookup (aset l n v) m = alookup l m := by
  induction l with
  | nil => simp [aset, alookup, h]
  | cons p t ih =>
    obtain ⟨k, w⟩ := p
    by_cases hk : k = n
    · subst hk
      simp [aset, alookup, h, ih]
    · by_cases hm : k = m
      · subst hm
        simp [aset, alookup, hk]
      · simp [aset, alookup, hk, hm, ih]

/-! ### Fresh-name generation (`find_new_name`-style probing).

The container library makes names unique by probing existing names; we model
it by extending the base name until it no longer collides, which permits a
pigeonhole-free proof of freshness via string lengths. -/

def maxLen (l : List String) : Nat := l.foldr (fun s m => max s.length m) 0

theorem length_le_maxLen {l : List String} {s : String} (h : s ∈ l) :
    s.length ≤ maxLen l := by
  induction l with
  | nil => cases h
  | cons a t ih =>
    rcases List.mem_cons.mp h with h | h
    · subst h
      exact le_max_left _ _
    · exact le_trans (ih h) (le_max_right _ _)

def freshAux (used : List String) : Nat → String → String
  | 0, base => base
  | n + 1, base => if base ∈ used then freshAux used n (base ++ "_") else base

def freshFrom (base : String) (used : List String) : String :=
  freshAux used (maxLen used + 1) base

theorem freshAux_not_mem (used : List String) :
    ∀ (n : Nat) (base : String), maxLen used < base.length + n →
      freshAux used n base ∉ used := by
  intro n
  induction n with
  | zero =>
    intro base h hmem
    simp only [freshAux] at hmem
    exact absurd (length_le_maxLen hmem) (by omega)
  | succ n ih =>
    intro base h
    by_cases hb : base ∈ used
    · simp only [freshAux, hb, if_true]
      apply ih
      have h1 : (base ++ "_").length = base.length + 1 := by
        rw [String.length_append]
        rfl
      omega
    · simp only [freshAux, if_neg hb]
      exact hb

theorem freshFrom_not_mem (base : String) (used : List String) :
    freshFrom base used ∉ used := by
  apply freshAux_not_mem
  omega

/-! ### Storage, schedule, descriptor and registry data model -/

inductive StorageType where
  | CPU_Heap
  | CPU_Pinned
  | GPU_Global
  | GPU_Shared
  | Register
  | Default
deriving DecidableEq, Repr

/-- `gpu_storage = [GPU_Global, GPU_Shared, CPU_Pinned]` from the source. -/
def gpu_storage : List StorageType :=
  [StorageType.GPU_Global, StorageType.GPU_Shared, StorageType.CPU_Pinned]

inductive ScheduleType where
  | Default
  | Sequential
  | GPU_Device
  | GPU_Default
deriving DecidableEq, Repr

inductive AllocationLifetime where
  | Scope
  | SDFG
deriving DecidableEq, Repr

/-- Array descriptor: the fields of a DaCe data descriptor that the
transform reads or writes. -/
structure Desc where
  isScalar : Bool
  storage : StorageType
  transient : Bool
  lifetime : AllocationLifetime := AllocationLifetime.Scope
  freeSymbols : List String := []
deriving DecidableEq, Repr

/-- `ArrayStatus` from the source.  The source's docstring notes that the
scenario of a nested SDFG whose array has a CPU copy in the outer SDFG is
ignored at the moment. -/
inductive ArrayStatus where
  | CPU_ONLY
  | GPU_ONLY
  | CPU_AND_GPU_OUTER_SDFG
  | CPU_AND_GPU_THIS_SDFG
deriving DecidableEq, Repr

/-- `ArrayType` dataclass from the source. -/
structure ArrayType where
  cpu : Option String
  gpu : Option String
  status : ArrayStatus
deriving DecidableEq, Repr

/-- `SDFGArrays`: the shadow registry.  `_arrays` is the registry table;
`sdfgArrays` models the SDFG's descriptor table `self._sdfg.arrays`, which
the registry mutates through its reference to the SDFG. -/
structure SDFGArrays where
  _arrays : List (String × ArrayType)
  sdfgArrays : List (String × Desc)
deriving DecidableEq, Repr

namespace SDFGArrays

/-- `move_to_gpu`: mutates the descriptor's storage to `GPU_Global` and sets
the registry status to `GPU_ONLY` (creating the entry if absent).  `none`
models the `KeyError` raised when the descriptor does not exist. -/
def move_to_gpu (a : SDFGArrays) (name : String) : Option SDFGArrays :=
  match alookup a.sdfgArrays name with
  | none => none
  | some _ =>
    let sd := aupdate a.sdfgArrays name
      (fun d => { d with storage := StorageType.GPU_Global })
    let arrs :=
      match alookup a._arrays name with
      | some _ =>
        aupdate a._arrays name (fun e => { e with status := ArrayStatus.GPU_ONLY })
      | none =>
        a._arrays ++ [(name, ⟨none, some name, ArrayStatus.GPU_ONLY⟩)]
    some { _arrays := arrs, sdfgArrays := sd }

/-- Total variant used inside the pipeline; for structurally valid graphs
every array reference resolves to a descriptor (spec data-model invariant),
so the `KeyError` branch is unreachable there. -/
def move_to_gpuT (a : SDFGArrays) (name : String) : SDFGArrays :=
  (a.move_to_gpu name).getD a

/-- `clone_to_gpu`: early-returns the recorded device twin when the status is
`GPU_ONLY` or `CPU_AND_GPU_THIS_SDFG`; otherwise registers a fresh transient
`GPU_Global` clone named by probing from `gpu_<name>`. -/
def clone_to_gpu (a : SDFGArrays) (name : String) (desc : Desc) :
    Option String × SDFGArrays :=
  match alookup a._arrays name with
  | some e =>
    if e.status = ArrayStatus.GPU_ONLY ∨ e.status = ArrayStatus.CPU_AND_GPU_THIS_SDFG then
      (e.gpu, a)
    else
      let newdesc := { desc with storage := StorageType.GPU_Global, transient := true }
      let newName := freshFrom ("gpu_" ++ name) (akeys a.sdfgArrays)
      let sd := a.sdfgArrays ++ [(newName, newdesc)]
      let arrs := aupdate a._arrays name
        (fun e => { e with gpu := some newName, status := ArrayStatus.CPU_AND_GPU_THIS_SDFG })
      (some newName, { _arrays := arrs, sdfgArrays := sd })
  | none =>
    let newdesc := { desc with storage := StorageType.GPU_Global, transient := true }
    let newName := freshFrom ("gpu_" ++ name) (akeys a.sdfgArrays)
    let sd := a.sdfgArrays ++ [(newName, newdesc)]
    let arrs := a._arrays ++ [(name, ⟨none, some newName, ArrayStatus.GPU_ONLY⟩)]
    (some newName, { _arrays := arrs, sdfgArrays := sd })

/-- `clone_to_cpu`: early-returns the recorded host twin when the status is
`CPU_ONLY` or `CPU_AND_GPU_THIS_SDFG`; otherwise registers a transient
`CPU_Heap` clone named `cpu_<name>`, probing for a collision before
inserting the descriptor. -/
def clone_to_cpu (a : SDFGArrays) (name : String) (desc : Desc) :
    Option String × SDFGArrays :=
  match alookup a._arrays name with
  | some e =>
    if e.status = ArrayStatus.CPU_ONLY ∨ e.status = ArrayStatus.CPU_AND_GPU_THIS_SDFG then
      (e.cpu, a)
    else
      let newdesc := { desc with storage := StorageType.CPU_Heap, transient := true }
      let newName := "cpu_" ++ name
      let sd :=
        if (alookup a.sdfgArrays newName).isSome then a.sdfgArrays
        else a.sdfgArrays ++ [(newName, newdesc)]
      let arrs := aupdate a._arrays name
        (fun e => { e with cpu := some newName, status := ArrayStatus.CPU_AND_GPU_THIS_SDFG })
      (some newName, { _arrays := arrs, sdfgArrays := sd })
  | none =>
    let newdesc := { desc with storage := StorageType.CPU_Heap, transient := true }
    let newName := "cpu_" ++ name
    let sd :=
      if (alookup a.sdfgArrays newName).isSome then a.sdfgArrays
      else a.sdfgArrays ++ [(newName, newdesc)]
    let arrs := a._arrays ++ [(name, ⟨some newName, none, ArrayStatus.CPU_ONLY⟩)]
    (some newName, { _arrays := arrs, sdfgArrays := sd })

def on_gpu (a : SDFGArrays) (name : String) : Bool :=
  match alookup a._arrays name with
  | some e =>
    e.status = ArrayStatus.GPU_ONLY ∨ e.status = ArrayStatus.CPU_AND_GPU_THIS_SDFG
  | none => false

def on_cpu (a : SDFGArrays) (name : String) : Bool :=
  match alookup a._arrays name with
  | some e =>
    e.status = ArrayStatus.CPU_ONLY ∨ e.status = ArrayStatus.CPU_AND_GPU_THIS_SDFG
  | none => false

def gpu_array (a : SDFGArrays) (name : String) : Option String :=
  (alookup a._arrays name).bind (fun e => e.gpu)

def cpu_array (a : SDFGArrays) (name : String) : Option String :=
  (alookup a._arrays name).bind (fun e => e.cpu)

def arrayKeys (a : SDFGArrays) : List String := akeys a._arrays

/-- `from_sdfg`: bootstraps the registry, seeding every array whose storage is
in `gpu_storage` with status `CPU_AND_GPU_OUTER_SDFG` and device twin equal to
its own name. -/
def from_sdfg (arrs : List (String × Desc)) : SDFGArrays :=
  { _arrays :=
      (arrs.filter (fun p => p.2.storage ∈ gpu_storage)).map
        (fun p => (p.1, ⟨none, some p.1, ArrayStatus.CPU_AND_GPU_OUTER_SDFG⟩)),
    sdfgArrays := arrs }

/-- Registry status of a name, for stating the claims. -/
def statusOf (a : SDFGArrays) (name : String) : Option ArrayStatus :=
  (alookup a._arrays name).map (fun e => e.status)

end SDFGArrays

theorem alookup_eq_none {κ α : Type} [DecidableEq κ] {l : List (κ × α)} {n : κ}
    (h : n ∉ akeys l) : alookup l n = none := by
  induction l with
  | nil => rfl
  | cons p t ih =>
    obtain ⟨k, v⟩ := p
    have hk : k ≠ n := by
      intro hkn
      exact h (by simp [akeys, hkn])
    have ht : n ∉ akeys t := fun hm => h (by simp [akeys] at hm ⊢; exact Or.inr hm)
    simp [alookup, hk, ih ht]

theorem mem_akeys_of_alookup {κ α : Type} [DecidableEq κ] {l : List (κ × α)} {n : κ}
    {v : α} (h : alookup l n = some v) : n ∈ akeys l := by
  induction l with
  | nil => simp [alookup] at h
  | cons p t ih =>
    obtain ⟨k, w⟩ := p
    by_cases hk : k = n
    · simp [akeys, hk]
    · simp only [alookup, hk, if_false] at h
      exact List.mem_cons_of_mem _ (ih h)

/-! ### Claim C4: monotonicity of the registry status -/

def c4Desc : Desc :=
  { isScalar := false, storage := StorageType.CPU_Heap, transient := false }

def c4Registry : SDFGArrays :=
  { _arrays := [("x", ⟨some "cpu_x", some "gpu_x", ArrayStatus.CPU_AND_GPU_THIS_SDFG⟩)],
    sdfgArrays := [("x", c4Desc)] }

/-- C4 counterexample: the claim says that once an entry has status
`CPU_AND_GPU_THIS_SDFG`, no registry operation — including `move_to_gpu` —
changes it back to a single-residency status.  On a concrete registry whose
entry for `x` has status `CPU_AND_GPU_THIS_SDFG`, `move_to_gpu "x"` resets
the status to `GPU_ONLY`, a single-residency status. -/
theorem c4_counterexample :
    c4Registry.statusOf "x" = some ArrayStatus.CPU_AND_GPU_THIS_SDFG ∧
    (c4Registry.move_to_gpu "x").map (fun a => a.statusOf "x") =
      some (some ArrayStatus.GPU_ONLY) ∧
    ArrayStatus.GPU_ONLY ≠ ArrayStatus.CPU_AND_GPU_THIS_SDFG := by
  decide

/-- C4 amended: once an entry has status `CPU_AND_GPU_THIS_SDFG`, the clone
operations `clone_to_gpu` and `clone_to_cpu` leave the status unchanged
(they early-return), but `move_to_gpu` unconditionally resets the entry to
the single-residency status `GPU_ONLY`. -/
theorem c4_amended (a : SDFGArrays) (n : String) (d d' : Desc)
    (hst : a.statusOf n = some ArrayStatus.CPU_AND_GPU_THIS_SDFG)
    (hd : alookup a.sdfgArrays n = some d') :
    (a.clone_to_gpu n d).2.statusOf n = some ArrayStatus.CPU_AND_GPU_THIS_SDFG ∧
    (a.clone_to_cpu n d).2.statusOf n = some ArrayStatus.CPU_AND_GPU_THIS_SDFG ∧
    (a.move_to_gpu n).map (fun a' => a'.statusOf n) =
      some (some ArrayStatus.GPU_ONLY) := by
  obtain ⟨e, he, hes⟩ : ∃ e, alookup a._arrays n = some e ∧
      e.status = ArrayStatus.CPU_AND_GPU_THIS_SDFG := by
    unfold SDFGArrays.statusOf at hst
    cases h : alookup a._arrays n with
    | none => rw [h] at hst; simp at hst
    | some e =>
      rw [h] at hst
      simp only [Option.map_some', Option.some_inj] at hst
      exact ⟨e, rfl, hst⟩
  refine ⟨?_, ?_, ?_⟩
  · unfold SDFGArrays.clone_to_gpu
    rw [he]
    simp only [hes, or_true, if_true]
    simpa [SDFGArrays.statusOf, he] using hes
  · unfold SDFGArrays.clone_to_cpu
    rw [he]
    simp only [hes, or_true, if_true]
    simpa [SDFGArrays.statusOf, he] using hes
  · unfold SDFGArrays.move_to_gpu
    rw [hd]
    simp [he, SDFGArrays.statusOf, alookup_aupdate_self]

/-- C4 amended witness at the concrete registry `c4Registry`. -/
theorem c4_amended_witness :
    (c4Registry.statusOf "x" = some ArrayStatus.CPU_AND_GPU_THIS_SDFG ∧
     alookup c4Registry.sdfgArrays "x" = some c4Desc) ∧
    ((c4Registry.clone_to_gpu "x" c4Desc).2.statusOf "x" =
        some ArrayStatus.CPU_AND_GPU_THIS_SDFG ∧
     (c4Registry.clone_to_cpu "x" c4Desc).2.statusOf "x" =
        some ArrayStatus.CPU_AND_GPU_THIS_SDFG ∧
     (c4Registry.move_to_gpu "x").map (fun a' => a'.statusOf "x") =
        some (some ArrayStatus.GPU_ONLY)) :=
  ⟨⟨by decide, by decide⟩,
   c4_amended c4Registry "x" c4Desc c4Desc (by decide) (by decide)⟩

/-! ### Claim C5: idempotence of clone_to_gpu -/

def c5Desc : Desc :=
  { isScalar := false, storage := StorageType.GPU_Global, transient := false }

def c5Registry : SDFGArrays := SDFGArrays.from_sdfg [("g", c5Desc)]

/-- C5 counterexample: the claim says that for entries seeded by bootstrap
with status `CPU_AND_GPU_OUTER_SDFG`, `clone_to_gpu` returns the existing
device name and registers no new descriptor.  On the registry bootstrapped
from an SDFG with one `GPU_Global` array `g` (entry `g` has device twin `g`
and status `CPU_AND_GPU_OUTER_SDFG`), `clone_to_gpu` allocates and registers
a brand-new descriptor `gpu_g` instead of returning `g`. -/
theorem c5_counterexample :
    c5Registry.statusOf "g" = some ArrayStatus.CPU_AND_GPU_OUTER_SDFG ∧
    c5Registry.gpu_array "g" = some "g" ∧
    (c5Registry.clone_to_gpu "g" c5Desc).1 = some "gpu_g" ∧
    (c5Registry.clone_to_gpu "g" c5Desc).1 ≠ some "g" ∧
    c5Registry.sdfgArrays.length = 1 ∧
    (c5Registry.clone_to_gpu "g" c5Desc).2.sdfgArrays.length = 2 := by
  decide

/-- C5 amended: `clone_to_gpu` is idempotent only for entries whose status is
`GPU_ONLY` or `CPU_AND_GPU_THIS_SDFG` (`on_gpu` true): for those it returns
the recorded device twin and leaves the registry untouched.  An entry seeded
by bootstrap with status `CPU_AND_GPU_OUTER_SDFG` is re-cloned: a fresh
transient `GPU_Global` descriptor is registered and the entry is re-pointed
at it with status `CPU_AND_GPU_THIS_SDFG`. -/
theorem c5_amended (a : SDFGArrays) (n m : String) (d d' : Desc)
    (hn : a.statusOf n = some ArrayStatus.CPU_AND_GPU_OUTER_SDFG)
    (hm : a.on_gpu m = true) :
    a.clone_to_gpu m d' = (a.gpu_array m, a) ∧
    (∃ w, (a.clone_to_gpu n d).1 = some w ∧ w ∉ akeys a.sdfgArrays ∧
      alookup (a.clone_to_gpu n d).2.sdfgArrays w =
        some { d with storage := StorageType.GPU_Global, transient := true } ∧
      (a.clone_to_gpu n d).2.statusOf n = some ArrayStatus.CPU_AND_GPU_THIS_SDFG) := by
  constructor
  · obtain ⟨e, he, hes⟩ : ∃ e, alookup a._arrays m = some e ∧
        (e.status = ArrayStatus.GPU_ONLY ∨ e.status = ArrayStatus.CPU_AND_GPU_THIS_SDFG) := by
      unfold SDFGArrays.on_gpu at hm
      cases h : alookup a._arrays m with
      | none => rw [h] at hm; simp at hm
      | some e =>
        rw [h] at hm
        simp only [decide_eq_true_eq] at hm
        exact ⟨e, rfl, hm⟩
    unfold SDFGArrays.clone_to_gpu SDFGArrays.gpu_array
    rw [he]
    simp [hes]
  · obtain ⟨e, he, hes⟩ : ∃ e, alookup a._arrays n = some e ∧
        e.status = ArrayStatus.CPU_AND_GPU_OUTER_SDFG := by
      unfold SDFGArrays.statusOf at hn
      cases h : alookup a._arrays n with
      | none => rw [h] at hn; simp at hn
      | some e =>
        rw [h] at hn
        simp only [Option.map_some', Option.some_inj] at hn
        exact ⟨e, rfl, hn⟩
    have hcond : ¬ (e.status = ArrayStatus.GPU_ONLY ∨
        e.status = ArrayStatus.CPU_AND_GPU_THIS_SDFG) := by
      rw [hes]
      intro h
      rcases h with h | h <;> exact absurd h (by decide)
    refine ⟨freshFrom ("gpu_" ++ n) (akeys a.sdfgArrays), ?_, ?_, ?_, ?_⟩
    · unfold SDFGArrays.clone_to_gpu
      rw [he]
      simp [hcond]
    · exact freshFrom_not_mem _ _
    · unfold SDFGArrays.clone_to_gpu
      rw [he]
      simp only [hcond, if_false]
      rw [alookup_append, alookup_eq_none (freshFrom_not_mem _ _)]
      simp [alookup]
    · unfold SDFGArrays.clone_to_gpu SDFGArrays.statusOf
      rw [he]
      simp [hcond, alookup_aupdate_self, he]

def c5WitnessReg : SDFGArrays :=
  { _arrays := [("n0", ⟨none, some "n0", ArrayStatus.CPU_AND_GPU_OUTER_SDFG⟩),
                ("m0", ⟨none, some "gpu_m0", ArrayStatus.GPU_ONLY⟩)],
    sdfgArrays := [("n0", c5Desc)] }

/-- C5 amended witness at the concrete registry `c5WitnessReg`. -/
theorem c5_amended_witness :
    (c5WitnessReg.statusOf "n0" = some ArrayStatus.CPU_AND_GPU_OUTER_SDFG ∧
     c5WitnessReg.on_gpu "m0" = true) ∧
    (c5WitnessReg.clone_to_gpu "m0" c4Desc = (c5WitnessReg.gpu_array "m0", c5WitnessReg) ∧
     (∃ w, (c5WitnessReg.clone_to_gpu "n0" c4Desc).1 = some w ∧
       w ∉ akeys c5WitnessReg.sdfgArrays ∧
       alookup (c5WitnessReg.clone_to_gpu "n0" c4Desc).2.sdfgArrays w =
         some { c4Desc with storage := StorageType.GPU_Global, transient := true } ∧
       (c5WitnessReg.clone_to_gpu "n0" c4Desc).2.statusOf "n0" =
         some ArrayStatus.CPU_AND_GPU_THIS_SDFG)) :=
  ⟨⟨by decide, by decide⟩,
   c5_amended c5WitnessReg "n0" "m0" c4Desc c4Desc (by decide) (by decide)⟩

/-! ### Graph data model: data nodes, data edges, states, control edges -/

/-- Data nodes of a state.  `nested` carries the nested SDFG's states as bare
node lists — enough for the recursive node enumeration used by
`can_be_applied`; the transform never rewrites nested interiors from the
outside (it recurses into them as a separate invocation). -/
inductive DNode where
  | access (data : String)
  | tasklet (label : String) (inConns : List String) (outConns : List String)
  | mapEntry (label : String) (schedule : ScheduleType)
  | mapExit (label : String) (schedule : ScheduleType)
  | consumeEntry (label : String)
  | consumeExit (label : String)
  | library (label : String) (schedule : ScheduleType)
  | nested (label : String) (schedule : ScheduleType) (inner : List (List DNode))
deriving Repr

mutual

/-- A node is a consume-scope node, or (for `nested`) recursively contains
one; `can_be_applied` enumerates all nodes recursively. -/
def containsConsume : DNode → Bool
  | DNode.consumeEntry _ => true
  | DNode.consumeExit _ => true
  | DNode.nested _ _ inner => consumeInStates inner
  | _ => false

def consumeInStates : List (List DNode) → Bool
  | [] => false
  | st :: rest => consumeInNodes st || consumeInStates rest

def consumeInNodes : List DNode → Bool
  | [] => false
  | n :: rest => containsConsume n || consumeInNodes rest

end

/-- `isinstance(node, nodes.CodeNode)`: tasklets, library nodes and nested
SDFG nodes. -/
def DNode.isCode : DNode → Bool
  | DNode.tasklet _ _ _ => true
  | DNode.library _ _ => true
  | DNode.nested _ _ _ => true
  | _ => false

/-- Intra-state data edge (memlet): node indices, array name, connectors,
write-conflict-resolution flag, element count of the subset. -/
structure DEdge where
  src : Nat
  dst : Nat
  data : String
  srcConn : Option String := none
  dstConn : Option String := none
  wcr : Bool := false
  numElements : Nat := 1
deriving DecidableEq, Repr

/-- A state: local data graph plus the scope assignment of each node
(`scopeOf i = some j` means node `i` sits inside the scope opened by entry
node `j`; `none` means top level). -/
structure DState where
  label : String
  nodes : List DNode
  dedges : List DEdge
  scopeOf : List (Option Nat) := []
deriving Repr

def nodeAt (st : DState) (i : Nat) : DNode := st.nodes.getD i (DNode.access "")

def DState.scopeParent (st : DState) (i : Nat) : Option Nat := st.scopeOf.getD i none

/-- `state.scope_children()[None]`: indices of the top-level nodes. -/
def DState.topLevelIdx (st : DState) : List Nat :=
  (List.range st.nodes.length).filter (fun i => st.scopeParent i = none)

def DState.outEdgesIdx (st : DState) (i : Nat) : List DEdge :=
  st.dedges.filter (fun e => e.src = i)

def DState.inEdgesIdx (st : DState) (i : Nat) : List DEdge :=
  st.dedges.filter (fun e => e.dst = i)

/-- Inter-state control edge; `syms` are the free symbols of its condition
and assignment expressions (an unconditional `InterstateEdge()` has none). -/
structure CEdge where
  src : String
  dst : String
  syms : List String := []
deriving DecidableEq, Repr

/-- Loop descriptor supplied by the external loop-analysis collaborator:
a guard state plus the labels of the body states. -/
structure LoopInfo where
  name : String
  guard : String
  body : List String
deriving DecidableEq, Repr

/-- The whole dataflow graph.  `loops` is the loop metadata consumed (not
computed) by the transform. -/
structure SDFG where
  label : String
  arrays : List (String × Desc)
  states : List DState
  iedges : List CEdge
  startLabel : String
  loops : List LoopInfo := []
deriving Repr

/-! ### Claim C1: the applicability check -/

/-- `can_be_applied`: fails if any node (recursively, including nested SDFG
interiors) is a consume-scope node, or if any top-level code node has a data
edge leading directly to another code node; otherwise succeeds.  It only
reads the graph. -/
def can_be_applied (g : SDFG) : Bool :=
  if g.states.any (fun st => st.nodes.any containsConsume) then false
  else if g.states.any (fun st => st.topLevelIdx.any (fun i =>
      (nodeAt st i).isCode && (st.outEdgesIdx i).any (fun e => (nodeAt st e.dst).isCode)))
    then false
  else true

/-- State-passing reading of the applicability check: the check invokes only
read-only accessors (`all_nodes_recursive`, `scope_children`, `out_edges`),
so the graph component it returns is the input graph itself. -/
def can_be_applied_run (g : SDFG) : Bool × SDFG := (can_be_applied g, g)

/-- C1: if the graph contains a consume-style scope node anywhere (including
nested), or a top-level code node with a direct code-to-code data edge, then
`can_be_applied` returns false, and the check leaves the graph exactly as it
was. -/
theorem c1_applicability (g : SDFG)
    (h : (∃ st ∈ g.states, ∃ nd ∈ st.nodes, containsConsume nd = true) ∨
         (∃ st ∈ g.states, ∃ i ∈ st.topLevelIdx, (nodeAt st i).isCode = true ∧
            ∃ e ∈ st.outEdgesIdx i, (nodeAt st e.dst).isCode = true)) :
    can_be_applied g = false ∧ can_be_applied_run g = (false, g) := by
  have hres : can_be_applied g = false := by
    rcases h with ⟨st, hst, nd, hnd, hc⟩ | ⟨st, hst, i, hi, hcode, e, he, hdst⟩
    · have h1 : g.states.any (fun st => st.nodes.any containsConsume) = true :=
        List.any_eq_true.mpr ⟨st, hst, List.any_eq_true.mpr ⟨nd, hnd, hc⟩⟩
      simp [can_be_applied, h1]
    · by_cases h1 : g.states.any (fun st => st.nodes.any containsConsume) = true
      · simp [can_be_applied, h1]
      · have h2 : g.states.any (fun st => st.topLevelIdx.any (fun i =>
            (nodeAt st i).isCode &&
              (st.outEdgesIdx i).any (fun e => (nodeAt st e.dst).isCode))) = true := by
          refine List.any_eq_true.mpr ⟨st, hst, List.any_eq_true.mpr ⟨i, hi, ?_⟩⟩
          rw [Bool.and_eq_true]
          exact ⟨hcode, List.any_eq_true.mpr ⟨e, he, hdst⟩⟩
        simp [can_be_applied, h1, h2]
  exact ⟨hres, by simp [can_be_applied_run, hres]⟩

def c1WitnessGraph : SDFG :=
  { label := "w1",
    arrays := [],
    states := [{ label := "s", nodes := [DNode.consumeEntry "ce"], dedges := [] }],
    iedges := [],
    startLabel := "s" }

/-- C1 witness: the applicability theorem applied to a concrete graph holding
one consume-entry node. -/
theorem c1_applicability_witness :
    ((∃ st ∈ c1WitnessGraph.states, ∃ nd ∈ st.nodes, containsConsume nd = true) ∨
     (∃ st ∈ c1WitnessGraph.states, ∃ i ∈ st.topLevelIdx,
        (nodeAt st i).isCode = true ∧
        ∃ e ∈ st.outEdgesIdx i, (nodeAt st e.dst).isCode = true)) ∧
    (can_be_applied c1WitnessGraph = false ∧
     can_be_applied_run c1WitnessGraph = (false, c1WitnessGraph)) :=
  ⟨Or.inl ⟨_, List.mem_cons_self _ _, DNode.consumeEntry "ce",
      List.mem_cons_self _ _, rfl⟩,
   c1_applicability c1WitnessGraph
     (Or.inl ⟨_, List.mem_cons_self _ _, DNode.consumeEntry "ce",
        List.mem_cons_self _ _, rfl⟩)⟩

/-! ### Memlet-path traversal (modelled container utility)

Modelled from the spec: the dataflow-graph container library and its
traversal utilities are external collaborators; `memlet_path` follows a
memlet through scope entry/exit nodes via matching `IN_x`/`OUT_x`
connectors.  On states without scope nodes the path is the edge itself. -/

def DNode.isEntry : DNode → Bool
  | DNode.mapEntry _ _ => true
  | DNode.consumeEntry _ => true
  | _ => false

def DNode.isScopeNode : DNode → Bool
  | DNode.mapEntry _ _ => true
  | DNode.mapExit _ _ => true
  | DNode.consumeEntry _ => true
  | DNode.consumeExit _ => true
  | _ => false

def memletPathLastAux (st : DState) : Nat → DEdge → DEdge
  | 0, e => e
  | fuel + 1, e =>
    if (nodeAt st e.dst).isScopeNode then
      match e.dstConn with
      | some c =>
        if c.startsWith "IN_" then
          match st.dedges.find? (fun e' =>
              e'.src = e.dst && e'.srcConn = some ("OUT_" ++ c.drop 3)) with
          | some e' => memletPathLastAux st fuel e'
          | none => e
        else e
      | none => e
    else e

/-- `state.memlet_path(e)[-1]`. -/
def memletPathLast (st : DState) (e : DEdge) : DEdge :=
  memletPathLastAux st st.dedges.length e

def memletPathFirstAux (st : DState) : Nat → DEdge → DEdge
  | 0, e => e
  | fuel + 1, e =>
    if (nodeAt st e.src).isScopeNode then
      match e.srcConn with
      | some c =>
        if c.startsWith "OUT_" then
          match st.dedges.find? (fun e' =>
              e'.dst = e.src && e'.dstConn = some ("IN_" ++ c.drop 4)) with
          | some e' => memletPathFirstAux st fuel e'
          | none => e
        else e
      | none => e
    else e

/-- `state.memlet_path(e)[0]`. -/
def memletPathFirst (st : DState) (e : DEdge) : DEdge :=
  memletPathFirstAux st st.dedges.length e

/-! ### Step 0: discovery of true inputs and outputs -/

structure Discovery where
  input_nodes : List (String × Desc)
  output_nodes : List (String × Desc)
deriving Repr

/-- One out-edge of an access node leads (through the memlet path) to a
top-level scope-entry connector that is not a primary `IN_` data connector:
such arrays feed dynamic map ranges and are excluded from the input list. -/
def dynRangeEdge (st : DState) (e : DEdge) : Bool :=
  let last := memletPathLast st e
  (nodeAt st last.dst).isEntry &&
    (match last.dstConn with
     | some c => c ≠ "" && !(c.startsWith "IN_") && st.scopeParent last.dst = none
     | none => false)

/-- Step-0 scan of one state.  Note: the source's membership guards
`node.data not in input_nodes` compare a name against a list of
(name, descriptor) tuples and therefore never filter anything; duplicates
are removed later by `set(...)` / `dtypes.deduplicate`. -/
def discoverState (arrs : List (String × Desc)) (st : DState) (acc : Discovery) :
    Discovery :=
  let acc := (List.range st.nodes.length).foldl (fun acc i =>
    match nodeAt st i with
    | DNode.access d =>
      match alookup arrs d with
      | some desc =>
        if desc.transient = false then
          let acc :=
            if 0 < (st.outEdgesIdx i).length &&
                !((st.outEdgesIdx i).any (dynRangeEdge st)) then
              { acc with input_nodes := acc.input_nodes ++ [(d, desc)] }
            else acc
          if 0 < (st.inEdgesIdx i).length then
            { acc with output_nodes := acc.output_nodes ++ [(d, desc)] }
          else acc
        else acc
      | none => acc
    | _ => acc) acc
  st.dedges.foldl (fun acc e =>
    if e.wcr then
      match alookup arrs e.data with
      | some desc =>
        if desc.transient = false then
          { acc with input_nodes := acc.input_nodes ++ [(e.data, desc)] }
        else acc
      | none => acc
    else acc) acc

def discover (g : SDFG) : Discovery :=
  g.states.foldl (fun acc st => discoverState g.arrays st acc) ⟨[], []⟩

/-! ### Step 1: clone true inputs/outputs to device and rewrite references -/

/-- The input loop of step 1: scalars and `GPU_Global`-stored inputs are
skipped, everything else is cloned. -/
def step1InputsL (l : List (String × Desc)) (a : SDFGArrays) : SDFGArrays :=
  l.foldl (fun a p =>
    if p.2.isScalar then a
    else if p.2.storage = StorageType.GPU_Global then a
    else (a.clone_to_gpu p.1 p.2).2) a

/-- The output loop of step 1: names already `on_gpu` and `GPU_Global`-stored
outputs are skipped, everything else — scalar or not — is cloned. -/
def step1OutputsL (l : List (String × Desc)) (a : SDFGArrays) : SDFGArrays :=
  l.foldl (fun a p =>
    if a.on_gpu p.1 then a
    else if p.2.storage = StorageType.GPU_Global then a
    else (a.clone_to_gpu p.1 p.2).2) a

def step1 (disc : Discovery) (a : SDFGArrays) : SDFGArrays :=
  step1OutputsL (dedupFirst disc.output_nodes)
    (step1InputsL (dedupFirst disc.input_nodes) a)

/-- The replace loops of step 1: every access node and memlet that refers to
an `on_gpu` array is renamed to its device twin. -/
def renameNode (a : SDFGArrays) : DNode → DNode
  | DNode.access d =>
    if a.on_gpu d then DNode.access ((a.gpu_array d).getD d) else DNode.access d
  | n => n

def renameState (a : SDFGArrays) (st : DState) : DState :=
  { st with
    nodes := st.nodes.map (renameNode a),
    dedges := st.dedges.map (fun e =>
      if a.on_gpu e.data then { e with data := (a.gpu_array e.data).getD e.data }
      else e) }

/-! ### Registry lemmas for the step-1 characterization -/

theorem on_gpu_from_sdfg (arrs : List (String × Desc)) (n : String) :
    (SDFGArrays.from_sdfg arrs).on_gpu n = false := by
  unfold SDFGArrays.on_gpu SDFGArrays.from_sdfg
  generalize hl : (arrs.filter (fun p => p.2.storage ∈ gpu_storage)) = l
  have : ∀ e, alookup (l.map (fun p =>
      (p.1, (⟨none, some p.1, ArrayStatus.CPU_AND_GPU_OUTER_SDFG⟩ : ArrayType)))) n =
        some e → e.status = ArrayStatus.CPU_AND_GPU_OUTER_SDFG := by
    clear hl
    induction l with
    | nil => intro e h; simp [alookup] at h
    | cons p t ih =>
      intro e h
      simp only [List.map_cons, alookup_cons] at h
      by_cases hp : p.1 = n
      · rw [if_pos hp] at h
        cases h
        rfl
      · rw [if_neg hp] at h
        exact ih e h

  cases h : alookup (l.map (fun p =>
      (p.1, (⟨none, some p.1, ArrayStatus.CPU_AND_GPU_OUTER_SDFG⟩ : ArrayType)))) n with
  | none => rfl
  | some e =>
    have := this e h
    simp [this]

theorem clone_to_gpu_of_on_gpu (a : SDFGArrays) (n : String) (d : Desc)
    (h : a.on_gpu n = true) : (a.clone_to_gpu n d).2 = a := by
  unfold SDFGArrays.on_gpu at h
  unfold SDFGArrays.clone_to_gpu
  cases he : alookup a._arrays n with
  | none => rw [he] at h; simp at h
  | some e =>
    rw [he] at h
    simp only [decide_eq_true_eq] at h
    simp [h]

theorem on_gpu_clone_to_gpu_other (a : SDFGArrays) (m n : String) (d : Desc)
    (h : m ≠ n) : (a.clone_to_gpu m d).2.on_gpu n = a.on_gpu n := by
  unfold SDFGArrays.clone_to_gpu
  cases he : alookup a._arrays m with
  | none =>
    simp only [SDFGArrays.on_gpu, alookup_append]
    rw [show alookup [(m, (⟨none, some (freshFrom ("gpu_" ++ m) (akeys a.sdfgArrays)),
        ArrayStatus.GPU_ONLY⟩ : ArrayType))] n = none by simp [alookup, h]]
    cases alookup a._arrays n <;> simp [Option.or]
  | some e =>
    by_cases hs : e.status = ArrayStatus.GPU_ONLY ∨ e.status = ArrayStatus.CPU_AND_GPU_THIS_SDFG
    · simp [hs]
    · simp only [hs, if_false]
      simp [SDFGArrays.on_gpu, alookup_aupdate_ne _ _ _ _ h]

theorem on_gpu_clone_to_gpu_self (a : SDFGArrays) (n : String) (d : Desc) :
    (a.clone_to_gpu n d).2.on_gpu n = true := by
  unfold SDFGArrays.clone_to_gpu
  cases he : alookup a._arrays n with
  | none =>
    simp only [SDFGArrays.on_gpu, alookup_append, he]
    simp [alookup, Option.or]
  | some e =>
    by_cases hs : e.status = ArrayStatus.GPU_ONLY ∨ e.status = ArrayStatus.CPU_AND_GPU_THIS_SDFG
    · simp [hs, SDFGArrays.on_gpu, he]
    · simp only [hs, if_false]
      simp [SDFGArrays.on_gpu, alookup_aupdate_self, he]

theorem step1InputsL_preserve (l : List (String × Desc)) (a : SDFGArrays)
    (n : String) (h : a.on_gpu n = true) : (step1InputsL l a).on_gpu n = true := by
  induction l generalizing a with
  | nil => exact h
  | cons p t ih =>
    simp only [step1InputsL, List.foldl_cons]
    by_cases h1 : p.2.isScalar
    · simpa [step1InputsL, h1] using ih a h
    · by_cases h2 : p.2.storage = StorageType.GPU_Global
      · simpa [step1InputsL, h1, h2] using ih a h
      · simp only [h1, h2, if_false, Bool.false_eq_true]
        by_cases hp : p.1 = n
        · subst hp
          refine ih _ ?_
          rw [clone_to_gpu_of_on_gpu a p.1 p.2 h]
          exact h
        · refine ih _ ?_
          rw [on_gpu_clone_to_gpu_other a p.1 n p.2 hp]
          exact h

theorem step1OutputsL_preserve (l : List (String × Desc)) (a : SDFGArrays)
    (n : String) (h : a.on_gpu n = true) : (step1OutputsL l a).on_gpu n = true := by
  induction l generalizing a with
  | nil => exact h
  | cons p t ih =>
    simp only [step1OutputsL, List.foldl_cons]
    by_cases h1 : a.on_gpu p.1
    · simpa [step1OutputsL, h1] using ih a h
    · by_cases h2 : p.2.storage = StorageType.GPU_Global
      · simpa [step1OutputsL, h1, h2] using ih a h
      · simp only [h1, h2, if_false, Bool.false_eq_true]
        by_cases hp : p.1 = n
        · subst hp
          exact ih _ (by rw [on_gpu_clone_to_gpu_self])
        · refine ih _ ?_
          rw [on_gpu_clone_to_gpu_other a p.1 n p.2 hp]
          exact h

theorem step1InputsL_on_gpu (l : List (String × Desc)) (a : SDFGArrays) (n : String) :
    (step1InputsL l a).on_gpu n = true ↔
      (a.on_gpu n = true ∨ ∃ p ∈ l, p.1 = n ∧ p.2.isScalar = false ∧
        p.2.storage ≠ StorageType.GPU_Global) := by
  induction l generalizing a with
  | nil => simp [step1InputsL]
  | cons p t ih =>
    simp only [step1InputsL, List.foldl_cons]
    by_cases h1 : p.2.isScalar
    · rw [if_pos h1]
      rw [show (List.foldl _ a t) = step1InputsL t a from rfl, ih]
      constructor
      · rintro (h | h)
        · exact Or.inl h
        · exact Or.inr ⟨_, List.mem_cons_of_mem _ h.choose_spec.1, h.choose_spec.2⟩
      · rintro (h | ⟨q, hq, hqs⟩)
        · exact Or.inl h
        · rcases List.mem_cons.mp hq with hh | hh
          · subst hh
            exact absurd h1 (by simp [hqs.2.1])
          · exact Or.inr ⟨q, hh, hqs⟩
    · rw [if_neg h1]
      by_cases h2 : p.2.storage = StorageType.GPU_Global
      · rw [if_pos h2]
        rw [show (List.foldl _ a t) = step1InputsL t a from rfl, ih]
        constructor
        · rintro (h | ⟨q, hq, hqs⟩)
          · exact Or.inl h
          · exact Or.inr ⟨q, List.mem_cons_of_mem _ hq, hqs⟩
        · rintro (h | ⟨q, hq, hqs⟩)
          · exact Or.inl h
          · rcases List.mem_cons.mp hq with hh | hh
            · subst hh
              exact absurd h2 hqs.2.2
            · exact Or.inr ⟨q, hh, hqs⟩
      · rw [if_neg h2]
        rw [show (List.foldl _ ((a.clone_to_gpu p.1 p.2).2) t) =
          step1InputsL t ((a.clone_to_gpu p.1 p.2).2) from rfl, ih]
        by_cases hp : p.1 = n
        · subst hp
          constructor
          · intro _
            exact Or.inr ⟨p, List.mem_cons_self _ _,
              rfl, by simpa using h1, h2⟩
          · intro _
            exact Or.inl (by rw [on_gpu_clone_to_gpu_self])
        · rw [on_gpu_clone_to_gpu_other a p.1 n p.2 hp]
          constructor
          · rintro (h | ⟨q, hq, hqs⟩)
            · exact Or.inl h
            · exact Or.inr ⟨q, List.mem_cons_of_mem _ hq, hqs⟩
          · rintro (h | ⟨q, hq, hqs⟩)
            · exact Or.inl h
            · rcases List.mem_cons.mp hq with hh | hh
              · subst hh
                exact absurd hqs.1 hp
              · exact Or.inr ⟨q, hh, hqs⟩

theorem step1OutputsL_on_gpu (l : List (String × Desc)) (a : SDFGArrays) (n : String) :
    (step1OutputsL l a).on_gpu n = true ↔
      (a.on_gpu n = true ∨ ∃ p ∈ l, p.1 = n ∧
        p.2.storage ≠ StorageType.GPU_Global) := by
  induction l generalizing a with
  | nil => simp [step1OutputsL]
  | cons p t ih =>
    simp only [step1OutputsL, List.foldl_cons]
    by_cases h1 : a.on_gpu p.1
    · rw [if_pos h1]
      rw [show (List.foldl _ a t) = step1OutputsL t a from rfl, ih]
      constructor
      · rintro (h | ⟨q, hq, hqs⟩)
        · exact Or.inl h
        · exact Or.inr ⟨q, List.mem_cons_of_mem _ hq, hqs⟩
      · rintro (h | ⟨q, hq, hqs⟩)
        · exact Or.inl h
        · rcases List.mem_cons.mp hq with hh | hh
          · subst hh
            exact Or.inl (hqs.1 ▸ h1)
          · exact Or.inr ⟨q, hh, hqs⟩
    · rw [if_neg h1]
      by_cases h2 : p.2.storage = StorageType.GPU_Global
      · rw [if_pos h2]
        rw [show (List.foldl _ a t) = step1OutputsL t a from rfl, ih]
        constructor
        · rintro (h | ⟨q, hq, hqs⟩)
          · exact Or.inl h
          · exact Or.inr ⟨q, List.mem_cons_of_mem _ hq, hqs⟩
        · rintro (h | ⟨q, hq, hqs⟩)
          · exact Or.inl h
          · rcases List.mem_cons.mp hq with hh | hh
            · subst hh
              exact absurd h2 hqs.2
            · exact Or.inr ⟨q, hh, hqs⟩
      · rw [if_neg h2]
        rw [show (List.foldl _ ((a.clone_to_gpu p.1 p.2).2) t) =
          step1OutputsL t ((a.clone_to_gpu p.1 p.2).2) from rfl, ih]
        by_cases hp : p.1 = n
        · subst hp
          constructor
          · intro _
            exact Or.inr ⟨p, List.mem_cons_self _ _, rfl, h2⟩
          · intro _
            exact Or.inl (by rw [on_gpu_clone_to_gpu_self])
        · rw [on_gpu_clone_to_gpu_other a p.1 n p.2 hp]
          constructor
          · rintro (h | ⟨q, hq, hqs⟩)
            · exact Or.inl h
            · exact Or.inr ⟨q, List.mem_cons_of_mem _ hq, hqs⟩
          · rintro (h | ⟨q, hq, hqs⟩)
            · exact Or.inl h
            · rcases List.mem_cons.mp hq with hh | hh
              · subst hh
                exact absurd hqs.1 hp
              · exact Or.inr ⟨q, hh, hqs⟩

/-! ### Claim C2 -/

def c2ScalarDesc : Desc :=
  { isScalar := true, storage := StorageType.CPU_Heap, transient := false }

/-- C2 counterexample: the claim says no scalar true input or true output is
ever cloned to the device.  Running step 1 on a graph whose only discovered
array is the scalar true output `s` (not a true input) clones `s`: the
registry records a device twin `gpu_s` and a second descriptor is
registered. -/
theorem c2_counterexample :
    c2ScalarDesc.isScalar = true ∧
    (step1 ⟨[], [("s", c2ScalarDesc)]⟩
        (SDFGArrays.from_sdfg [("s", c2ScalarDesc)])).on_gpu "s" = true ∧
    (step1 ⟨[], [("s", c2ScalarDesc)]⟩
        (SDFGArrays.from_sdfg [("s", c2ScalarDesc)])).gpu_array "s" = some "gpu_s" ∧
    (step1 ⟨[], [("s", c2ScalarDesc)]⟩
        (SDFGArrays.from_sdfg [("s", c2ScalarDesc)])).sdfgArrays.length = 2 := by
  decide

/-- C2 amended: in step 1, a true input or true output array acquires a
device twin (`on_gpu` becomes true) iff its storage is not `GPU_Global` and
it is either a non-scalar true input or a true output of any kind: the
scalar exemption applies only to the input loop, so scalar true outputs are
cloned. -/
theorem c2_amended (inputs outputs arrs : List (String × Desc)) (n : String)
    (d : Desc) (hd : alookup arrs n = some d)
    (hcons : ∀ p ∈ inputs ++ outputs, alookup arrs p.1 = some p.2) :
    (step1 ⟨inputs, outputs⟩ (SDFGArrays.from_sdfg arrs)).on_gpu n = true ↔
      (d.storage ≠ StorageType.GPU_Global ∧
        ((∃ p ∈ inputs, p.1 = n ∧ d.isScalar = false) ∨ ∃ p ∈ outputs, p.1 = n)) := by
  have hdesc : ∀ p, p ∈ inputs ++ outputs → p.1 = n → p.2 = d := by
    intro p hp hpn
    have := hcons p hp
    rw [hpn, hd] at this
    exact (Option.some_inj.mp this).symm
  unfold step1
  rw [step1OutputsL_on_gpu, step1InputsL_on_gpu, on_gpu_from_sdfg]
  simp only [Bool.false_eq_true, false_or]
  constructor
  · rintro (⟨q, hq, hqn, hqs, hqg⟩ | ⟨q, hq, hqn, hqg⟩)
    · rw [mem_dedupFirst] at hq
      have hqd := hdesc q (List.mem_append.mpr (Or.inl hq)) hqn
      subst hqd
      exact ⟨hqg, Or.inl ⟨q, hq, hqn, hqs⟩⟩
    · rw [mem_dedupFirst] at hq
      have hqd := hdesc q (List.mem_append.mpr (Or.inr hq)) hqn
      subst hqd
      exact ⟨hqg, Or.inr ⟨q, hq, hqn⟩⟩
  · rintro ⟨hg, (⟨q, hq, hqn, hqs⟩ | ⟨q, hq, hqn⟩)⟩
    · have hqd := hdesc q (List.mem_append.mpr (Or.inl hq)) hqn
      subst hqd
      exact Or.inl ⟨q, (mem_dedupFirst _ _).mpr hq, hqn, hqs, hg⟩
    · have hqd := hdesc q (List.mem_append.mpr (Or.inr hq)) hqn
      subst hqd
      exact Or.inr ⟨q, (mem_dedupFirst _ _).mpr hq, hqn, hg⟩

def c2ArrayDesc : Desc :=
  { isScalar := false, storage := StorageType.CPU_Heap, transient := false }

/-- C2 amended witness: the characterization applied to the concrete
discovery lists `inputs = [(a0, array)]`, `outputs = [(s, scalar)]` at the
scalar output `s`. -/
theorem c2_amended_witness :
    (alookup [("a0", c2ArrayDesc), ("s", c2ScalarDesc)] "s" = some c2ScalarDesc ∧
     ∀ p ∈ ([("a0", c2ArrayDesc)] ++ [("s", c2ScalarDesc)]),
       alookup [("a0", c2ArrayDesc), ("s", c2ScalarDesc)] p.1 = some p.2) ∧
    ((step1 ⟨[("a0", c2ArrayDesc)], [("s", c2ScalarDesc)]⟩
        (SDFGArrays.from_sdfg [("a0", c2ArrayDesc), ("s", c2ScalarDesc)])).on_gpu "s" =
          true ↔
      (c2ScalarDesc.storage ≠ StorageType.GPU_Global ∧
        ((∃ p ∈ [("a0", c2ArrayDesc)], p.1 = "s" ∧ c2ScalarDesc.isScalar = false) ∨
         ∃ p ∈ [("s", c2ScalarDesc)], p.1 = "s"))) :=
  ⟨⟨by decide, by decide⟩,
   c2_amended [("a0", c2ArrayDesc)] [("s", c2ScalarDesc)]
     [("a0", c2ArrayDesc), ("s", c2ScalarDesc)] "s" c2ScalarDesc
     (by decide) (by decide)⟩

/-! ### Scalar fixed-point absorption (the `while changed` loop) -/

/-- Modelled from the spec: `scope.is_devicelevel_gpu_kernel` — whether the
node executes inside a device-scheduled kernel region; we walk the scope
chain looking for a GPU-scheduled map entry. -/
def isDevicelevelAux (st : DState) : Nat → Option Nat → Bool
  | 0, _ => false
  | _, none => false
  | fuel + 1, some i =>
    match nodeAt st i with
    | DNode.mapEntry _ sch =>
      (sch = ScheduleType.GPU_Device || sch = ScheduleType.GPU_Default) ||
        isDevicelevelAux st fuel (st.scopeParent i)
    | _ => isDevicelevelAux st fuel (st.scopeParent i)

def isDevicelevel (st : DState) (i : Nat) : Bool :=
  isDevicelevelAux st st.nodes.length (st.scopeParent i)

/-- `_recursive_check`: walks outward (or inward) from a node, collecting the
scalar relay arrays and deciding whether every path terminates in a
host-resident scalar relay.  The fuel argument bounds the recursion depth;
on acyclic state graphs (an SDFG validity invariant) the node count
suffices. -/
def recursiveCheckAux (arrs : List (String × Desc)) (st : DState)
    (gpuScalars : List (String × Option String)) (isOut : Bool) :
    Nat → Nat → (List String × Bool)
  | 0, _ => ([], true)
  | fuel + 1, i =>
    let edges := if isOut then st.outEdgesIdx i else st.inEdgesIdx i
    edges.foldl (fun acc e =>
      let lastE := if isOut then memletPathLast st e else memletPathFirst st e
      match nodeAt st lastE.dst with
      | DNode.access dname =>
        match alookup arrs dname with
        | some desc =>
          if desc.isScalar then
            let scalout1 :=
              if desc.storage ∈ gpu_storage || (alookup gpuScalars dname).isSome then
                false
              else acc.2
            let r := recursiveCheckAux arrs st gpuScalars isOut fuel lastE.dst
            (dedupFirst (acc.1 ++ [dname] ++ r.1), scalout1 && r.2)
          else if decide (desc.storage ∉ gpu_storage) && lastE.numElements = 1 then
            let r := recursiveCheckAux arrs st gpuScalars isOut fuel lastE.dst
            (dedupFirst (acc.1 ++ r.1), acc.2 && r.2)
          else
            (acc.1, false)
        | none => acc
      | _ => acc) ([], true)

/-- Mutable state of the fixed-point loop: the promoted code nodes
(`global_code_nodes`, flattened to (state label, node index) pairs) and the
device-tainted scalars (`gpu_scalars`). -/
structure PState where
  promoted : List (String × Nat)
  gpuScalars : List (String × Option String)
deriving DecidableEq, Repr

def DNode.isTasklet : DNode → Bool
  | DNode.tasklet _ _ _ => true
  | _ => false

/-- One tasklet visit of the `while changed` sweep.  For the outer-level
invocation the enclosing SDFG has no parent, so the promotion condition
reduces to the output relay check failing. -/
def absorbStep (arrs : List (String × Desc)) (st : DState) (i : Nat)
    (acc : PState × Bool) : PState × Bool :=
  match nodeAt st i with
  | DNode.tasklet _ _ _ =>
    if (st.label, i) ∈ acc.1.promoted then acc
    else if st.scopeParent i = none && !(isDevicelevel st i) then
      let r1 := recursiveCheckAux arrs st acc.1.gpuScalars true st.nodes.length i
      let r2 := recursiveCheckAux arrs st acc.1.gpuScalars false st.nodes.length i
      let scalars := dedupFirst (r1.1 ++ r2.1)
      let scalarOut := r1.2 && r2.2
      if !scalarOut then
        ({ promoted := acc.1.promoted ++ [(st.label, i)],
           gpuScalars := scalars.foldl (fun g k => aset g k none) acc.1.gpuScalars },
         true)
      else acc
    else acc
  | _ => acc

/-- One full `while`-iteration: sweep every state and node, promoting where
required; the Bool is the `changed` flag. -/
def absorbPass (arrs : List (String × Desc)) (states : List DState) (p : PState) :
    PState × Bool :=
  states.foldl (fun acc st =>
    (List.range st.nodes.length).foldl (fun acc i => absorbStep arrs st i acc) acc)
    (p, false)

/-- The `while changed` loop, fuelled. -/
def absorb (arrs : List (String × Desc)) (states : List DState) :
    Nat → PState → PState
  | 0, p => p
  | fuel + 1, p =>
    let r := absorbPass arrs states p
    if r.2 then absorb arrs states fuel r.1 else r.1

def taskletIdx (st : DState) : List Nat :=
  (List.range st.nodes.length).filter (fun i => (nodeAt st i).isTasklet)

def codeNodeIdx (st : DState) : List Nat :=
  (List.range st.nodes.length).filter (fun i => (nodeAt st i).isCode)

def taskletKeys (states : List DState) : List (String × Nat) :=
  (states.map (fun st => (taskletIdx st).map (fun i => (st.label, i)))).flatten

def codeNodeCount (states : List DState) : Nat :=
  (states.map (fun st => (codeNodeIdx st).length)).sum

def scalarCount (arrs : List (String × Desc)) : Nat :=
  (arrs.filter (fun p => p.2.isScalar)).length

/-! #### Invariant machinery for the fixed-point proof -/

theorem mem_akeys_aset {κ α : Type} [DecidableEq κ] (l : List (κ × α)) (k k' : κ)
    (v : α) (h : k ∈ akeys l) : k ∈ akeys (aset l k' v) := by
  induction l with
  | nil => cases h
  | cons p t ih =>
    obtain ⟨a, b⟩ := p
    by_cases ha : a = k'
    · have he : aset ((a, b) :: t) k' v = (a, v) :: t := by simp [aset, ha]
      rw [he]
      exact h
    · have he : aset ((a, b) :: t) k' v = (a, b) :: aset t k' v := by simp [aset, ha]
      rw [he]
      rcases List.mem_cons.mp (show k ∈ a :: akeys t from h) with hh | hh
      · exact show k ∈ a :: akeys (aset t k' v) from List.mem_cons.mpr (Or.inl hh)
      · exact show k ∈ a :: akeys (aset t k' v) from
          List.mem_cons.mpr (Or.inr (ih hh))

theorem mem_akeys_foldl_aset {κ α : Type} [DecidableEq κ]
    (ks : List κ) (g : List (κ × α)) (v : α) (k : κ) (h : k ∈ akeys g) :
    k ∈ akeys (ks.foldl (fun g k' => aset g k' v) g) := by
  induction ks generalizing g with
  | nil => exact h
  | cons a t ih => exact ih _ (mem_akeys_aset _ _ _ _ h)

/-- The composite progress relation maintained along the sweep. -/
def passReach (K : List (String × Nat)) (a b : PState × Bool) : Prop :=
  (b = a ∨ (b.2 = true ∧ a.1.promoted.length < b.1.promoted.length)) ∧
  (∀ x ∈ a.1.promoted, x ∈ b.1.promoted) ∧
  (∀ k ∈ akeys a.1.gpuScalars, k ∈ akeys b.1.gpuScalars) ∧
  (a.1.promoted.Nodup → b.1.promoted.Nodup) ∧
  ((∀ x ∈ a.1.promoted, x ∈ K) → (∀ x ∈ b.1.promoted, x ∈ K))

theorem passReach_refl (K : List (String × Nat)) (a : PState × Bool) :
    passReach K a a :=
  ⟨Or.inl rfl, fun _ h => h, fun _ h => h, id, id⟩

theorem passReach_trans (K : List (String × Nat)) {a b c : PState × Bool}
    (h1 : passReach K a b) (h2 : passReach K b c) : passReach K a c := by
  obtain ⟨hb1, hb2, hb3, hb4, hb5⟩ := h1
  obtain ⟨hc1, hc2, hc3, hc4, hc5⟩ := h2
  refine ⟨?_, fun x h => hc2 x (hb2 x h), fun k h => hc3 k (hb3 k h),
    fun h => hc4 (hb4 h), fun h => hc5 (hb5 h)⟩
  rcases hc1 with hc1 | hc1
  · rw [hc1]
    exact hb1
  · rcases hb1 with hb1 | hb1
    · rw [hb1] at hc1
      exact Or.inr hc1
    · exact Or.inr ⟨hc1.1, lt_trans hb1.2 hc1.2⟩

theorem absorbStep_passReach (arrs : List (String × Desc)) (states : List DState)
    (st : DState) (hst : st ∈ states) (i : Nat) (hi : i ∈ List.range st.nodes.length)
    (acc : PState × Bool) :
    passReach (taskletKeys states) acc (absorbStep arrs st i acc) := by
  unfold absorbStep
  cases hn : nodeAt st i with
  | tasklet lbl ic oc =>
    by_cases h1 : (st.label, i) ∈ acc.1.promoted
    · simpa [h1] using passReach_refl _ acc
    · rw [if_neg h1]
      by_cases h2 : (st.scopeParent i = none && !(isDevicelevel st i)) = true
      · rw [if_pos h2]
        by_cases h3 : (!((recursiveCheckAux arrs st acc.1.gpuScalars true
            st.nodes.length i).2 &&
            (recursiveCheckAux arrs st acc.1.gpuScalars false st.nodes.length i).2)) = true
        · rw [if_pos h3]
          have hkey : (st.label, i) ∈ taskletKeys states := by
            unfold taskletKeys
            rw [List.mem_flatten]
            refine ⟨(taskletIdx st).map (fun j => (st.label, j)), ?_, ?_⟩
            · exact List.mem_map_of_mem _ hst
            · refine List.mem_map_of_mem _ ?_
              unfold taskletIdx
              rw [List.mem_filter]
              exact ⟨hi, by simp [hn, DNode.isTasklet]⟩
          refine ⟨Or.inr ⟨rfl, by simp⟩, ?_, ?_, ?_, ?_⟩
          · intro x h
            exact List.mem_append.mpr (Or.inl h)
          · intro k h
            exact mem_akeys_foldl_aset _ _ _ _ h
          · intro h
            simpa [List.nodup_append] using ⟨h, h1⟩
          · intro h x hx
            rcases List.mem_append.mp hx with hx | hx
            · exact h x hx
            · simp at hx
              rw [hx]
              exact hkey
        · rw [if_neg h3]
          exact passReach_refl _ acc
      · rw [if_neg h2]
        exact passReach_refl _ acc
  | access d => exact passReach_refl _ acc
  | mapEntry l s => exact passReach_refl _ acc
  | mapExit l s => exact passReach_refl _ acc
  | consumeEntry l => exact passReach_refl _ acc
  | consumeExit l => exact passReach_refl _ acc
  | library l s => exact passReach_refl _ acc
  | nested l s inner => exact passReach_refl _ acc

theorem foldl_passReach {β : Type} (K : List (String × Nat))
    (f : PState × Bool → β → PState × Bool) (l : List β)
    (h : ∀ acc b, b ∈ l → passReach K acc (f acc b)) (acc : PState × Bool) :
    passReach K acc (l.foldl f acc) := by
  induction l generalizing acc with
  | nil => exact passReach_refl _ acc
  | cons b t ih =>
    refine passReach_trans K (h acc b (List.mem_cons_self _ _)) ?_
    exact ih (fun acc' b' hb' => h acc' b' (List.mem_cons_of_mem _ hb')) _

theorem absorbPass_passReach (arrs : List (String × Desc)) (states : List DState)
    (p : PState) :
    passReach (taskletKeys states) (p, false) (absorbPass arrs states p) := by
  unfold absorbPass
  refine foldl_passReach _ _ _ ?_ _
  intro acc st hstm
  refine foldl_passReach _ _ _ ?_ _
  intro acc' i hi
  exact absorbStep_passReach arrs states st hstm i hi acc'

theorem length_le_of_nodup_subset {α : Type} [DecidableEq α] {l l' : List α}
    (hn : l.Nodup) (hs : ∀ x ∈ l, x ∈ l') : l.length ≤ l'.length := by
  calc l.length = l.toFinset.card := (List.toFinset_card_of_nodup hn).symm
    _ ≤ l'.toFinset.card := Finset.card_le_card (fun x hx =>
        List.mem_toFinset.mpr (hs x (List.mem_toFinset.mp hx)))
    _ ≤ l'.length := List.toFinset_card_le _

theorem length_filter_mono {α : Type} (l : List α) (p q : α → Bool)
    (h : ∀ x ∈ l, p x = true → q x = true) :
    (l.filter p).length ≤ (l.filter q).length := by
  induction l with
  | nil => simp
  | cons a t ih =>
    have ht : ∀ x ∈ t, p x = true → q x = true :=
      fun x hx => h x (List.mem_cons_of_mem _ hx)
    by_cases hp : p a = true
    · rw [List.filter_cons_of_pos hp,
        List.filter_cons_of_pos (h a (List.mem_cons_self _ _) hp)]
      simpa using ih ht
    · rw [List.filter_cons_of_neg (by simpa using hp)]
      by_cases hq : q a = true
      · rw [List.filter_cons_of_pos hq]
        exact le_trans (ih ht) (by simp)
      · rw [List.filter_cons_of_neg (by simpa using hq)]
        exact ih ht

theorem taskletKeys_length_le (states : List DState) :
    (taskletKeys states).length ≤ codeNodeCount states := by
  induction states with
  | nil => simp [taskletKeys, codeNodeCount]
  | cons st t ih =>
    have h1 : (taskletIdx st).length ≤ (codeNodeIdx st).length := by
      unfold taskletIdx codeNodeIdx
      refine length_filter_mono _ _ _ ?_
      intro i _ hp
      cases hn : nodeAt st i <;> simp [hn, DNode.isTasklet, DNode.isCode] at hp ⊢
    have hlen : (taskletKeys (st :: t)).length =
        (taskletIdx st).length + (taskletKeys t).length := by
      simp [taskletKeys, List.length_append, List.length_map]
    have hcc : codeNodeCount (st :: t) =
        (codeNodeIdx st).length + codeNodeCount t := by
      simp [codeNodeCount]
    omega

/-- The fuelled loop reaches a fixed point once the fuel majorises the
number of still-promotable tasklets. -/
theorem absorb_fixed (arrs : List (String × Desc)) (states : List DState) :
    ∀ (fuel : Nat) (p : PState), p.promoted.Nodup →
      (∀ x ∈ p.promoted, x ∈ taskletKeys states) →
      (taskletKeys states).length + 1 ≤ fuel + p.promoted.length →
      absorbPass arrs states (absorb arrs states fuel p) =
        (absorb arrs states fuel p, false) := by
  intro fuel
  induction fuel with
  | zero =>
    intro p hn hs hb
    exact absurd (length_le_of_nodup_subset hn hs) (by omega)
  | succ fuel ih =>
    intro p hn hs hb
    obtain ⟨h1, h2, h3, h4, h5⟩ := absorbPass_passReach arrs states p
    have heq : absorb arrs states (fuel + 1) p =
        (if (absorbPass arrs states p).2 then
          absorb arrs states fuel (absorbPass arrs states p).1
        else (absorbPass arrs states p).1) := rfl
    by_cases hc : (absorbPass arrs states p).2 = true
    · rw [heq, if_pos hc]
      refine ih (absorbPass arrs states p).1 (h4 hn) (h5 hs) ?_
      rcases h1 with h1 | h1
      · rw [h1] at hc
        simp at hc
      · have hlt := h1.2
        simp only at hlt
        omega
    · rw [heq, if_neg hc]
      rcases h1 with h1 | h1
      · rw [h1]
        exact h1
      · exact absurd h1.1 hc

/-- C9: the scalar fixed-point absorption loop terminates.  The promoted sets
only grow across a pass, a pass that promotes nothing returns `changed = false`
with the state unchanged (ending the loop), and running the loop with fuel
`codeNodeCount + scalarCount + 1` reaches a genuine fixed point: one more
pass changes nothing. -/
theorem c9_fixed_point (g : SDFG) :
    (∀ p : PState,
       (∀ x ∈ p.promoted, x ∈ (absorbPass g.arrays g.states p).1.promoted) ∧
       (∀ k ∈ akeys p.gpuScalars,
          k ∈ akeys (absorbPass g.arrays g.states p).1.gpuScalars) ∧
       ((absorbPass g.arrays g.states p).2 = false →
          (absorbPass g.arrays g.states p).1 = p)) ∧
    (absorbPass g.arrays g.states
        (absorb g.arrays g.states (codeNodeCount g.states + scalarCount g.arrays + 1)
          ⟨[], []⟩) =
      (absorb g.arrays g.states (codeNodeCount g.states + scalarCount g.arrays + 1)
        ⟨[], []⟩, false)) := by
  constructor
  · intro p
    obtain ⟨h1, h2, h3, h4, h5⟩ := absorbPass_passReach g.arrays g.states p
    refine ⟨h2, h3, ?_⟩
    intro hf
    rcases h1 with h1 | h1
    · rw [h1]
    · rw [h1.1] at hf
      simp at hf
  · refine absorb_fixed g.arrays g.states _ ⟨[], []⟩ (by simp) (by simp) ?_
    have := taskletKeys_length_le g.states
    simp only [List.length_nil]
    omega

/-! ### The transform state and the control-level pipeline -/

/-- State threaded through `apply`: the registry (holding the live
descriptor table), the states, the inter-state edges, and metadata. -/
structure TState where
  arrs : SDFGArrays
  states : List DState
  iedges : List CEdge
  startLabel : String
  label : String
  loops : List LoopInfo
deriving Repr

def stateLabels (ts : TState) : List String := ts.states.map (fun st => st.label)

/-- `sdfg.add_state(base)`: adds an empty state whose label is made unique by
probing the existing labels. -/
def addState (ts : TState) (base : String) : String × TState :=
  let lbl := freshFrom base (stateLabels ts)
  (lbl, { ts with states := ts.states ++ [⟨lbl, [], [], []⟩] })

def updateState (ts : TState) (lbl : String) (f : DState → DState) : TState :=
  { ts with states := ts.states.map (fun st => if st.label = lbl then f st else st) }

/-- The mutation performed on a state by adding one copy: append the two
access nodes and the copy edge between them. -/
def appendCopy (srcName dstName memName : String) (st : DState) : DState :=
  { st with
    nodes := st.nodes ++ [DNode.access srcName, DNode.access dstName],
    dedges := st.dedges ++
      [{ src := st.nodes.length, dst := st.nodes.length + 1, data := memName }] }

/-- Appends a source/destination access-node pair and a copy data edge into
the state with the given label (`add_node` twice plus `add_nedge` with
`Memlet.from_array(memName, ...)`). -/
def addCopyPair (ts : TState) (lbl srcName dstName memName : String) : TState :=
  updateState ts lbl (appendCopy srcName dstName memName)

/-- The copy pairs materialized in a state: its data edges between access
nodes, as (source array, destination array) pairs. -/
def copyPairs (st : DState) : List (String × String) :=
  st.dedges.filterMap (fun e =>
    match nodeAt st e.src, nodeAt st e.dst with
    | DNode.access s, DNode.access d => some (s, d)
    | _, _ => none)

def getState (ts : TState) (lbl : String) : Option DState :=
  ts.states.find? (fun st => st.label = lbl)

def copyPairsOf (ts : TState) (lbl : String) : List (String × String) :=
  match getState ts lbl with
  | some st => copyPairs st
  | none => []

/-- `sdfg.sink_nodes()`: states with no outgoing control edge. -/
def sinkLabels (states : List DState) (iedges : List CEdge) : List String :=
  (states.map (fun st => st.label)).filter
    (fun l => !(iedges.any (fun e => e.src = l)))

/-- Step 2: create the copy-in state, connect it to the original start state,
and add one host→device copy for each deduplicated true input that is
`on_gpu` and not excluded. -/
def step2 (excluded : List String) (inputs : List (String × Desc)) (ts : TState) :
    String × TState :=
  let (ci, ts) := addState ts (ts.label ++ "_copyin")
  let ts := { ts with iedges := ts.iedges ++ [{ src := ci, dst := ts.startLabel }] }
  let ts := (dedupFirst inputs).foldl (fun ts p =>
    if p.1 ∈ excluded || !(ts.arrs.on_gpu p.1) then ts
    else addCopyPair ts ci p.1 ((ts.arrs.gpu_array p.1).getD p.1) p.1) ts
  (ci, ts)

/-- Step 3: create the copy-out state, connect every original sink state to
it, and add one device→host copy for each deduplicated true output that is
`on_gpu` and not excluded. -/
def step3 (excluded : List String) (outputs : List (String × Desc))
    (sinks : List String) (ts : TState) : String × TState :=
  let (co, ts) := addState ts (ts.label ++ "_copyout")
  let ts := { ts with iedges :=
    ts.iedges ++ sinks.map (fun s => { src := s, dst := co }) }
  let ts := (dedupFirst outputs).foldl (fun ts p =>
    if p.1 ∈ excluded || !(ts.arrs.on_gpu p.1) then ts
    else addCopyPair ts co ((ts.arrs.gpu_array p.1).getD p.1) p.1 p.1) ts
  (co, ts)

/-! ### Step 4: retarget top-level scopes and opaque nodes to the device -/

def DNode.setSchedule : DNode → ScheduleType → DNode
  | DNode.mapEntry l _, sch => DNode.mapEntry l sch
  | DNode.mapExit l _, sch => DNode.mapExit l sch
  | DNode.library l _, sch => DNode.library l sch
  | DNode.nested l _ inner, sch => DNode.nested l sch inner
  | n, _ => n

/-- `state.exit_node(entry)`: the matching exit node of a scope entry. -/
def exitOf (st : DState) (i : Nat) : Option Nat :=
  (List.range st.nodes.length).find? (fun j =>
    (match nodeAt st j with | DNode.mapExit _ _ => true | _ => false) &&
      st.scopeParent j = some i)

/-- Schedule pass of step 4 on one state: returns the updated state and the
indices of the nodes added to `gpu_nodes`. -/
def step4State (st : DState) : DState × List Nat :=
  (List.range st.nodes.length).foldl (fun (acc : DState × List Nat) i =>
    let stc := acc.1
    if stc.scopeParent i = none then
      match nodeAt stc i with
      | DNode.library _ _ =>
        let nodes' := stc.nodes.set i ((nodeAt stc i).setSchedule ScheduleType.GPU_Default)
        ({ stc with nodes := nodes' }, acc.2 ++ [i])
      | DNode.nested _ _ _ =>
        let nodes' := stc.nodes.set i ((nodeAt stc i).setSchedule ScheduleType.GPU_Default)
        ({ stc with nodes := nodes' }, acc.2 ++ [i])
      | DNode.mapEntry _ _ =>
        let nodes' := stc.nodes.set i ((nodeAt stc i).setSchedule ScheduleType.GPU_Device)
        ({ stc with nodes := nodes' }, acc.2 ++ [i])
      | _ => acc
    else acc) (st, [])

/-- Output-move pass of step 4: for each `gpu_nodes` member, resolve its
outputs through the memlet path and `move_to_gpu` the terminating access
nodes. -/
def step4MoveOutputs (st : DState) (idxs : List Nat) (a : SDFGArrays) : SDFGArrays :=
  idxs.foldl (fun a i =>
    match nodeAt st i with
    | DNode.library _ _ =>
      (st.outEdgesIdx i).foldl (fun a e =>
        match nodeAt st (memletPathLast st e).dst with
        | DNode.access d => a.move_to_gpuT d
        | _ => a) a
    | DNode.nested _ _ _ =>
      (st.outEdgesIdx i).foldl (fun a e =>
        match nodeAt st (memletPathLast st e).dst with
        | DNode.access d => a.move_to_gpuT d
        | _ => a) a
    | DNode.mapEntry _ _ =>
      match exitOf st i with
      | some j =>
        (st.outEdgesIdx j).foldl (fun a e =>
          match nodeAt st (memletPathLast st e).dst with
          | DNode.access d => a.move_to_gpuT d
          | _ => a) a
      | none => a
    | _ => a) a

def step4 (ts : TState) : TState :=
  let pairs := ts.states.map step4State
  let a' := pairs.foldl (fun a p => step4MoveOutputs p.1 p.2 a) ts.arrs
  { ts with states := pairs.map Prod.fst, arrs := a' }

/-! ### Step 6: transient storage assignment -/

/-- Step 6 on one state: device-promote top-level host transients (except
host scalars not device-tainted and arrays feeding dynamic map ranges),
hoisting allocation lifetime when all free symbols are compile-time
constants; demote remaining nested host transients to registers.  Stream and
view descriptors are not part of this model. -/
def step6State (gpuScalars : List (String × Option String)) (constSyms : List String)
    (toplevelTrans registerTrans : Bool) (a : SDFGArrays) (st : DState) :
    SDFGArrays :=
  (List.range st.nodes.length).foldl (fun a i =>
    match nodeAt st i with
    | DNode.access dname =>
      match alookup a.sdfgArrays dname with
      | some desc =>
        if desc.transient then
          if (st.outEdgesIdx i).any (fun e =>
              (nodeAt st (memletPathLast st e).dst).isEntry) then a
          else if st.scopeParent i = none && decide (desc.storage ∉ gpu_storage) &&
              !(isDevicelevel st i) then
            if desc.isScalar && !(alookup gpuScalars dname).isSome then a
            else
              let a := a.move_to_gpuT dname
              if toplevelTrans && desc.freeSymbols.all (fun s => s ∈ constSyms) then
                let sd := aupdate a.sdfgArrays dname
                  (fun d => { d with lifetime := AllocationLifetime.SDFG })
                { a with sdfgArrays := sd }
              else a
          else if decide (desc.storage ∉ gpu_storage) then
            if registerTrans then
              let sd := aupdate a.sdfgArrays dname
                (fun d => { d with storage := StorageType.Register })
              { a with sdfgArrays := sd }
            else a
          else a
        else a
      | none => a
    | _ => a) a

def step6 (gpuScalars : List (String × Option String)) (constSyms : List String)
    (toplevelTrans registerTrans : Bool) (ts : TState) : TState :=
  let a' := ts.states.foldl
    (fun a st => step6State gpuScalars constSyms toplevelTrans registerTrans a st)
    ts.arrs
  { ts with arrs := a' }

/-! ### Control-edge residency fix-up (`_handle_interstate_edges`) -/

structure HIEState where
  ts : TState
  scal : List (String × Option String)
  copies : List (String × List (String × String))
deriving Repr

/-- `arrays_used` for one state: the union over its outgoing control edges of
the free symbols intersected with the cloned-data set. -/
def outSyms (iedges : List CEdge) (lbl : String) (cloned : List String) :
    List String :=
  dedupFirst (((iedges.filter (fun e => e.src = lbl)).map (fun e =>
    e.syms.filter (fun s => s ∈ cloned))).flatten)

/-- Process one name inside the interim copy-out state: resolve the host
shadow (lazily creating one for a promoted scalar, or through the registry
for an array), add a device→host copy into the interim state, and replace
the device name by the host name in every control edge leaving the interim
state. -/
def hieName (coLbl : String) (h : HIEState) (nname : String) : HIEState :=
  let r :=
    match alookup h.scal nname with
    | some vOpt =>
      match vOpt with
      | none =>
        match alookup h.ts.arrs.sdfgArrays nname with
        | some desc =>
          let hn := freshFrom ("host_" ++ nname) (akeys h.ts.arrs.sdfgArrays)
          let desc' := { desc with storage := StorageType.CPU_Heap, transient := true }
          (hn, nname,
           { h.ts with arrs := { h.ts.arrs with
               sdfgArrays := h.ts.arrs.sdfgArrays ++ [(hn, desc')] } },
           aset h.scal nname (some hn))
        | none => (nname, nname, h.ts, h.scal)
      | some hn => (hn, nname, h.ts, h.scal)
    | none =>
      if h.ts.arrs.on_cpu nname then
        ((h.ts.arrs.cpu_array nname).getD nname,
         (h.ts.arrs.gpu_array nname).getD "", h.ts, h.scal)
      else
        let c := h.ts.arrs.clone_to_cpu nname
          ((alookup h.ts.arrs.sdfgArrays nname).getD
            { isScalar := false, storage := StorageType.CPU_Heap, transient := false })
        (c.1.getD nname, (c.2.gpu_array nname).getD "",
         { h.ts with arrs := c.2 }, h.scal)
  let hostname := r.1
  let devicename := r.2.1
  let ts := addCopyPair r.2.2.1 coLbl devicename hostname hostname
  let ts := { ts with iedges := ts.iedges.map (fun e =>
    if e.src = coLbl then
      { e with syms := e.syms.map (fun s => if s = devicename then hostname else s) }
    else e) }
  { ts := ts, scal := r.2.2.2,
    copies := aappend h.copies coLbl (devicename, hostname) }

/-- Process one state of the snapshot: if any outgoing control edge uses
cloned data, insert the interim state, redirect all outgoing edges to leave
from it, add the unconditional source→interim edge, then process each used
name. -/
def hieState (cloned : List String) (h : HIEState) (lbl : String) : HIEState :=
  let arraysUsed := outSyms h.ts.iedges lbl cloned
  if arraysUsed = [] then h
  else
    let r := addState h.ts (lbl ++ "_icopyout")
    let co := r.1
    let ts := { r.2 with iedges :=
      (r.2.iedges.map (fun e => if e.src = lbl then { e with src := co } else e)) ++
        [{ src := lbl, dst := co }] }
    arraysUsed.foldl (hieName co) { h with ts := ts }

def handle_interstate_edges (ts : TState) (scal : List (String × Option String)) :
    HIEState :=
  let cloned := dedupFirst (ts.arrs.arrayKeys ++ akeys scal)
  (stateLabels ts).foldl (hieState cloned) { ts := ts, scal := scal, copies := [] }

/-! ### Host/device boundary copy elision (`_handle_cpu_code`) -/

/-- Loop-info provider query: the (first) loop whose body contains the
state. -/
def stateInsideLoop (loops : List LoopInfo) (lbl : String) : Option LoopInfo :=
  loops.find? (fun l => lbl ∈ l.body)

/-- Sweep state: the graph, the per-loop pending copy obligations, and the
containers already redirected to host shadows. -/
structure SweepState where
  ts : TState
  cpuObl : List (LoopInfo × List (String × String))
  gpuObl : List (LoopInfo × List (String × String))
  moved : List String
deriving Repr

/-- Process one outgoing edge of a host tasklet's write connector. -/
def sweepOutEdge (lbl : String) (i : Nat) (c : String) (loopInfo : Option LoopInfo)
    (s : SweepState) (e : DEdge) : SweepState :=
  match getState s.ts lbl with
  | none => s
  | some st =>
    match nodeAt st e.dst with
    | DNode.access dstData =>
      match alookup s.ts.arrs.sdfgArrays dstData with
      | some dataDesc =>
        if dataDesc.storage ∈ gpu_storage then
          let arrayName := dstData
          let r :=
            if s.ts.arrs.on_cpu arrayName then
              ((s.ts.arrs.cpu_array arrayName).getD arrayName, s.ts.arrs)
            else
              let c' := s.ts.arrs.clone_to_cpu arrayName dataDesc
              (c'.1.getD arrayName, c'.2)
          let newName := r.1
          let s := { s with ts := { s.ts with arrs := r.2 } }
          match loopInfo with
          | none =>
            -- splice a host-shadow→device copy after the write and redirect
            -- the tasklet's write connector to the host shadow
            { s with ts := updateState s.ts lbl (fun st =>
                let cpuIdx := st.nodes.length
                let withCopy := st.dedges ++
                  [{ src := cpuIdx, dst := e.dst, data := newName,
                     numElements := e.numElements }]
                { st with
                  nodes := st.nodes ++ [DNode.access newName],
                  dedges := withCopy.erase e ++
                    [{ src := i, dst := cpuIdx, data := newName,
                       srcConn := some c, numElements := e.numElements }] }) }
          | some li =>
            { s with
              ts := updateState s.ts lbl (fun st =>
                { st with
                  nodes := st.nodes.set e.dst (DNode.access newName),
                  dedges := st.dedges.map (fun e' =>
                    if e' = e then { e' with data := newName } else e') }),
              gpuObl := aappend s.gpuObl li (newName, arrayName),
              moved := s.moved ++ [newName] }
        else if dstData ∈ s.moved then
          { s with ts := updateState s.ts lbl (fun st =>
              { st with dedges := st.dedges.map (fun e' =>
                  if e' = e then { e' with data := dstData } else e') }) }
        else s
      | none => s
    | _ => s

/-- Process one incoming edge of a host tasklet's read connector. -/
def sweepInEdge (lbl : String) (i : Nat) (c : String) (loopInfo : Option LoopInfo)
    (s : SweepState) (e : DEdge) : SweepState :=
  match getState s.ts lbl with
  | none => s
  | some st =>
    match nodeAt st e.src with
    | DNode.access srcData =>
      match alookup s.ts.arrs.sdfgArrays srcData with
      | some dataDesc =>
        if dataDesc.storage ∈ gpu_storage then
          let arrayName := srcData
          let r :=
            if s.ts.arrs.on_cpu arrayName then
              ((s.ts.arrs.cpu_array arrayName).getD arrayName, s.ts.arrs)
            else
              let c' := s.ts.arrs.clone_to_cpu arrayName dataDesc
              (c'.1.getD arrayName, c'.2)
          let newName := r.1
          let s := { s with ts := { s.ts with arrs := r.2 } }
          match loopInfo with
          | none =>
            -- splice a device→host-shadow copy before the read and redirect
            -- the tasklet's read connector to the host shadow
            { s with ts := updateState s.ts lbl (fun st =>
                let cpuIdx := st.nodes.length
                let withCopy := st.dedges ++
                  [{ src := e.src, dst := cpuIdx, data := srcData,
                     numElements := e.numElements }]
                { st with
                  nodes := st.nodes ++ [DNode.access newName],
                  dedges := withCopy.erase e ++
                    [{ src := cpuIdx, dst := i, data := newName,
                       dstConn := some c, numElements := e.numElements }] }) }
          | some li =>
            { s with
              ts := updateState s.ts lbl (fun st =>
                { st with
                  nodes := st.nodes.set e.src (DNode.access newName),
                  dedges := st.dedges.map (fun e' =>
                    if e' = e then { e' with data := newName } else e') }),
              cpuObl := aappend s.cpuObl li (arrayName, newName),
              moved := s.moved ++ [newName] }
        else if srcData ∈ s.moved then
          { s with ts := updateState s.ts lbl (fun st =>
              { st with dedges := st.dedges.map (fun e' =>
                  if e' = e then { e' with data := srcData } else e') }) }
        else s
      | none => s
    | _ => s

/-- Process one tasklet of the sweep snapshot: skip device-level tasklets,
then handle every write connector and every read connector. -/
def sweepTasklet (s : SweepState) (r : String × Nat) : SweepState :=
  let lbl := r.1
  let i := r.2
  match getState s.ts lbl with
  | none => s
  | some st0 =>
    let loopInfo := stateInsideLoop s.ts.loops lbl
    if st0.scopeParent i = none && !(isDevicelevel st0 i) then
      match nodeAt st0 i with
      | DNode.tasklet _ inConns outConns =>
        let s := outConns.foldl (fun s c =>
          match getState s.ts lbl with
          | some st =>
            (st.dedges.filter (fun e => e.src = i && e.srcConn = some c)).foldl
              (sweepOutEdge lbl i c loopInfo) s
          | none => s) s
        inConns.foldl (fun s c =>
          match getState s.ts lbl with
          | some st =>
            (st.dedges.filter (fun e => e.dst = i && e.dstConn = some c)).foldl
              (sweepInEdge lbl i c loopInfo) s
          | none => s) s
      | _ => s
    else s

/-- One step of the `inserted_copies` deduplication fold. -/
def insertDedupStep (lbl : String) (acc : TState × List String)
    (p : String × String) : TState × List String :=
  if p.1 ∈ acc.2 then acc
  else (addCopyPair acc.1 lbl p.1 p.2 p.2, acc.2 ++ [p.1])

/-- Materialize a list of copy pairs into a scaffold state, deduplicating on
the first component through the `inserted_copies` set. -/
def insertDedupCopies (ts : TState) (lbl : String)
    (copies : List (String × String)) : TState :=
  (copies.foldl (insertDedupStep lbl) (ts, [])).1

/-- Materialize the copy-in obligations of one loop: splice a scaffold state
onto every control edge entering the guard from outside the body, then fill
it with the deduplicated device→host copies. -/
def materializeCpuLoop (ts : TState) (li : LoopInfo)
    (copies : List (String × String)) : TState :=
  let r := addState ts (li.guard ++ "_loopcopyin")
  let lbl := r.1
  let ts := r.2
  let movedE := ts.iedges.filter (fun e => e.dst = li.guard && decide (e.src ∉ li.body))
  let kept := ts.iedges.filter (fun e => !(e.dst = li.guard && decide (e.src ∉ li.body)))
  let ts := { ts with iedges :=
    (kept ++ movedE.map (fun e => { e with dst := lbl })) ++
      [{ src := lbl, dst := li.guard }] }
  insertDedupCopies ts lbl copies

/-- Materialize the copy-out obligations of one loop.  The source scans the
guard's outgoing edges asserting that at most one leaves the body
(`condition_edge`), but then splices on `e` — the variable left over from the
scan, i.e. the LAST outgoing edge of the guard — rather than on
`condition_edge`. -/
def materializeGpuLoop (ts : TState) (li : LoopInfo)
    (copies : List (String × String)) : Except String TState :=
  let r := addState ts (li.guard ++ "_loopcopyout")
  let lbl := r.1
  let ts := r.2
  let outs := ts.iedges.filter (fun e => e.src = li.guard)
  let nonBody := outs.filter (fun e => decide (e.dst ∉ li.body))
  if 2 ≤ nonBody.length then Except.error "AssertionError"
  else
    match outs.getLast? with
    | none => Except.error "NameError"
    | some e =>
      let ts := { ts with iedges := ts.iedges.erase e ++
        [{ e with dst := lbl }, { src := lbl, dst := e.dst }] }
      Except.ok (insertDedupCopies ts lbl copies)

/-- `_handle_cpu_code`: snapshot the tasklets, sweep them, then materialize
the per-loop obligations (copy-in scaffolds first, then copy-out
scaffolds). -/
def handle_cpu_code (ts : TState) : Except String TState :=
  let trefs := (ts.states.map (fun st =>
    (taskletIdx st).map (fun i => (st.label, i)))).flatten
  let s := trefs.foldl sweepTasklet { ts := ts, cpuObl := [], gpuObl := [], moved := [] }
  let ts1 := s.cpuObl.foldl (fun ts p => materializeCpuLoop ts p.1 p.2) s.ts
  s.gpuObl.foldlM (fun ts p => materializeGpuLoop ts p.1 p.2) ts1

/-! ### The full transform pipeline (control-level view)

The nested-SDFG recursion of the source transforms nested interiors in
place and does not alter the outer control graph, so it contributes nothing
to this outer-level view; the final external simplification pass is an
out-of-scope collaborator and is not part of the model. -/

structure ApplyResult where
  ts : TState
  copyinLabel : String
  copyoutLabel : String
  sinks : List String
deriving Repr

def applyTransformFull (exclCI exclCO constSyms : List String) (g : SDFG) :
    Except String ApplyResult :=
  let disc := discover g
  let a0 := SDFGArrays.from_sdfg g.arrays
  let sinks := sinkLabels g.states g.iedges
  let a1 := step1 disc a0
  let ts : TState :=
    { arrs := a1, states := g.states.map (renameState a1), iedges := g.iedges,
      startLabel := g.startLabel, label := g.label, loops := g.loops }
  let r2 := step2 exclCI disc.input_nodes ts
  let r3 := step3 exclCO disc.output_nodes sinks r2.2
  let ts := step4 r3.2
  let p := absorb ts.arrs.sdfgArrays ts.states
    (codeNodeCount ts.states + scalarCount ts.arrs.sdfgArrays + 1) ⟨[], []⟩
  let ts := step6 p.gpuScalars constSyms true true ts
  let h := handle_interstate_edges ts p.gpuScalars
  (handle_cpu_code h.ts).map (fun ts' =>
    { ts := ts', copyinLabel := r2.1, copyoutLabel := r3.1, sinks := sinks })

/-! ### Characterization of scaffold-state contents -/

theorem getD_append_lt {α : Type} (l l' : List α) (i : Nat) (d : α)
    (h : i < l.length) : (l ++ l').getD i d = l.getD i d := by
  induction l generalizing i with
  | nil => simp at h
  | cons a t ih =>
    cases i with
    | zero => rfl
    | succ i => simpa using ih i (by simpa using h)

theorem getD_append_len {α : Type} (l : List α) (x : α) (rest : List α) (d : α) :
    (l ++ x :: rest).getD l.length d = x := by
  induction l with
  | nil => rfl
  | cons a t ih => simpa using ih

theorem getD_append_len_succ {α : Type} (l : List α) (x y : α) (rest : List α)
    (d : α) : (l ++ x :: y :: rest).getD (l.length + 1) d = y := by
  induction l with
  | nil => rfl
  | cons a t ih => exact ih

theorem find_label_map (l : List DState) (lbl : String) (f : DState → DState)
    (hf : ∀ st, (f st).label = st.label) :
    (l.map (fun st => if st.label = lbl then f st else st)).find?
        (fun st => st.label = lbl) =
      (l.find? (fun st => st.label = lbl)).map f := by
  induction l with
  | nil => rfl
  | cons st t ih =>
    by_cases h : st.label = lbl
    · rw [List.map_cons, if_pos h]
      rw [List.find?_cons_of_pos _ (by simpa [hf] using h),
        List.find?_cons_of_pos _ (by simpa using h)]
      rfl
    · rw [List.map_cons, if_neg h]
      rw [List.find?_cons_of_neg _ (by simpa using h),
        List.find?_cons_of_neg _ (by simpa using h)]
      exact ih

theorem getState_updateState_self (ts : TState) (lbl : String) (f : DState → DState)
    (hf : ∀ st, (f st).label = st.label) :
    getState (updateState ts lbl f) lbl = (getState ts lbl).map f :=
  find_label_map ts.states lbl f hf

theorem getState_updateState_other (ts : TState) (lbl lbl' : String)
    (f : DState → DState) (hf : ∀ st, (f st).label = st.label) (h : lbl' ≠ lbl) :
    getState (updateState ts lbl f) lbl' = getState ts lbl' := by
  unfold getState updateState
  induction ts.states with
  | nil => rfl
  | cons st t ih =>
    by_cases hl : st.label = lbl
    · rw [List.map_cons, if_pos hl]
      rw [List.find?_cons_of_neg _ (by simp [hf, hl, Ne.symm h]),
        List.find?_cons_of_neg _ (by simp [hl, Ne.symm h])]
      exact ih
    · rw [List.map_cons, if_neg hl]
      by_cases hl' : st.label = lbl'
      · rw [List.find?_cons_of_pos _ (by simpa using hl'),
          List.find?_cons_of_pos _ (by simpa using hl')]
      · rw [List.find?_cons_of_neg _ (by simpa using hl'),
          List.find?_cons_of_neg _ (by simpa using hl')]
        exact ih

/-- All data-edge endpoints of a state point at existing nodes. -/
def edgesInRange (st : DState) : Prop :=
  ∀ e ∈ st.dedges, e.src < st.nodes.length ∧ e.dst < st.nodes.length

theorem appendCopy_label (s d m : String) (st : DState) :
    (appendCopy s d m st).label = st.label := rfl

theorem edgesInRange_appendCopy (s d m : String) (st : DState)
    (h : edgesInRange st) : edgesInRange (appendCopy s d m st) := by
  intro e he
  have hlen : (appendCopy s d m st).nodes.length = st.nodes.length + 2 := by
    simp [appendCopy, List.length_append]
  rcases List.mem_append.mp he with he | he
  · obtain ⟨h1, h2⟩ := h e he
    rw [hlen]
    exact ⟨by omega, by omega⟩
  · simp only [List.mem_singleton] at he
    subst he
    rw [hlen]
    exact ⟨by simp, by simp⟩

theorem copyPairs_appendCopy (st : DState) (s d m : String) (h : edgesInRange st) :
    copyPairs (appendCopy s d m st) = copyPairs st ++ [(s, d)] := by
  have hAt : ∀ i, i < st.nodes.length → nodeAt (appendCopy s d m st) i = nodeAt st i := by
    intro i hi
    unfold nodeAt
    exact getD_append_lt _ _ _ _ hi
  have hAt1 : nodeAt (appendCopy s d m st) st.nodes.length = DNode.access s := by
    unfold nodeAt
    exact getD_append_len _ _ _ _
  have hAt2 : nodeAt (appendCopy s d m st) (st.nodes.length + 1) = DNode.access d := by
    unfold nodeAt
    exact getD_append_len_succ _ _ _ _ _
  have hedges : (appendCopy s d m st).dedges = st.dedges ++
      [{ src := st.nodes.length, dst := st.nodes.length + 1, data := m }] := rfl
  unfold copyPairs
  rw [hedges, List.filterMap_append]
  congr 1
  · refine List.filterMap_congr ?_
    intro e he
    obtain ⟨h1, h2⟩ := h e he
    rw [hAt _ h1, hAt _ h2]
  · simp [List.filterMap_cons, hAt1, hAt2]

def addPairsList (ts : TState) (lbl : String) (ps : List (String × String)) :
    TState :=
  ps.foldl (fun ts p => addCopyPair ts lbl p.1 p.2 p.2) ts

/-- The pure form of the `inserted_copies` deduplication: keep the first
pair for each distinct first component. -/
def dedupByFst : List (String × String) → List String → List (String × String)
  | [], _ => []
  | p :: t, seen =>
    if p.1 ∈ seen then dedupByFst t seen else p :: dedupByFst t (seen ++ [p.1])

theorem insertDedupCopies_eq (ts : TState) (lbl : String)
    (copies : List (String × String)) :
    insertDedupCopies ts lbl copies = addPairsList ts lbl (dedupByFst copies []) := by
  suffices h : ∀ (copies : List (String × String)) (seen : List String) (ts : TState),
      (copies.foldl (insertDedupStep lbl) (ts, seen)).1 =
      addPairsList ts lbl (dedupByFst copies seen) from h copies [] ts
  intro copies
  induction copies with
  | nil => intro seen ts; rfl
  | cons p t ih =>
    intro seen ts
    rw [List.foldl_cons]
    by_cases hp : p.1 ∈ seen
    · rw [show insertDedupStep lbl (ts, seen) p = (ts, seen) from by
        simp [insertDedupStep, hp]]
      rw [show dedupByFst (p :: t) seen = dedupByFst t seen from by
        simp [dedupByFst, hp]]
      exact ih seen ts
    · rw [show insertDedupStep lbl (ts, seen) p =
          (addCopyPair ts lbl p.1 p.2 p.2, seen ++ [p.1]) from by
        simp [insertDedupStep, hp]]
      rw [show dedupByFst (p :: t) seen = p :: dedupByFst t (seen ++ [p.1]) from by
        simp [dedupByFst, hp]]
      show _ = addPairsList ts lbl (p :: dedupByFst t (seen ++ [p.1]))
      unfold addPairsList
      rw [List.foldl_cons]
      exact ih (seen ++ [p.1]) (addCopyPair ts lbl p.1 p.2 p.2)

theorem copyPairsOf_addPairsList (ps : List (String × String)) (ts : TState)
    (lbl : String) (st : DState) (hst : getState ts lbl = some st)
    (hr : edgesInRange st) :
    copyPairsOf (addPairsList ts lbl ps) lbl = copyPairs st ++ ps := by
  induction ps generalizing ts st with
  | nil =>
    simp [addPairsList, copyPairsOf, hst]
  | cons p t ih =>
    have hst' : getState (addCopyPair ts lbl p.1 p.2 p.2) lbl =
        some (appendCopy p.1 p.2 p.2 st) := by
      unfold addCopyPair
      rw [getState_updateState_self _ _ _ (appendCopy_label p.1 p.2 p.2), hst]
      rfl
    have := ih (addCopyPair ts lbl p.1 p.2 p.2) (appendCopy p.1 p.2 p.2 st) hst'
      (edgesInRange_appendCopy _ _ _ _ hr)
    unfold addPairsList at this ⊢
    rw [List.foldl_cons, this, copyPairs_appendCopy st p.1 p.2 p.2 hr]
    simp

theorem dedupByFst_map_fst_nodup :
    ∀ (copies : List (String × String)) (seen : List String),
      ((dedupByFst copies seen).map Prod.fst).Nodup ∧
      ∀ x ∈ (dedupByFst copies seen).map Prod.fst, x ∉ seen := by
  intro copies
  induction copies with
  | nil => intro seen; simp [dedupByFst]
  | cons p t ih =>
    intro seen
    by_cases hp : p.1 ∈ seen
    · rw [show dedupByFst (p :: t) seen = dedupByFst t seen from by
        simp [dedupByFst, hp]]
      exact ih seen
    · rw [show dedupByFst (p :: t) seen = p :: dedupByFst t (seen ++ [p.1]) from by
        simp [dedupByFst, hp]]
      obtain ⟨ihn, ihs⟩ := ih (seen ++ [p.1])
      constructor
      · simp only [List.map_cons, List.nodup_cons]
        refine ⟨fun hmem => ?_, ihn⟩
        have := ihs _ hmem
        simp at this
      · intro x hx hxs
        simp only [List.map_cons, List.mem_cons] at hx
        rcases hx with hx | hx
        · exact hp (hx ▸ hxs)
        · exact ihs x hx (List.mem_append.mpr (Or.inl hxs))

theorem dedupByFst_skip_all :
    ∀ (copies : List (String × String)) (seen : List String),
      (∀ p ∈ copies, p.1 ∈ seen) → dedupByFst copies seen = [] := by
  intro copies
  induction copies with
  | nil => intro seen _; rfl
  | cons p t ih =>
    intro seen h
    have hp := h p (List.mem_cons_self _ _)
    rw [show dedupByFst (p :: t) seen = dedupByFst t seen from by
      simp [dedupByFst, hp]]
    exact ih seen (fun q hq => h q (List.mem_cons_of_mem _ hq))

theorem dedupByFst_all_eq (copies : List (String × String)) (A H : String)
    (hne : copies ≠ []) (hall : ∀ p ∈ copies, p = (A, H)) :
    dedupByFst copies [] = [(A, H)] := by
  cases copies with
  | nil => exact absurd rfl hne
  | cons p t =>
    have hp := hall p (List.mem_cons_self _ _)
    subst hp
    rw [show dedupByFst ((A, H) :: t) [] = (A, H) :: dedupByFst t ([] ++ [A]) from by
      simp [dedupByFst]]
    rw [dedupByFst_skip_all t ([] ++ [A]) (fun q hq => by
      rw [hall q (List.mem_cons_of_mem _ hq)]
      simp)]

theorem find_append_of_none {α : Type} (l l' : List α) (pred : α → Bool)
    (h : ∀ x ∈ l, pred x = false) :
    (l ++ l').find? pred = l'.find? pred := by
  induction l with
  | nil => rfl
  | cons a t ih =>
    rw [List.cons_append, List.find?_cons_of_neg _
      (by simp [h a (List.mem_cons_self _ _)])]
    exact ih (fun x hx => h x (List.mem_cons_of_mem _ hx))

/-- After `addState` the fresh label names exactly the new empty state. -/
theorem getState_addState (ts : TState) (base : String) :
    getState (addState ts base).2 (addState ts base).1 =
      some { label := freshFrom base (stateLabels ts), nodes := [], dedges := [],
             scopeOf := [] } := by
  unfold getState addState
  simp only
  rw [find_append_of_none]
  · simp [List.find?]
  · intro st hst
    have : st.label ∈ stateLabels ts := List.mem_map_of_mem _ hst
    simp only [decide_eq_false_iff_not]
    intro heq
    exact freshFrom_not_mem base (stateLabels ts) (heq ▸ this)

def errorOf {α : Type} : Except String α → Option String
  | Except.error e => some e
  | Except.ok _ => none

/-! ### Claim C8: the loop copy-out splice -/

def c8Desc : Desc :=
  { isScalar := false, storage := StorageType.GPU_Global, transient := true }

/-- A loop (guard `G`, body `B`) whose guard lists its exit edge `G→E`
BEFORE the body edge `G→B`, with a host tasklet in the body writing the
device array `A`. -/
def c8Input : TState :=
  { arrs := SDFGArrays.from_sdfg [("A", c8Desc)],
    states := [
      { label := "G", nodes := [], dedges := [] },
      { label := "B",
        nodes := [DNode.tasklet "t" [] ["_out"], DNode.access "A"],
        dedges := [{ src := 0, dst := 1, data := "A", srcConn := some "_out" }] },
      { label := "E", nodes := [], dedges := [] }],
    iedges := [{ src := "G", dst := "E", syms := ["i"] },
               { src := "G", dst := "B", syms := ["i"] },
               { src := "B", dst := "G", syms := [] }],
    startLabel := "G", label := "ex8",
    loops := [{ name := "L", guard := "G", body := ["B"] }] }

/-- Same loop with a second non-body outgoing edge on the guard. -/
def c8TwoExit : TState :=
  { c8Input with
    states := c8Input.states ++ [{ label := "E2", nodes := [], dedges := [] }],
    iedges := [{ src := "G", dst := "E", syms := ["i"] },
               { src := "G", dst := "E2", syms := ["j"] },
               { src := "G", dst := "B", syms := ["i"] },
               { src := "B", dst := "G", syms := [] }] }

/-- C8: the claim (and the transform's evident intent, witnessed by the
computed-but-unused `condition_edge` variable) is that the copy-out scaffold
is spliced onto the loop's unique exit edge.  The code instead splices onto
`e`, the LAST edge of the guard's out-edge scan.  At `c8Input`, whose exit
edge `G→E` precedes the body edge `G→B`, the result keeps `G→E` untouched
and routes the loop BODY edge through the scaffold
(`G→G_loopcopyout→B`), so the copies run on every iteration.  The abort for
more than one non-body edge does hold (second conjunct). -/
theorem c8_splice_bug :
    ((handle_cpu_code c8Input).toOption.map (fun ts => ts.iedges) =
      some [{ src := "G", dst := "E", syms := ["i"] },
            { src := "B", dst := "G", syms := [] },
            { src := "G", dst := "G_loopcopyout", syms := ["i"] },
            { src := "G_loopcopyout", dst := "B", syms := [] }]) ∧
    errorOf (handle_cpu_code c8TwoExit) = some "AssertionError" := by
  decide

/-! ### Claim C6 counterexample input -/

/-- Graph whose start state `S0` is the guard of a structural loop with body
`B`; the body holds a host tasklet reading the device-resident transient
`A`, so a loop copy-in obligation is recorded for the loop guarded by the
start state. -/
def exampleC6 : SDFG :=
  { label := "ex",
    arrays := [("A", { isScalar := false, storage := StorageType.GPU_Global,
                       transient := true }),
               ("c", { isScalar := true, storage := StorageType.CPU_Heap,
                       transient := true })],
    states := [
      { label := "S0", nodes := [], dedges := [] },
      { label := "B",
        nodes := [DNode.access "A", DNode.tasklet "t" ["_in"] ["_out"],
                  DNode.access "c"],
        dedges := [{ src := 0, dst := 1, data := "A", dstConn := some "_in" },
                   { src := 1, dst := 2, data := "c", srcConn := some "_out" }] },
      { label := "E", nodes := [], dedges := [] }],
    iedges := [{ src := "S0", dst := "B", syms := ["i", "N"] },
               { src := "S0", dst := "E", syms := ["i", "N"] },
               { src := "B", dst := "S0", syms := ["i"] }],
    startLabel := "S0",
    loops := [{ name := "L", guard := "S0", body := ["B"] }] }

/-- C6 counterexample: the claim says that after the transform the copy-in
state's single outgoing control edge leads to the original start state.  On
`exampleC6` the loop copy-in scaffold is spliced onto the in-edges of its
guard — which IS the original start state — so the copy-in state's edge ends
at `S0_loopcopyin`, not at the start state `S0`. -/
theorem c6_counterexample :
    ((applyTransformFull [""] [""] [] exampleC6).toOption.map (fun r =>
      (r.copyinLabel,
       (r.ts.iedges.filter (fun e => e.src = r.copyinLabel)).map (fun e => e.dst))) =
      some ("ex_copyin", ["S0_loopcopyin"])) ∧
    exampleC6.startLabel = "S0" ∧ ("S0_loopcopyin" : String) ≠ "S0" := by
  decide

/-! ### Claim C3: loop-copy deduplication, parametric in the number N of
host readers.

The family `c3Family (List.replicate n "A")` is a loop (guard `G`, body
`B`) whose body contains `n` host tasklets, each reading the device-resident
array `A` through its own access node. -/

def readNodes : List String → List DNode
  | [] => []
  | nm :: t => DNode.access nm :: DNode.tasklet "t" ["_in"] [] :: readNodes t

def readEdges : Nat → List String → List DEdge
  | _, [] => []
  | base, nm :: t =>
    { src := base, dst := base + 1, data := nm, dstConn := some "_in" } ::
      readEdges (base + 2) t

def c3Body (names : List String) : DState :=
  { label := "B", nodes := readNodes names, dedges := readEdges 0 names }

def c3Loop : LoopInfo := { name := "L", guard := "G", body := ["B"] }

def c3Family (names : List String) : TState :=
  { arrs := SDFGArrays.from_sdfg [("A", c8Desc)],
    states := [
      { label := "G", nodes := [], dedges := [] },
      c3Body names,
      { label := "E", nodes := [], dedges := [] }],
    iedges := [{ src := "G", dst := "B", syms := ["i"] },
               { src := "G", dst := "E", syms := ["i"] },
               { src := "B", dst := "G", syms := [] }],
    startLabel := "G", label := "ex3",
    loops := [c3Loop] }

/-- Names of the body's access nodes after the first `k` tasklets have been
swept: their access nodes were redirected to the host shadow `cpu_A`. -/
def c3Names (k n : Nat) : List String :=
  List.replicate k "cpu_A" ++ List.replicate (n - k) "A"

/-- The registry after the first read cloned `A` to the host. -/
def c3RegAfter : SDFGArrays :=
  ((SDFGArrays.from_sdfg [("A", c8Desc)]).clone_to_cpu "A" c8Desc).2

/-- Sweep state after processing the first `k` of the `n` read tasklets. -/
def c3Sweep (k n : Nat) : SweepState :=
  { ts := { c3Family (c3Names k n) with
      arrs := if k = 0 then SDFGArrays.from_sdfg [("A", c8Desc)] else c3RegAfter },
    cpuObl := if k = 0 then [] else [(c3Loop, List.replicate k ("A", "cpu_A"))],
    gpuObl := [],
    moved := List.replicate k "cpu_A" }

theorem getD_replicate_lt {α : Type} (n i : Nat) (a d : α) (h : i < n) :
    (List.replicate n a).getD i d = a := by
  induction n generalizing i with
  | zero => omega
  | succ n ih =>
    cases i with
    | zero => rfl
    | succ i => exact ih i (by omega)

theorem set_append_length {α : Type} (l r : List α) (v : α) :
    (l ++ r).set l.length v = l ++ r.set 0 v := by
  induction l with
  | nil => rfl
  | cons a t ih => exact congrArg (List.cons a) ih

theorem getD_append_right' {α : Type} (l r : List α) (i : Nat) (d : α) :
    (l ++ r).getD (l.length + i) d = r.getD i d := by
  induction l with
  | nil => rw [List.nil_append, List.length_nil, Nat.zero_add]
  | cons a t ih =>
    rw [show (a :: t).length + i = (t.length + i) + 1 from by
      simp [List.length_cons]; omega]
    exact ih

theorem c3Names_getD_lt (k n j : Nat) (hj : j < k) :
    (c3Names k n).getD j "" = "cpu_A" := by
  unfold c3Names
  rw [getD_append_lt _ _ _ _ (by simpa using hj)]
  exact getD_replicate_lt _ _ _ _ hj

theorem c3Names_getD_ge (k n j : Nat) (hj : k ≤ j) (hjn : j < n) :
    (c3Names k n).getD j "" = "A" := by
  unfold c3Names
  rw [show j = (List.replicate k "cpu_A").length + (j - k) from by simp; omega,
    getD_append_right']
  exact getD_replicate_lt _ _ _ _ (by omega)

theorem c3Names_length (k n : Nat) (h : k ≤ n) : (c3Names k n).length = n := by
  simp [c3Names]
  omega

theorem c3Names_set (k n : Nat) (hk : k < n) :
    (c3Names k n).set k "cpu_A" = c3Names (k + 1) n := by
  unfold c3Names
  have h1 := set_append_length (List.replicate k "cpu_A")
    (List.replicate (n - k) "A") "cpu_A"
  simp only [List.length_replicate] at h1
  rw [h1]
  have h2 : List.replicate (n - k) "A" = "A" :: List.replicate (n - k - 1) "A" := by
    conv_lhs => rw [show n - k = (n - k - 1) + 1 from by omega]
    rfl
  rw [h2]
  rw [List.replicate_succ' k, List.append_assoc]
  rfl

theorem readNodes_length (names : List String) :
    (readNodes names).length = 2 * names.length := by
  induction names with
  | nil => rfl
  | cons nm t ih =>
    show (readNodes t).length + 1 + 1 = 2 * (t.length + 1)
    omega

theorem readNodes_getD_even (names : List String) (k : Nat)
    (hk : k < names.length) :
    (readNodes names).getD (2 * k) (DNode.access "") =
      DNode.access (names.getD k "") := by
  induction names generalizing k with
  | nil => simp at hk
  | cons nm t ih =>
    cases k with
    | zero => rfl
    | succ k =>
      rw [show 2 * (k + 1) = 2 * k + 2 from by ring]
      exact ih k (by simpa using hk)

theorem readNodes_getD_odd (names : List String) (k : Nat)
    (hk : k < names.length) :
    (readNodes names).getD (2 * k + 1) (DNode.access "") =
      DNode.tasklet "t" ["_in"] [] := by
  induction names generalizing k with
  | nil => simp at hk
  | cons nm t ih =>
    cases k with
    | zero => rfl
    | succ k =>
      rw [show 2 * (k + 1) + 1 = (2 * k + 1) + 2 from by ring]
      exact ih k (by simpa using hk)

theorem readNodes_set (names : List String) (k : Nat) (nm' : String) :
    (readNodes names).set (2 * k) (DNode.access nm') =
      readNodes (names.set k nm') := by
  induction names generalizing k with
  | nil => rfl
  | cons nm t ih =>
    cases k with
    | zero => rfl
    | succ k =>
      rw [show 2 * (k + 1) = 2 * k + 2 from by ring]
      exact congrArg (fun l => DNode.access nm :: DNode.tasklet "t" ["_in"] [] :: l)
        (ih k)

theorem readEdges_eq (names : List String) :
    ∀ base, readEdges base names = (List.range names.length).map (fun j =>
      { src := base + 2 * j, dst := base + 2 * j + 1, data := names.getD j "",
        dstConn := some "_in" }) := by
  induction names with
  | nil => intro base; rfl
  | cons nm t ih =>
    intro base
    rw [show readEdges base (nm :: t) =
      { src := base, dst := base + 1, data := nm, dstConn := some "_in" } ::
        readEdges (base + 2) t from rfl]
    rw [ih (base + 2)]
    rw [show (nm :: t).length = t.length + 1 from rfl, List.range_succ_eq_map]
    rw [List.map_cons, List.map_map]
    congr 1
    refine List.map_congr_left ?_
    intro j hj
    show ({ src := base + 2 + 2 * j, dst := base + 2 + 2 * j + 1,
            data := t.getD j "", dstConn := some "_in" } : DEdge) =
      { src := base + 2 * (j + 1), dst := base + 2 * (j + 1) + 1,
        data := (nm :: t).getD (j + 1) "", dstConn := some "_in" }
    have h1 : base + 2 + 2 * j = base + 2 * (j + 1) := by omega
    rw [h1]
    rfl

theorem range_filter_eq (n k : Nat) :
    (List.range n).filter (fun j => decide (j = k)) = if k < n then [k] else [] := by
  induction n with
  | zero => simp
  | succ n ih =>
    rw [List.range_succ, List.filter_append, ih]
    by_cases h1 : k < n
    · rw [if_pos h1, if_pos (by omega)]
      rw [List.filter_cons, List.filter_nil]
      rw [if_neg (by simp; omega)]
      simp
    · by_cases h2 : k = n
      · subst h2
        rw [if_neg h1, if_pos (by omega)]
        simp
      · rw [if_neg h1, if_neg (by omega)]
        rw [List.filter_cons, List.filter_nil]
        rw [if_neg (by simp; omega)]
        rfl

end GpuXform

namespace GpuXform

theorem isDevicelevel_top (st : DState) (i : Nat) (h : st.scopeParent i = none) :
    isDevicelevel st i = false := by
  unfold isDevicelevel
  rw [h]
  cases st.nodes.length <;> rfl

theorem c3_filter_in (names : List String) (k : Nat) (hk : k < names.length) :
    (readEdges 0 names).filter
        (fun e => e.dst = 2 * k + 1 && e.dstConn = some "_in") =
      [{ src := 2 * k, dst := 2 * k + 1, data := names.getD k "",
         dstConn := some "_in" }] := by
  rw [readEdges_eq names 0, List.filter_map]
  rw [List.filter_congr (q := fun j => decide (j = k)) ?_]
  · rw [range_filter_eq, if_pos hk]
    simp
  · intro j hj
    have h1 : (0 + 2 * j + 1 = 2 * k + 1) ↔ (j = k) := by omega
    simp [Function.comp, h1]

def c3Target (k : Nat) : DEdge :=
  { src := 2 * k, dst := 2 * k + 1, data := "A", dstConn := some "_in" }

theorem c3_edges_rename (n k : Nat) (hk : k < n) :
    (readEdges 0 (c3Names k n)).map (fun e' =>
      if e' = c3Target k then { e' with data := "cpu_A" } else e') =
      readEdges 0 (c3Names (k + 1) n) := by
  rw [readEdges_eq, readEdges_eq, List.map_map]
  rw [c3Names_length k n (by omega), c3Names_length (k + 1) n (by omega)]
  refine List.map_congr_left ?_
  intro j hj
  rw [List.mem_range] at hj
  simp only [Function.comp_apply]
  by_cases hjk : j = k
  · subst hjk
    have he : ({ src := 0 + 2 * j, dst := 0 + 2 * j + 1, data := (c3Names j n).getD j "", dstConn := some "_in" } : DEdge) = c3Target j := by
      rw [c3Names_getD_ge j n j (le_refl j) hj]
      unfold c3Target
      congr 1 <;> omega
    rw [he, if_pos rfl]
    rw [c3Names_getD_lt (j + 1) n j (by omega)]
  · have hne : ({ src := 0 + 2 * j, dst := 0 + 2 * j + 1, data := (c3Names k n).getD j "", dstConn := some "_in" } : DEdge) ≠ c3Target k := by
      intro h
      have hsrc := congrArg DEdge.src h
      unfold c3Target at hsrc
      simp at hsrc
      omega
    rw [if_neg hne]
    by_cases hjlt : j < k
    · rw [c3Names_getD_lt k n j hjlt, c3Names_getD_lt (k + 1) n j (by omega)]
    · rw [c3Names_getD_ge k n j (by omega) hj, c3Names_getD_ge (k + 1) n j (by omega) hj]

theorem c3_nodes_set (n k : Nat) (hk : k < n) :
    (readNodes (c3Names k n)).set (2 * k) (DNode.access "cpu_A") =
      readNodes (c3Names (k + 1) n) := by
  rw [readNodes_set, c3Names_set k n hk]

theorem c3_inedge (n k : Nat) (hk : k < n) :
    sweepInEdge "B" (2 * k + 1) "_in" (some c3Loop) (c3Sweep k n) (c3Target k) =
      c3Sweep (k + 1) n := by
  have hget : getState (c3Sweep k n).ts "B" = some (c3Body (c3Names k n)) := rfl
  have hnode : nodeAt (c3Body (c3Names k n)) (c3Target k).src = DNode.access "A" := by
    show (readNodes (c3Names k n)).getD (2 * k) (DNode.access "") = _
    rw [readNodes_getD_even _ _ (by rw [c3Names_length k n (by omega)]; omega),
      c3Names_getD_ge k n k (le_refl k) (by omega)]
  have harr : (c3Sweep k n).ts.arrs =
      (if k = 0 then SDFGArrays.from_sdfg [("A", c8Desc)] else c3RegAfter) := rfl
  have halook : alookup (c3Sweep k n).ts.arrs.sdfgArrays "A" = some c8Desc := by
    rw [harr]
    by_cases hk0 : k = 0
    · rw [if_pos hk0]; rfl
    · rw [if_neg hk0]; decide
  have hr : (if (c3Sweep k n).ts.arrs.on_cpu "A" = true then
        (((c3Sweep k n).ts.arrs.cpu_array "A").getD "A", (c3Sweep k n).ts.arrs)
      else
        (((c3Sweep k n).ts.arrs.clone_to_cpu "A" c8Desc).1.getD "A",
          ((c3Sweep k n).ts.arrs.clone_to_cpu "A" c8Desc).2)) =
      ("cpu_A", c3RegAfter) := by
    rw [harr]
    by_cases hk0 : k = 0
    · simp only [if_pos hk0]; decide
    · simp only [if_neg hk0]; decide
  unfold sweepInEdge
  rw [hget]
  simp only [hnode, halook]
  rw [if_pos (show c8Desc.storage ∈ gpu_storage from by decide)]
  rw [hr]
  have hrhs : c3Sweep (k + 1) n =
      ⟨{ c3Family (c3Names (k + 1) n) with arrs := c3RegAfter },
        [(c3Loop, List.replicate (k + 1) ("A", "cpu_A"))], [],
        List.replicate (k + 1) "cpu_A"⟩ := rfl
  rw [hrhs]
  congr 1
  · show updateState { c3Family (c3Names k n) with arrs := c3RegAfter } "B"
        (fun st => { st with
          nodes := st.nodes.set (2 * k) (DNode.access "cpu_A"),
          dedges := st.dedges.map (fun e' =>
            if e' = c3Target k then { e' with data := "cpu_A" } else e') }) =
      { c3Family (c3Names (k + 1) n) with arrs := c3RegAfter }
    unfold updateState
    congr 1
    show [({ label := "G", nodes := [], dedges := [] } : DState),
        { label := "B",
          nodes := (readNodes (c3Names k n)).set (2 * k) (DNode.access "cpu_A"),
          dedges := (readEdges 0 (c3Names k n)).map (fun e' =>
            if e' = c3Target k then { e' with data := "cpu_A" } else e') },
        ({ label := "E", nodes := [], dedges := [] } : DState)] =
      [({ label := "G", nodes := [], dedges := [] } : DState),
        c3Body (c3Names (k + 1) n),
        ({ label := "E", nodes := [], dedges := [] } : DState)]
    rw [c3_nodes_set n k hk, c3_edges_rename n k hk]
    rfl
  · show aappend (if k = 0 then [] else [(c3Loop, List.replicate k ("A", "cpu_A"))])
        c3Loop ("A", "cpu_A") =
      [(c3Loop, List.replicate (k + 1) ("A", "cpu_A"))]
    by_cases hk0 : k = 0
    · subst hk0; rfl
    · rw [if_neg hk0]
      show [(c3Loop, List.replicate k ("A", "cpu_A") ++ [("A", "cpu_A")])] =
        [(c3Loop, List.replicate (k + 1) ("A", "cpu_A"))]
      rw [List.replicate_succ']
  · show List.replicate k "cpu_A" ++ ["cpu_A"] = List.replicate (k + 1) "cpu_A"
    rw [List.replicate_succ']

theorem c3_step (n k : Nat) (hk : k < n) :
    sweepTasklet (c3Sweep k n) ("B", 2 * k + 1) = c3Sweep (k + 1) n := by
  have hget : getState (c3Sweep k n).ts "B" = some (c3Body (c3Names k n)) := rfl
  have hsp : (c3Body (c3Names k n)).scopeParent (2 * k + 1) = none := rfl
  have hdev : isDevicelevel (c3Body (c3Names k n)) (2 * k + 1) = false :=
    isDevicelevel_top _ _ hsp
  have hnode : nodeAt (c3Body (c3Names k n)) (2 * k + 1) =
      DNode.tasklet "t" ["_in"] [] := by
    show (readNodes (c3Names k n)).getD (2 * k + 1) (DNode.access "") = _
    exact readNodes_getD_odd _ _ (by rw [c3Names_length k n (by omega)]; omega)
  have hloop : stateInsideLoop (c3Sweep k n).ts.loops "B" = some c3Loop := rfl
  have hfilt : (c3Body (c3Names k n)).dedges.filter
      (fun e => e.dst = 2 * k + 1 && e.dstConn = some "_in") = [c3Target k] := by
    show (readEdges 0 (c3Names k n)).filter
      (fun e => e.dst = 2 * k + 1 && e.dstConn = some "_in") = [c3Target k]
    rw [c3_filter_in (c3Names k n) k (by rw [c3Names_length k n (by omega)]; omega)]
    rw [c3Names_getD_ge k n k (le_refl k) (by omega)]
    rfl
  unfold sweepTasklet
  simp only [hget, hloop, hsp, hdev, hnode, List.foldl_cons, List.foldl_nil, hfilt]
  exact c3_inedge n k hk

theorem range_odd_filter (m : Nat) :
    (List.range (2 * m)).filter (fun i => decide (i % 2 = 1)) =
      (List.range m).map (fun k => 2 * k + 1) := by
  induction m with
  | zero => rfl
  | succ m ih =>
    rw [show 2 * (m + 1) = (2 * m + 1) + 1 from by ring]
    rw [List.range_succ, List.range_succ, List.filter_append, List.filter_append, ih]
    rw [List.filter_cons, List.filter_nil, if_neg (by simp)]
    rw [List.filter_cons, List.filter_nil, if_pos (by simp [Nat.add_mul_mod_self_left]; omega)]
    rw [List.range_succ, List.map_append]
    simp

theorem c3_taskletIdx (names : List String) :
    taskletIdx (c3Body names) =
      (List.range names.length).map (fun k => 2 * k + 1) := by
  unfold taskletIdx
  rw [show (c3Body names).nodes.length = 2 * names.length from readNodes_length names]
  rw [List.filter_congr (q := fun i => decide (i % 2 = 1)) ?_]
  · exact range_odd_filter names.length
  · intro i hi
    rw [List.mem_range] at hi
    rcases Nat.even_or_odd i with ⟨q, hq⟩ | ⟨q, hq⟩
    · subst hq
      have hq2 : q + q = 2 * q := by ring
      rw [hq2] at hi ⊢
      have := readNodes_getD_even names q (by omega)
      rw [show nodeAt (c3Body names) (2 * q) =
        (readNodes names).getD (2 * q) (DNode.access "") from rfl, this]
      simp [DNode.isTasklet]
    · subst hq
      have := readNodes_getD_odd names q (by omega)
      rw [show nodeAt (c3Body names) (2 * q + 1) =
        (readNodes names).getD (2 * q + 1) (DNode.access "") from rfl, this]
      simp [DNode.isTasklet]
      omega

theorem c3_trefs (n : Nat) :
    taskletKeys (c3Sweep 0 n).ts.states =
      (List.range n).map (fun k => ("B", 2 * k + 1)) := by
  show (([⟨"G", [], [], []⟩, c3Body (c3Names 0 n),
      ⟨"E", [], [], []⟩] : List DState).map (fun st =>
        (taskletIdx st).map (fun i => (st.label, i)))).flatten = _
  rw [List.map_cons, List.map_cons, List.map_cons, List.map_nil]
  rw [show taskletIdx (⟨"G", [], [], []⟩ : DState) = [] from rfl]
  rw [show taskletIdx (⟨"E", [], [], []⟩ : DState) = [] from rfl]
  rw [c3_taskletIdx]
  rw [c3Names_length 0 n (by omega)]
  simp [List.map_map, Function.comp]
  intro a ha
  rfl

theorem c3_fold (n m : Nat) (hm : m ≤ n) :
    ((List.range m).map (fun k => (("B", 2 * k + 1) : String × Nat))).foldl
        sweepTasklet (c3Sweep 0 n) = c3Sweep m n := by
  induction m with
  | zero => rfl
  | succ m ih =>
    rw [List.range_succ, List.map_append, List.foldl_append]
    rw [ih (by omega)]
    show sweepTasklet (c3Sweep m n) ("B", 2 * m + 1) = c3Sweep (m + 1) n
    exact c3_step n m (by omega)

/-- The graph after the copy-in scaffold has been spliced in, before the
deduplicated copies are materialized into it. -/
def c3Mat (n : Nat) : TState :=
  { arrs := (c3Sweep n n).ts.arrs,
    states := [⟨"G", [], [], []⟩, c3Body (c3Names n n), ⟨"E", [], [], []⟩,
      ⟨"G_loopcopyin", [], [], []⟩],
    iedges := [⟨"G", "B", ["i"]⟩, ⟨"G", "E", ["i"]⟩, ⟨"B", "G", []⟩,
      ⟨"G_loopcopyin", "G", []⟩],
    startLabel := "G", label := "ex3", loops := [c3Loop] }

theorem c3_materialize (n : Nat) (hn : 2 ≤ n) :
    copyPairsOf (materializeCpuLoop (c3Sweep n n).ts c3Loop
        (List.replicate n ("A", "cpu_A"))) "G_loopcopyin" = [("A", "cpu_A")] := by
  have hmat : materializeCpuLoop (c3Sweep n n).ts c3Loop
      (List.replicate n ("A", "cpu_A")) =
      insertDedupCopies (c3Mat n) "G_loopcopyin"
        (List.replicate n ("A", "cpu_A")) := rfl
  rw [hmat, insertDedupCopies_eq]
  rw [dedupByFst_all_eq (List.replicate n ("A", "cpu_A")) "A" "cpu_A"
    (by simp; omega) (fun p hp => List.eq_of_mem_replicate hp)]
  rw [copyPairsOf_addPairsList [("A", "cpu_A")] (c3Mat n) "G_loopcopyin"
    ⟨"G_loopcopyin", [], [], []⟩ rfl (fun e he => absurd he (List.not_mem_nil e))]
  rfl

theorem c3_handle (n : Nat) (hn : 2 ≤ n) :
    ∃ ts', handle_cpu_code (c3Sweep 0 n).ts = Except.ok ts' ∧
      copyPairsOf ts' "G_loopcopyin" = [("A", "cpu_A")] := by
  refine ⟨materializeCpuLoop (c3Sweep n n).ts c3Loop
    (List.replicate n ("A", "cpu_A")), ?_, c3_materialize n hn⟩
  have hfold : (((c3Sweep 0 n).ts.states.map (fun st =>
      (taskletIdx st).map (fun i => (st.label, i)))).flatten).foldl
      sweepTasklet ⟨(c3Sweep 0 n).ts, [], [], []⟩ = c3Sweep n n := by
    rw [show ((c3Sweep 0 n).ts.states.map (fun st =>
      (taskletIdx st).map (fun i => (st.label, i)))).flatten =
      (List.range n).map (fun k => (("B", 2 * k + 1) : String × Nat)) from
        c3_trefs n]
    exact c3_fold n n (le_refl n)
  have hcpu : (c3Sweep n n).cpuObl =
      [(c3Loop, List.replicate n ("A", "cpu_A"))] := by
    show (if n = 0 then _ else _) = _
    rw [if_neg (by omega)]
  unfold handle_cpu_code
  simp only [hfold, hcpu, List.foldl_cons, List.foldl_nil]
  rfl

/-- C3: for a structural loop whose body contains `n ≥ 2` host tasklets all
reading the same device-resident array `A`, the handle-cpu-code pass
materializes exactly one device→host copy `("A", "cpu_A")` in the loop's
entry scaffold state, regardless of `n`; and in general the copies
materialized into any empty scaffold state (entry or exit direction both go
through `insertDedupCopies`) have pairwise-distinct array names, so at most
one copy per array per direction appears. -/
theorem c3_loop_copy_dedup (n : Nat) (hn : 2 ≤ n) :
    (∃ ts', handle_cpu_code (c3Sweep 0 n).ts = Except.ok ts' ∧
        copyPairsOf ts' "G_loopcopyin" = [("A", "cpu_A")]) ∧
    (∀ (ts : TState) (lbl : String) (copies : List (String × String))
        (st : DState), getState ts lbl = some st → edgesInRange st →
        copyPairs st = [] →
        ((copyPairsOf (insertDedupCopies ts lbl copies) lbl).map
          Prod.fst).Nodup) := by
  refine ⟨c3_handle n hn, ?_⟩
  intro ts lbl copies st hst hr hemp
  rw [insertDedupCopies_eq,
    copyPairsOf_addPairsList (dedupByFst copies []) ts lbl st hst hr, hemp,
    List.nil_append]
  exact (dedupByFst_map_fst_nodup copies []).1

/-- Concrete instantiation of the C3 theorem at `n = 2`. -/
theorem c3_loop_copy_dedup_witness :
    2 ≤ 2 ∧
    ((∃ ts', handle_cpu_code (c3Sweep 0 2).ts = Except.ok ts' ∧
        copyPairsOf ts' "G_loopcopyin" = [("A", "cpu_A")]) ∧
    (∀ (ts : TState) (lbl : String) (copies : List (String × String))
        (st : DState), getState ts lbl = some st → edgesInRange st →
        copyPairs st = [] →
        ((copyPairsOf (insertDedupCopies ts lbl copies) lbl).map
          Prod.fst).Nodup)) :=
  ⟨by decide, c3_loop_copy_dedup 2 (by decide)⟩

/-! ### Claim C10: bootstrap-seeded device-resident arrays -/

/-- A non-scalar, non-transient pinned-host array: its storage is in
`gpu_storage`, so bootstrap seeds it as `CPU_AND_GPU_OUTER_SDFG`. -/
def c10Desc : Desc :=
  { isScalar := false, storage := StorageType.CPU_Pinned, transient := false }

/-- One state reading the pinned array `p` through a host tasklet, making
`p` a true input of the SDFG. -/
def exampleC10 : SDFG :=
  { label := "ex10",
    arrays := [("p", c10Desc)],
    states := [
      { label := "S",
        nodes := [DNode.access "p", DNode.tasklet "t" ["_in"] []],
        dedges := [{ src := 0, dst := 1, data := "p", dstConn := some "_in" }] }],
    iedges := [], startLabel := "S", loops := [] }

/-- The copy pairs the step-2 fold adds for a list of inputs, at a fixed
registry. -/
def copyinPairsL (excl : List String) (a : SDFGArrays)
    (inputs : List (String × Desc)) : List (String × String) :=
  inputs.filterMap (fun p =>
    if p.1 ∈ excl || !(a.on_gpu p.1) then none
    else some (p.1, (a.gpu_array p.1).getD p.1))

/-- The copy pairs the step-3 fold adds for a list of outputs, at a fixed
registry. -/
def copyoutPairsL (excl : List String) (a : SDFGArrays)
    (outputs : List (String × Desc)) : List (String × String) :=
  outputs.filterMap (fun p =>
    if p.1 ∈ excl || !(a.on_gpu p.1) then none
    else some ((a.gpu_array p.1).getD p.1, p.1))

theorem copyinFold_pairs (excl : List String) (lbl : String) :
    ∀ (l : List (String × Desc)) (ts : TState) (st : DState),
      getState ts lbl = some st → edgesInRange st →
      copyPairsOf (l.foldl (fun ts p =>
          if p.1 ∈ excl || !(ts.arrs.on_gpu p.1) then ts
          else addCopyPair ts lbl p.1 ((ts.arrs.gpu_array p.1).getD p.1) p.1) ts)
        lbl = copyPairs st ++ copyinPairsL excl ts.arrs l := by
  intro l
  induction l with
  | nil =>
    intro ts st hst hr
    simp [copyPairsOf, hst, copyinPairsL]
  | cons p t ih =>
    intro ts st hst hr
    rw [List.foldl_cons]
    by_cases hc : (p.1 ∈ excl || !(ts.arrs.on_gpu p.1)) = true
    · rw [if_pos hc]
      rw [ih ts st hst hr]
      rw [show copyinPairsL excl ts.arrs (p :: t) = copyinPairsL excl ts.arrs t
        from List.filterMap_cons_none (if_pos hc)]
    · rw [if_neg hc]
      have hst' : getState
          (addCopyPair ts lbl p.1 ((ts.arrs.gpu_array p.1).getD p.1) p.1) lbl =
          some (appendCopy p.1 ((ts.arrs.gpu_array p.1).getD p.1) p.1 st) := by
        unfold addCopyPair
        rw [getState_updateState_self _ _ _ (appendCopy_label _ _ _), hst]
        rfl
      rw [ih _ _ hst' (edgesInRange_appendCopy _ _ _ _ hr)]
      rw [show (addCopyPair ts lbl p.1 ((ts.arrs.gpu_array p.1).getD p.1)
        p.1).arrs = ts.arrs from rfl]
      rw [copyPairs_appendCopy st _ _ _ hr]
      rw [show copyinPairsL excl ts.arrs (p :: t) =
        (p.1, (ts.arrs.gpu_array p.1).getD p.1) :: copyinPairsL excl ts.arrs t
        from List.filterMap_cons_some (if_neg hc)]
      rw [List.append_assoc, List.singleton_append]

theorem copyoutFold_pairs (excl : List String) (lbl : String) :
    ∀ (l : List (String × Desc)) (ts : TState) (st : DState),
      getState ts lbl = some st → edgesInRange st →
      copyPairsOf (l.foldl (fun ts p =>
          if p.1 ∈ excl || !(ts.arrs.on_gpu p.1) then ts
          else addCopyPair ts lbl ((ts.arrs.gpu_array p.1).getD p.1) p.1 p.1) ts)
        lbl = copyPairs st ++ copyoutPairsL excl ts.arrs l := by
  intro l
  induction l with
  | nil =>
    intro ts st hst hr
    simp [copyPairsOf, hst, copyoutPairsL]
  | cons p t ih =>
    intro ts st hst hr
    rw [List.foldl_cons]
    by_cases hc : (p.1 ∈ excl || !(ts.arrs.on_gpu p.1)) = true
    · rw [if_pos hc]
      rw [ih ts st hst hr]
      rw [show copyoutPairsL excl ts.arrs (p :: t) = copyoutPairsL excl ts.arrs t
        from List.filterMap_cons_none (if_pos hc)]
    · rw [if_neg hc]
      have hst' : getState
          (addCopyPair ts lbl ((ts.arrs.gpu_array p.1).getD p.1) p.1 p.1) lbl =
          some (appendCopy ((ts.arrs.gpu_array p.1).getD p.1) p.1 p.1 st) := by
        unfold addCopyPair
        rw [getState_updateState_self _ _ _ (appendCopy_label _ _ _), hst]
        rfl
      rw [ih _ _ hst' (edgesInRange_appendCopy _ _ _ _ hr)]
      rw [show (addCopyPair ts lbl ((ts.arrs.gpu_array p.1).getD p.1) p.1
        p.1).arrs = ts.arrs from rfl]
      rw [copyPairs_appendCopy st _ _ _ hr]
      rw [show copyoutPairsL excl ts.arrs (p :: t) =
        ((ts.arrs.gpu_array p.1).getD p.1, p.1) :: copyoutPairsL excl ts.arrs t
        from List.filterMap_cons_some (if_neg hc)]
      rw [List.append_assoc, List.singleton_append]

theorem step2_pairs (excl : List String) (inputs : List (String × Desc))
    (ts : TState) :
    copyPairsOf (step2 excl inputs ts).2 (step2 excl inputs ts).1 =
      copyinPairsL excl ts.arrs (dedupFirst inputs) := by
  show copyPairsOf ((dedupFirst inputs).foldl (fun ts' p =>
      if p.1 ∈ excl || !(ts'.arrs.on_gpu p.1) then ts'
      else addCopyPair ts' (addState ts (ts.label ++ "_copyin")).1 p.1
        ((ts'.arrs.gpu_array p.1).getD p.1) p.1)
      { (addState ts (ts.label ++ "_copyin")).2 with iedges :=
          (addState ts (ts.label ++ "_copyin")).2.iedges ++ [(⟨(addState ts (ts.label ++ "_copyin")).1, (addState ts (ts.label ++ "_copyin")).2.startLabel, []⟩ : CEdge)] })
      (addState ts (ts.label ++ "_copyin")).1 =
    copyinPairsL excl ts.arrs (dedupFirst inputs)
  rw [copyinFold_pairs excl (addState ts (ts.label ++ "_copyin")).1
    (dedupFirst inputs) _
    ⟨freshFrom (ts.label ++ "_copyin") (stateLabels ts), [], [], []⟩
    (show getState { (addState ts (ts.label ++ "_copyin")).2 with iedges :=
          (addState ts (ts.label ++ "_copyin")).2.iedges ++ [(⟨(addState ts (ts.label ++ "_copyin")).1, (addState ts (ts.label ++ "_copyin")).2.startLabel, []⟩ : CEdge)] }
        (addState ts (ts.label ++ "_copyin")).1 =
      some ⟨freshFrom (ts.label ++ "_copyin") (stateLabels ts), [], [], []⟩
      from getState_addState ts (ts.label ++ "_copyin"))
    (fun e he => absurd he (List.not_mem_nil e))]
  rfl

theorem step3_pairs (excl : List String) (outputs : List (String × Desc))
    (sinks : List String) (ts : TState) :
    copyPairsOf (step3 excl outputs sinks ts).2 (step3 excl outputs sinks ts).1 =
      copyoutPairsL excl ts.arrs (dedupFirst outputs) := by
  show copyPairsOf ((dedupFirst outputs).foldl (fun ts' p =>
      if p.1 ∈ excl || !(ts'.arrs.on_gpu p.1) then ts'
      else addCopyPair ts' (addState ts (ts.label ++ "_copyout")).1
        ((ts'.arrs.gpu_array p.1).getD p.1) p.1 p.1)
      { (addState ts (ts.label ++ "_copyout")).2 with iedges :=
          (addState ts (ts.label ++ "_copyout")).2.iedges ++ sinks.map (fun s => (⟨s, (addState ts (ts.label ++ "_copyout")).1, []⟩ : CEdge)) })
      (addState ts (ts.label ++ "_copyout")).1 =
    copyoutPairsL excl ts.arrs (dedupFirst outputs)
  rw [copyoutFold_pairs excl (addState ts (ts.label ++ "_copyout")).1
    (dedupFirst outputs) _
    ⟨freshFrom (ts.label ++ "_copyout") (stateLabels ts), [], [], []⟩
    (show getState { (addState ts (ts.label ++ "_copyout")).2 with iedges :=
          (addState ts (ts.label ++ "_copyout")).2.iedges ++ sinks.map (fun s => (⟨s, (addState ts (ts.label ++ "_copyout")).1, []⟩ : CEdge)) }
        (addState ts (ts.label ++ "_copyout")).1 =
      some ⟨freshFrom (ts.label ++ "_copyout") (stateLabels ts), [], [], []⟩
      from getState_addState ts (ts.label ++ "_copyout"))
    (fun e he => absurd he (List.not_mem_nil e))]
  rfl

/-- C10 counterexample: the pinned array `p` is seeded
`CPU_AND_GPU_OUTER_SDFG` by bootstrap and `on_gpu` is `false` at that point,
but the claim's consequence fails: `CPU_Pinned` storage is in `gpu_storage`
yet is not `GPU_Global`, so step 1 re-clones `p`, `on_gpu` becomes true, and
the prologue copy-in state receives a host→device copy `("p", "gpu_p")`. -/
theorem c10_counterexample :
    (SDFGArrays.from_sdfg exampleC10.arrays).statusOf "p" =
        some ArrayStatus.CPU_AND_GPU_OUTER_SDFG ∧
    (SDFGArrays.from_sdfg exampleC10.arrays).on_gpu "p" = false ∧
    ((applyTransformFull [""] [""] [] exampleC10).toOption.map (fun r =>
        copyPairsOf r.ts r.copyinLabel) = some [("p", "gpu_p")]) := by
  decide

/-- C10 amended: the no-copy guarantee for bootstrap-seeded device-resident
arrays holds exactly for those whose descriptor storage is `GPU_Global`: the
on-device query is false after seeding, stays false through step 1 (whose
skip tests `GPU_Global`, not membership in `gpu_storage`), and therefore the
step-2 scaffold materializes no host→device copy and the step-3 scaffold no
device→host copy for the array, regardless of the exclusion lists. -/
theorem c10_amended (l : List (String × Desc)) (disc : Discovery) (n : String)
    (d : Desc) (hd : alookup l n = some d)
    (hdG : d.storage = StorageType.GPU_Global)
    (hseed : (SDFGArrays.from_sdfg l).statusOf n =
      some ArrayStatus.CPU_AND_GPU_OUTER_SDFG)
    (hcons : ∀ p ∈ disc.input_nodes ++ disc.output_nodes, p.1 = n → p.2 = d) :
    (SDFGArrays.from_sdfg l).on_gpu n = false ∧
    (step1 disc (SDFGArrays.from_sdfg l)).on_gpu n = false ∧
    (∀ (excl : List String) (ts : TState),
      ts.arrs = step1 disc (SDFGArrays.from_sdfg l) →
      n ∉ (copyPairsOf (step2 excl disc.input_nodes ts).2
            (step2 excl disc.input_nodes ts).1).map Prod.fst) ∧
    (∀ (excl sinks : List String) (ts : TState),
      ts.arrs = step1 disc (SDFGArrays.from_sdfg l) →
      n ∉ (copyPairsOf (step3 excl disc.output_nodes sinks ts).2
            (step3 excl disc.output_nodes sinks ts).1).map Prod.snd) := by
  have h1 : (step1 disc (SDFGArrays.from_sdfg l)).on_gpu n = false := by
    by_cases hb : (step1 disc (SDFGArrays.from_sdfg l)).on_gpu n = true
    · exfalso
      unfold step1 at hb
      rcases (step1OutputsL_on_gpu _ _ _).mp hb with h | ⟨p, hp, hpn, hps⟩
      · rcases (step1InputsL_on_gpu _ _ _).mp h with h' | ⟨p, hp, hpn, _, hps⟩
        · rw [on_gpu_from_sdfg] at h'
          exact absurd h' (by simp)
        · have hpl : p ∈ disc.input_nodes := (mem_dedupFirst _ _).mp hp
          have hpd := hcons p (List.mem_append.mpr (Or.inl hpl)) hpn
          rw [hpd] at hps
          exact hps hdG
      · have hpl : p ∈ disc.output_nodes := (mem_dedupFirst _ _).mp hp
        have hpd := hcons p (List.mem_append.mpr (Or.inr hpl)) hpn
        rw [hpd] at hps
        exact hps hdG
    · exact Bool.eq_false_iff.mpr hb
  refine ⟨on_gpu_from_sdfg l n, h1, ?_, ?_⟩
  · intro excl ts hts hmem
    rw [step2_pairs] at hmem
    rw [List.mem_map] at hmem
    obtain ⟨q, hq, hq1⟩ := hmem
    obtain ⟨p, hp, hfp⟩ := List.mem_filterMap.mp hq
    by_cases hc : (p.1 ∈ excl || !(ts.arrs.on_gpu p.1)) = true
    · rw [if_pos hc] at hfp
      exact Option.noConfusion hfp
    · rw [if_neg hc] at hfp
      have hqe : q = (p.1, (ts.arrs.gpu_array p.1).getD p.1) :=
        (Option.some_inj.mp hfp).symm
      have hpn : p.1 = n := by rw [hqe] at hq1; exact hq1
      rw [Bool.or_eq_true, not_or] at hc
      have hgpu : ts.arrs.on_gpu p.1 = true := by
        rcases hb : ts.arrs.on_gpu p.1 with _ | _
        · exact absurd (by rw [hb]; rfl) hc.2
        · rfl
      rw [hpn, hts, h1] at hgpu
      exact Bool.noConfusion hgpu
  · intro excl sinks ts hts hmem
    rw [step3_pairs] at hmem
    rw [List.mem_map] at hmem
    obtain ⟨q, hq, hq1⟩ := hmem
    obtain ⟨p, hp, hfp⟩ := List.mem_filterMap.mp hq
    by_cases hc : (p.1 ∈ excl || !(ts.arrs.on_gpu p.1)) = true
    · rw [if_pos hc] at hfp
      exact Option.noConfusion hfp
    · rw [if_neg hc] at hfp
      have hqe : q = ((ts.arrs.gpu_array p.1).getD p.1, p.1) :=
        (Option.some_inj.mp hfp).symm
      have hpn : p.1 = n := by rw [hqe] at hq1; exact hq1
      rw [Bool.or_eq_true, not_or] at hc
      have hgpu : ts.arrs.on_gpu p.1 = true := by
        rcases hb : ts.arrs.on_gpu p.1 with _ | _
        · exact absurd (by rw [hb]; rfl) hc.2
        · rfl
      rw [hpn, hts, h1] at hgpu
      exact Bool.noConfusion hgpu

/-- Concrete instantiation of the C10 amended theorem: a `GPU_Global` array
`q` that is both a true input and a true output. -/
theorem c10_amended_witness :
    (alookup [("q", c8Desc)] "q" = some c8Desc ∧
     c8Desc.storage = StorageType.GPU_Global ∧
     (SDFGArrays.from_sdfg [("q", c8Desc)]).statusOf "q" =
       some ArrayStatus.CPU_AND_GPU_OUTER_SDFG ∧
     (∀ p ∈ ([("q", c8Desc)] ++ [("q", c8Desc)] :
        List (String × Desc)), p.1 = "q" → p.2 = c8Desc)) ∧
    ((SDFGArrays.from_sdfg [("q", c8Desc)]).on_gpu "q" = false ∧
     (step1 ⟨[("q", c8Desc)], [("q", c8Desc)]⟩
        (SDFGArrays.from_sdfg [("q", c8Desc)])).on_gpu "q" = false ∧
     (∀ (excl : List String) (ts : TState),
       ts.arrs = step1 ⟨[("q", c8Desc)], [("q", c8Desc)]⟩
         (SDFGArrays.from_sdfg [("q", c8Desc)]) →
       "q" ∉ (copyPairsOf (step2 excl [("q", c8Desc)] ts).2
             (step2 excl [("q", c8Desc)] ts).1).map Prod.fst) ∧
     (∀ (excl sinks : List String) (ts : TState),
       ts.arrs = step1 ⟨[("q", c8Desc)], [("q", c8Desc)]⟩
         (SDFGArrays.from_sdfg [("q", c8Desc)]) →
       "q" ∉ (copyPairsOf (step3 excl [("q", c8Desc)] sinks ts).2
             (step3 excl [("q", c8Desc)] sinks ts).1).map Prod.snd)) :=
  ⟨⟨by decide, by decide, by decide, by decide⟩,
    c10_amended [("q", c8Desc)] ⟨[("q", c8Desc)], [("q", c8Desc)]⟩ "q" c8Desc
      (by decide) (by decide) (by decide) (by decide)⟩

/-! ### Claim C7: interim states for control edges using device data -/

/-- A host-storage input array, cloned by step 1 to a `gpu_` twin. -/
def c7Desc : Desc :=
  { isScalar := false, storage := StorageType.CPU_Heap, transient := false }

/-- Registry in which `x` has been cloned to the device twin `gpu_x`. -/
def c7Arrs : SDFGArrays :=
  ((SDFGArrays.from_sdfg [("x", c7Desc)]).clone_to_gpu "x" c7Desc).2

/-- Two states joined by a control edge whose expression references the
cloned array `x`. -/
def c7TS : TState :=
  { arrs := c7Arrs,
    states := [⟨"S", [], [], []⟩, ⟨"T", [], [], []⟩],
    iedges := [⟨"S", "T", ["x"]⟩],
    startLabel := "S", label := "ex7", loops := [] }

/-- C7 counterexample: the interim state, the redirection and the
unconditional edge all appear, and the device→host copy `gpu_x → cpu_x` is
inserted, but the control-edge expression still references `x`: the rewrite
replaces the device twin's name `gpu_x`, which the edge never mentions, so
the expression is NOT rewritten to the host shadow `cpu_x`. -/
theorem c7_counterexample :
    (handle_interstate_edges c7TS []).ts.iedges =
      [⟨"S_icopyout", "T", ["x"]⟩, ⟨"S", "S_icopyout", []⟩] ∧
    (handle_interstate_edges c7TS []).copies =
      [("S_icopyout", [("gpu_x", "cpu_x")])] ∧
    copyPairsOf (handle_interstate_edges c7TS []).ts "S_icopyout" =
      [("gpu_x", "cpu_x")] ∧
    ("x" ∈ ((handle_interstate_edges c7TS []).ts.iedges.filter
        (fun e => e.src = "S_icopyout")).flatMap CEdge.syms ∧
     "cpu_x" ∉ ((handle_interstate_edges c7TS []).ts.iedges.filter
        (fun e => e.src = "S_icopyout")).flatMap CEdge.syms) := by
  decide

/-- The host shadow recorded for a promoted scalar (the scalar's own name if
none is recorded). -/
def scalShadow (scal : List (String × Option String)) (n : String) : String :=
  ((alookup scal n).getD none).getD n

/-- The accumulated control-edge substitution after the names in `p` have
been processed: each processed name is replaced by its host shadow. -/
def hieSubstP (scal : List (String × Option String)) (p : List String)
    (s : String) : String :=
  if s ∈ p then scalShadow scal s else s

/-- The device→host pair recorded for one processed name. -/
def hiePair (scal : List (String × Option String)) (n : String) :
    String × String := (n, scalShadow scal n)

def aappendMany {κ α : Type} [DecidableEq κ] (c : List (κ × List α)) (k : κ)
    (ps : List α) : List (κ × List α) :=
  ps.foldl (fun c p => aappend c k p) c

theorem aappendMany_same {κ α : Type} [DecidableEq κ] (k : κ) :
    ∀ (ps q : List α), aappendMany [(k, q)] k ps = [(k, q ++ ps)] := by
  intro ps
  induction ps with
  | nil => intro q; simp [aappendMany]
  | cons p t ih =>
    intro q
    show aappendMany (aappend [(k, q)] k p) k t = _
    rw [show aappend [(k, q)] k p = [(k, q ++ [p])] from by simp [aappend]]
    rw [ih]
    simp

theorem aappendMany_nil {κ α : Type} [DecidableEq κ] (k : κ) (ps : List α)
    (h : ps ≠ []) : aappendMany [] k ps = [(k, ps)] := by
  cases ps with
  | nil => exact absurd rfl h
  | cons p t =>
    show aappendMany (aappend [] k p) k t = _
    rw [show aappend ([] : List (κ × List α)) k p = [(k, [p])] from rfl]
    rw [aappendMany_same]
    rfl

theorem dedupFirstAux_nodup {α : Type} [DecidableEq α] :
    ∀ (l seen : List α), (dedupFirstAux l seen).Nodup := by
  intro l
  induction l with
  | nil => intro seen; simp [dedupFirstAux]
  | cons a t ih =>
    intro seen
    by_cases ha : a ∈ seen
    · rw [show dedupFirstAux (a :: t) seen = dedupFirstAux t seen from by
        simp [dedupFirstAux, ha]]
      exact ih seen
    · rw [show dedupFirstAux (a :: t) seen = a :: dedupFirstAux t (seen ++ [a])
        from by simp [dedupFirstAux, ha]]
      refine List.nodup_cons.mpr ⟨?_, ih (seen ++ [a])⟩
      intro hmem
      exact absurd (List.mem_append.mpr (Or.inr (List.mem_singleton.mpr rfl)))
        ((mem_dedupFirstAux t (seen ++ [a]) a).mp hmem).2

theorem dedupFirst_nodup {α : Type} [DecidableEq α] (l : List α) :
    (dedupFirst l).Nodup := dedupFirstAux_nodup l []

theorem outSyms_subset (iedges : List CEdge) (lbl : String)
    (cloned : List String) (s : String) (h : s ∈ outSyms iedges lbl cloned) :
    s ∈ cloned := by
  unfold outSyms at h
  have h1 := ((mem_dedupFirstAux _ _ _).mp h).1
  obtain ⟨l, hl, hsl⟩ := List.mem_flatten.mp h1
  obtain ⟨e, _, hel⟩ := List.mem_map.mp hl
  rw [← hel] at hsl
  exact of_decide_eq_true (List.mem_filter.mp hsl).2

theorem hieSubstP_step (scal : List (String × Option String))
    (cloned p : List String) (n hn : String)
    (hnn : alookup scal n = some (some hn))
    (hclean : ∀ x ∈ p, scalShadow scal x ∉ cloned)
    (hncl : n ∈ cloned) (syms : List String) :
    (syms.map (hieSubstP scal p)).map (fun s => if s = n then hn else s) =
      syms.map (hieSubstP scal (p ++ [n])) := by
  rw [List.map_map]
  refine List.map_congr_left ?_
  intro s _
  show (if (if s ∈ p then scalShadow scal s else s) = n then hn
    else (if s ∈ p then scalShadow scal s else s)) = hieSubstP scal (p ++ [n]) s
  by_cases hp : s ∈ p
  · rw [if_pos hp, if_neg (fun he : scalShadow scal s = n =>
      hclean s hp (he ▸ hncl))]
    unfold hieSubstP
    rw [if_pos (List.mem_append.mpr (Or.inl hp))]
  · rw [if_neg hp]
    by_cases hsn : s = n
    · rw [if_pos hsn]
      unfold hieSubstP
      rw [if_pos (List.mem_append.mpr (Or.inr (List.mem_singleton.mpr hsn)))]
      subst hsn
      unfold scalShadow
      rw [hnn]
      rfl
    · rw [if_neg hsn]
      unfold hieSubstP
      rw [if_neg (fun hm => by
        rcases List.mem_append.mp hm with hm | hm
        · exact hp hm
        · exact hsn (List.mem_singleton.mp hm))]

/-- The substitution applied to one control edge when the name `n` is copied
out into the shadow `hn`: edges leaving the interim state have `n` replaced
by `hn` in their expressions. -/
def swapSym (co n hn : String) (e : CEdge) : CEdge :=
  if e.src = co then
    { e with syms := e.syms.map (fun s => if s = n then hn else s) }
  else e

theorem swapSym_redirect (co n hn : String) (e : CEdge) (X : List String) :
    swapSym co n hn { e with src := co, syms := X } =
      { e with src := co, syms := X.map (fun s => if s = n then hn else s) } := by
  unfold swapSym
  rw [if_pos rfl]

theorem swapSym_skip (co n hn : String) (e : CEdge) (h : ¬ e.src = co) :
    swapSym co n hn e = e := by
  unfold swapSym
  rw [if_neg h]

/-- The result of processing one promoted-scalar name with an existing host
shadow: append the copy, substitute the name in the interim state's outgoing
edges, record the pair. -/
def hieNameScalRHS (co : String) (h : HIEState) (n hn : String) : HIEState :=
  let t1 := addCopyPair h.ts co n hn hn
  { ts := { t1 with iedges := t1.iedges.map (swapSym co n hn) },
    scal := h.scal,
    copies := aappend h.copies co (n, hn) }

theorem hieName_scal (co : String) (h : HIEState) (n hn : String)
    (hnn : alookup h.scal n = some (some hn)) :
    hieName co h n = hieNameScalRHS co h n hn := by
  unfold hieName hieNameScalRHS swapSym
  simp only [hnn]

theorem hieFold (cloned : List String) (lbl co : String)
    (scal : List (String × Option String)) (E0 : List CEdge)
    (hlc : lbl ≠ co) (hwf : ∀ e ∈ E0, e.src ≠ co) :
    ∀ (names p : List String) (h : HIEState) (st : DState),
      (∀ n ∈ names, ∃ hn, alookup scal n = some (some hn) ∧ hn ∉ cloned) →
      (∀ x ∈ p, scalShadow scal x ∉ cloned) →
      (∀ n ∈ names, n ∈ cloned) →
      h.scal = scal →
      h.ts.iedges = E0.map (fun e => if e.src = lbl then { e with src := co, syms := e.syms.map (hieSubstP scal p) } else e) ++ [⟨lbl, co, []⟩] →
      getState h.ts co = some st →
      edgesInRange st →
      ((names.foldl (hieName co) h).scal = scal ∧
       (names.foldl (hieName co) h).ts.iedges =
         E0.map (fun e => if e.src = lbl then { e with src := co, syms := e.syms.map (hieSubstP scal (p ++ names)) } else e) ++ [⟨lbl, co, []⟩] ∧
       copyPairsOf (names.foldl (hieName co) h).ts co =
         copyPairs st ++ names.map (hiePair scal) ∧
       (names.foldl (hieName co) h).copies =
         aappendMany h.copies co (names.map (hiePair scal))) := by
  intro names
  induction names with
  | nil =>
    intro p h st hres hclean hcl hscal hied hst hrange
    refine ⟨hscal, ?_, ?_, rfl⟩
    · rw [List.foldl_nil, hied, List.append_nil]
    · rw [List.foldl_nil, List.map_nil, List.append_nil]
      unfold copyPairsOf
      rw [hst]
  | cons n rest ih =>
    intro p h st hres hclean hcl hscal hied hst hrange
    obtain ⟨hn, hnn, hhn⟩ := hres n (List.mem_cons_self _ _)
    have hnn' : alookup h.scal n = some (some hn) := by rw [hscal]; exact hnn
    have hpair : hiePair scal n = (n, hn) := by
      unfold hiePair scalShadow
      rw [hnn]
      rfl
    rw [List.foldl_cons, hieName_scal co h n hn hnn']
    have hied' : (hieNameScalRHS co h n hn).ts.iedges =
        E0.map (fun e => if e.src = lbl then { e with src := co, syms := e.syms.map (hieSubstP scal (p ++ [n])) } else e) ++ [⟨lbl, co, []⟩] := by
      show h.ts.iedges.map (swapSym co n hn) = _
      rw [hied, List.map_append, List.map_map]
      congr 1
      · refine List.map_congr_left ?_
        intro e he
        simp only [Function.comp_apply]
        by_cases hsrc : e.src = lbl
        · rw [if_pos hsrc, if_pos hsrc, swapSym_redirect]
          rw [hieSubstP_step scal cloned p n hn hnn hclean
            (hcl n (List.mem_cons_self _ _))]
        · rw [if_neg hsrc, if_neg hsrc, swapSym_skip _ _ _ _ (hwf e he)]
      · rw [List.map_cons, List.map_nil, swapSym_skip _ _ _ _ hlc]
    have hst' : getState (hieNameScalRHS co h n hn).ts co =
        some (appendCopy n hn hn st) := by
      show getState (addCopyPair h.ts co n hn hn) co = _
      unfold addCopyPair
      rw [getState_updateState_self _ _ _ (appendCopy_label _ _ _), hst]
      rfl
    obtain ⟨ih1, ih2, ih3, ih4⟩ := ih (p ++ [n]) (hieNameScalRHS co h n hn)
      (appendCopy n hn hn st)
      (fun m hm => hres m (List.mem_cons_of_mem _ hm))
      (by
        intro x hx
        rcases List.mem_append.mp hx with hx | hx
        · exact hclean x hx
        · rw [List.mem_singleton.mp hx]
          unfold scalShadow
          rw [hnn]
          exact hhn)
      (fun m hm => hcl m (List.mem_cons_of_mem _ hm))
      hscal hied' hst' (edgesInRange_appendCopy _ _ _ _ hrange)
    refine ⟨ih1, ?_, ?_, ?_⟩
    · rw [ih2, List.append_assoc, List.singleton_append]
    · rw [ih3, copyPairs_appendCopy st _ _ _ hrange, List.map_cons, hpair,
        List.append_assoc, List.singleton_append]
    · rw [ih4, List.map_cons, hpair]
      rfl

theorem mem_outSyms_intro (iedges : List CEdge) (lbl : String)
    (cloned : List String) (e : CEdge) (s : String) (he : e ∈ iedges)
    (hsrc : e.src = lbl) (hs : s ∈ e.syms) (hcl : s ∈ cloned) :
    s ∈ outSyms iedges lbl cloned := by
  unfold outSyms
  refine (mem_dedupFirstAux _ _ _).mpr ⟨?_, List.not_mem_nil s⟩
  refine List.mem_flatten.mpr ⟨e.syms.filter (fun x => x ∈ cloned), ?_, ?_⟩
  · exact List.mem_map.mpr ⟨e, List.mem_filter.mpr ⟨he, by simp [hsrc]⟩, rfl⟩
  · exact List.mem_filter.mpr ⟨hs, by simp [hcl]⟩

/-- C7 amended: when every symbol used by the outgoing control edges of
`lbl` resolves through the promoted-scalar table to an existing host shadow
outside the cloned-data set — the case in which the recorded device name
equals the referencing symbol — the fix-up behaves exactly as claimed: a
fresh interim state is appended, every outgoing control edge of `lbl` is
redirected to leave from it with each such symbol replaced by its host
shadow, an unconditional `lbl → interim` edge is added, the interim state
receives exactly one device→host copy per symbol into the reused shadow,
and afterwards no control edge leaving the interim state references cloned
data.  (For an array cloned in step 1 the recorded device name is the `gpu_`
twin, the edge references the original name, and the rewrite is a no-op —
the counterexample.) -/
theorem c7_amended (h : HIEState) (lbl : String) (cloned : List String)
    (hne : outSyms h.ts.iedges lbl cloned ≠ [])
    (hcop : h.copies = [])
    (hlbl : lbl ∈ stateLabels h.ts)
    (hwf : ∀ e ∈ h.ts.iedges, e.src ∈ stateLabels h.ts)
    (hres : ∀ n ∈ outSyms h.ts.iedges lbl cloned,
      ∃ hn, alookup h.scal n = some (some hn) ∧ hn ∉ cloned) :
    freshFrom (lbl ++ "_icopyout") (stateLabels h.ts) ∉ stateLabels h.ts ∧
    (hieState cloned h lbl).scal = h.scal ∧
    (hieState cloned h lbl).ts.iedges =
      h.ts.iedges.map (fun e => if e.src = lbl then { e with src := freshFrom (lbl ++ "_icopyout") (stateLabels h.ts), syms := e.syms.map (hieSubstP h.scal (outSyms h.ts.iedges lbl cloned)) } else e) ++
      [⟨lbl, freshFrom (lbl ++ "_icopyout") (stateLabels h.ts), []⟩] ∧
    copyPairsOf (hieState cloned h lbl).ts
        (freshFrom (lbl ++ "_icopyout") (stateLabels h.ts)) =
      (outSyms h.ts.iedges lbl cloned).map (hiePair h.scal) ∧
    (hieState cloned h lbl).copies =
      [(freshFrom (lbl ++ "_icopyout") (stateLabels h.ts),
        (outSyms h.ts.iedges lbl cloned).map (hiePair h.scal))] ∧
    (∀ e ∈ (hieState cloned h lbl).ts.iedges,
      e.src = freshFrom (lbl ++ "_icopyout") (stateLabels h.ts) →
      ∀ s ∈ e.syms, s ∉ cloned) := by
  have hfresh := freshFrom_not_mem (lbl ++ "_icopyout") (stateLabels h.ts)
  have hlc : lbl ≠ freshFrom (lbl ++ "_icopyout") (stateLabels h.ts) :=
    fun he => hfresh (he ▸ hlbl)
  have hwf' : ∀ e ∈ h.ts.iedges,
      e.src ≠ freshFrom (lbl ++ "_icopyout") (stateLabels h.ts) :=
    fun e he hq => hfresh (hq ▸ hwf e he)
  have hstep : hieState cloned h lbl =
      (outSyms h.ts.iedges lbl cloned).foldl
        (hieName (freshFrom (lbl ++ "_icopyout") (stateLabels h.ts)))
        { h with ts := { (addState h.ts (lbl ++ "_icopyout")).2 with iedges := ((addState h.ts (lbl ++ "_icopyout")).2.iedges.map (fun e => if e.src = lbl then { e with src := (addState h.ts (lbl ++ "_icopyout")).1 } else e)) ++ [⟨lbl, (addState h.ts (lbl ++ "_icopyout")).1, []⟩] } } := by
    simp only [hieState]
    rw [if_neg hne]
    rfl
  have hied0 : ({ h with ts := { (addState h.ts (lbl ++ "_icopyout")).2 with iedges := ((addState h.ts (lbl ++ "_icopyout")).2.iedges.map (fun e => if e.src = lbl then { e with src := (addState h.ts (lbl ++ "_icopyout")).1 } else e)) ++ [⟨lbl, (addState h.ts (lbl ++ "_icopyout")).1, []⟩] } } : HIEState).ts.iedges =
      h.ts.iedges.map (fun e => if e.src = lbl then { e with src := freshFrom (lbl ++ "_icopyout") (stateLabels h.ts), syms := e.syms.map (hieSubstP h.scal []) } else e) ++
      [⟨lbl, freshFrom (lbl ++ "_icopyout") (stateLabels h.ts), []⟩] := by
    show h.ts.iedges.map (fun e => if e.src = lbl then { e with src := freshFrom (lbl ++ "_icopyout") (stateLabels h.ts) } else e) ++ [⟨lbl, freshFrom (lbl ++ "_icopyout") (stateLabels h.ts), []⟩] = _
    congr 1
    refine List.map_congr_left ?_
    intro e _
    by_cases hsrc : e.src = lbl
    · rw [if_pos hsrc, if_pos hsrc]
      have hsy : e.syms.map (hieSubstP h.scal []) = e.syms := by
        rw [List.map_congr_left (g := fun s => s) (fun s _ => by
          unfold hieSubstP
          rw [if_neg (List.not_mem_nil s)])]
        exact List.map_id' e.syms
      rw [hsy]
    · rw [if_neg hsrc, if_neg hsrc]
  obtain ⟨f1, f2, f3, f4⟩ := hieFold cloned lbl
    (freshFrom (lbl ++ "_icopyout") (stateLabels h.ts)) h.scal h.ts.iedges hlc
    hwf' (outSyms h.ts.iedges lbl cloned) []
    ({ h with ts := { (addState h.ts (lbl ++ "_icopyout")).2 with iedges := ((addState h.ts (lbl ++ "_icopyout")).2.iedges.map (fun e => if e.src = lbl then { e with src := (addState h.ts (lbl ++ "_icopyout")).1 } else e)) ++ [⟨lbl, (addState h.ts (lbl ++ "_icopyout")).1, []⟩] } } : HIEState)
    ⟨freshFrom (lbl ++ "_icopyout") (stateLabels h.ts), [], [], []⟩
    hres (fun x hx => absurd hx (List.not_mem_nil x))
    (fun n hn => outSyms_subset _ _ _ _ hn) rfl hied0
    (getState_addState h.ts (lbl ++ "_icopyout"))
    (fun e he => absurd he (List.not_mem_nil e))
  rw [List.nil_append] at f2
  have hied : (hieState cloned h lbl).ts.iedges =
      h.ts.iedges.map (fun e => if e.src = lbl then { e with src := freshFrom (lbl ++ "_icopyout") (stateLabels h.ts), syms := e.syms.map (hieSubstP h.scal (outSyms h.ts.iedges lbl cloned)) } else e) ++
      [⟨lbl, freshFrom (lbl ++ "_icopyout") (stateLabels h.ts), []⟩] := by
    rw [hstep]
    exact f2
  refine ⟨hfresh, ?_, hied, ?_, ?_, ?_⟩
  · rw [hstep]
    exact f1
  · rw [hstep, f3]
    rfl
  · rw [hstep, f4, hcop]
    exact aappendMany_nil _ _
      (fun hmap => hne (List.map_eq_nil_iff.mp hmap))
  · intro e he hsrc s hs hscl
    rw [hied] at he
    rcases List.mem_append.mp he with he | he
    · obtain ⟨e0, he0, heq⟩ := List.mem_map.mp he
      by_cases h0 : e0.src = lbl
      · rw [if_pos h0] at heq
        subst heq
        replace hs : s ∈ e0.syms.map
            (hieSubstP h.scal (outSyms h.ts.iedges lbl cloned)) := hs
        obtain ⟨s0, hs0, hsub⟩ := List.mem_map.mp hs
        by_cases hs0u : s0 ∈ outSyms h.ts.iedges lbl cloned
        · obtain ⟨hn, hnn, hhn⟩ := hres s0 hs0u
          have : s = hn := by
            rw [← hsub]
            unfold hieSubstP
            rw [if_pos hs0u]
            unfold scalShadow
            rw [hnn]
            rfl
          exact hhn (this ▸ hscl)
        · have hss : s = s0 := by
            rw [← hsub]
            unfold hieSubstP
            rw [if_neg hs0u]
          exact hs0u (hss ▸ mem_outSyms_intro h.ts.iedges lbl cloned e0 s he0
            h0 (hss ▸ hs0) hscl)
      · rw [if_neg h0] at heq
        subst heq
        exact hwf' e0 he0 hsrc
    · rw [List.mem_singleton.mp he] at hs
      exact absurd hs (List.not_mem_nil s)

/-- Concrete C7 instance: one control edge `S → T` whose expression uses the
promoted scalar `g`, whose host shadow `host_g` already exists. -/
def c7WTS : TState :=
  { arrs := SDFGArrays.from_sdfg [],
    states := [⟨"S", [], [], []⟩, ⟨"T", [], [], []⟩],
    iedges := [⟨"S", "T", ["g"]⟩],
    startLabel := "S", label := "w7", loops := [] }

def c7W : HIEState :=
  { ts := c7WTS, scal := [("g", some "host_g")], copies := [] }

/-- Concrete instantiation of the C7 amended theorem at `c7W`. -/
theorem c7_amended_witness :
    (outSyms c7W.ts.iedges "S" ["g"] ≠ [] ∧ c7W.copies = [] ∧
     "S" ∈ stateLabels c7W.ts) ∧
    (freshFrom ("S" ++ "_icopyout") (stateLabels c7W.ts) ∉ stateLabels c7W.ts ∧
     (hieState ["g"] c7W "S").scal = c7W.scal ∧
     (hieState ["g"] c7W "S").ts.iedges =
       c7W.ts.iedges.map (fun e => if e.src = "S" then { e with src := freshFrom ("S" ++ "_icopyout") (stateLabels c7W.ts), syms := e.syms.map (hieSubstP c7W.scal (outSyms c7W.ts.iedges "S" ["g"])) } else e) ++
       [⟨"S", freshFrom ("S" ++ "_icopyout") (stateLabels c7W.ts), []⟩] ∧
     copyPairsOf (hieState ["g"] c7W "S").ts
         (freshFrom ("S" ++ "_icopyout") (stateLabels c7W.ts)) =
       (outSyms c7W.ts.iedges "S" ["g"]).map (hiePair c7W.scal) ∧
     (hieState ["g"] c7W "S").copies =
       [(freshFrom ("S" ++ "_icopyout") (stateLabels c7W.ts),
         (outSyms c7W.ts.iedges "S" ["g"]).map (hiePair c7W.scal))] ∧
     (∀ e ∈ (hieState ["g"] c7W "S").ts.iedges,
       e.src = freshFrom ("S" ++ "_icopyout") (stateLabels c7W.ts) →
       ∀ s ∈ e.syms, s ∉ ["g"])) :=
  ⟨⟨by decide, rfl, by decide⟩,
   c7_amended c7W "S" ["g"] (by decide) rfl (by decide) (by decide)
     (by
       intro n hnm
       have hset : outSyms c7W.ts.iedges "S" ["g"] = ["g"] := by decide
       rw [hset] at hnm
       obtain rfl := List.mem_singleton.mp hnm
       exact ⟨"host_g", by decide, by decide⟩)⟩

/-! ### Claim C6: boundary-state control-edge shape -/

theorem foldl_pres {α β : Type} (P : α → Prop) (f : α → β → α)
    (hf : ∀ a b, P a → P (f a b)) :
    ∀ (l : List β) (a : α), P a → P (l.foldl f a) := by
  intro l
  induction l with
  | nil => intro a ha; exact ha
  | cons b t ih => intro a ha; exact ih (f a b) (hf a b ha)

theorem filter_map_pred (E : List CEdge) (f : CEdge → CEdge) (p : CEdge → Bool)
    (hp : ∀ e, p (f e) = p e) :
    (E.map f).filter p = (E.filter p).map f := by
  induction E with
  | nil => rfl
  | cons e t ih =>
    rw [List.map_cons, List.filter_cons, List.filter_cons, hp]
    by_cases hc : p e = true
    · rw [if_pos hc, if_pos hc, List.map_cons, ih]
    · rw [if_neg hc, if_neg hc, ih]

theorem stateLabels_updateState (ts : TState) (lbl : String) (f : DState → DState)
    (hf : ∀ st, (f st).label = st.label) :
    stateLabels (updateState ts lbl f) = stateLabels ts := by
  unfold stateLabels updateState
  rw [List.map_map]
  refine List.map_congr_left ?_
  intro st _
  simp only [Function.comp_apply]
  by_cases hc : st.label = lbl
  · rw [if_pos hc, hf]
  · rw [if_neg hc]

theorem stateLabels_addState (ts : TState) (base : String) :
    stateLabels (addState ts base).2 =
      stateLabels ts ++ [freshFrom base (stateLabels ts)] := by
  unfold stateLabels addState
  rw [List.map_append]
  rfl

theorem stateLabels_step4 (ts : TState) :
    stateLabels (step4 ts) = stateLabels ts := by
  unfold stateLabels step4 step4State
  rw [List.map_map, List.map_map]
  refine List.map_congr_left ?_
  intro st _
  simp only [Function.comp_apply]
  refine (foldl_pres (fun (acc : DState × List Nat) => acc.1.label = st.label)
    _ ?_ _ (st, []) rfl)
  intro acc i ha
  by_cases hc : acc.1.scopeParent i = none
  · rw [if_pos hc]
    cases hn : nodeAt acc.1 i <;> simpa using ha
  · rw [if_neg hc]
    exact ha

theorem stateLabels_rename (a : SDFGArrays) (states : List DState) :
    (states.map (renameState a)).map DState.label = states.map DState.label := by
  rw [List.map_map]
  refine List.map_congr_left ?_
  intro st _
  rfl

theorem sinkLabels_subset (states : List DState) (iedges : List CEdge)
    (s : String) (h : s ∈ sinkLabels states iedges) :
    s ∈ states.map DState.label := by
  unfold sinkLabels at h
  exact List.mem_of_mem_filter h

theorem sinkLabels_no_out (states : List DState) (iedges : List CEdge)
    (s : String) (h : s ∈ sinkLabels states iedges) :
    ∀ e ∈ iedges, ¬ e.src = s := by
  unfold sinkLabels at h
  have h2 : (iedges.any (fun e => e.src = s)) = false := by
    simpa using (List.mem_filter.mp h).2
  intro e he hs
  have : iedges.any (fun e => e.src = s) = true :=
    List.any_eq_true.mpr ⟨e, he, by simp [hs]⟩
  rw [h2] at this
  exact Bool.noConfusion this

theorem sinkLabels_nodup (states : List DState) (iedges : List CEdge)
    (h : (states.map DState.label).Nodup) :
    (sinkLabels states iedges).Nodup := by
  unfold sinkLabels
  exact List.Nodup.filter _ h

theorem swapSym_src (co n hn : String) (e : CEdge) :
    (swapSym co n hn e).src = e.src := by
  unfold swapSym
  by_cases hc : e.src = co
  · rw [if_pos hc]
  · rw [if_neg hc]

theorem swapSym_dst (co n hn : String) (e : CEdge) :
    (swapSym co n hn e).dst = e.dst := by
  unfold swapSym
  by_cases hc : e.src = co
  · rw [if_pos hc]
  · rw [if_neg hc]

/-- Every branch of `hieName` updates the control edges the same way: a
per-edge symbol substitution on the edges leaving the interim state; states
gain only copies, labels, loops and start label are untouched. -/
theorem hieName_shape (co : String) (h : HIEState) (n : String) :
    ∃ d hn, (hieName co h n).ts.iedges = h.ts.iedges.map (swapSym co d hn) ∧
      stateLabels (hieName co h n).ts = stateLabels h.ts ∧
      (hieName co h n).ts.loops = h.ts.loops ∧
      (hieName co h n).ts.startLabel = h.ts.startLabel := by
  have hlab : ∀ (ts : TState) (d hn : String),
      stateLabels (addCopyPair ts co d hn hn) = stateLabels ts :=
    fun ts d hn => stateLabels_updateState ts co _ (appendCopy_label d hn hn)
  unfold hieName
  rcases h1 : alookup h.scal n with _ | vOpt
  · by_cases h2 : h.ts.arrs.on_cpu n = true
    · rw [if_pos h2]
      exact ⟨_, _, rfl, hlab _ _ _, rfl, rfl⟩
    · rw [if_neg h2]
      exact ⟨_, _, rfl, hlab _ _ _, rfl, rfl⟩
  · rcases vOpt with _ | hn
    · rcases h3 : alookup h.ts.arrs.sdfgArrays n with _ | desc
      · exact ⟨_, _, rfl, hlab _ _ _, rfl, rfl⟩
      · exact ⟨_, _, rfl, hlab _ _ _, rfl, rfl⟩
    · exact ⟨_, _, rfl, hlab _ _ _, rfl, rfl⟩

theorem outSyms_nil_of_filter (E : List CEdge) (lbl : String)
    (cloned : List String)
    (h : ∀ e ∈ E.filter (fun e => e.src = lbl), e.syms = []) :
    outSyms E lbl cloned = [] := by
  unfold outSyms
  have : (E.filter (fun e => e.src = lbl)).map (fun e =>
      e.syms.filter (fun s => s ∈ cloned)) =
      (E.filter (fun e => e.src = lbl)).map (fun _ => ([] : List String)) := by
    refine List.map_congr_left ?_
    intro e he
    rw [h e he]
    rfl
  rw [this]
  have hfl : ((E.filter (fun e => e.src = lbl)).map
      (fun _ => ([] : List String))).flatten = [] := by
    induction (E.filter (fun e => e.src = lbl)) with
    | nil => rfl
    | cons e t ih => simpa using ih
  rw [hfl]
  rfl

theorem map_filter_single (sinks : List String) (co s : String)
    (h : s ∈ sinks) (hnd : sinks.Nodup) :
    (sinks.map (fun t => (⟨t, co, []⟩ : CEdge))).filter
        (fun e => e.src = s) = [⟨s, co, []⟩] := by
  induction sinks with
  | nil => cases h
  | cons t rest ih =>
    rw [List.map_cons, List.filter_cons]
    by_cases hts : t = s
    · subst hts
      rw [if_pos (by simp)]
      have hnotin : t ∉ rest := (List.nodup_cons.mp hnd).1
      rw [List.filter_eq_nil_iff.mpr ?_]
      · intro e he
        obtain ⟨u, hu, rfl⟩ := List.mem_map.mp he
        simp only [decide_eq_true_eq, Bool.not_eq_true]
        intro huv
        exact hnotin (show t ∈ rest from huv ▸ hu)
    · rw [if_neg (by simpa using hts)]
      exact ih (List.mem_of_ne_of_mem (fun he => hts he.symm) h)
        (List.nodup_cons.mp hnd).2

/-- The shape of the step-2 result: a fresh copy-in state label, one new
control edge from it to the start state, all other control structure and
metadata untouched. -/
theorem step2_shape (excl : List String) (inputs : List (String × Desc))
    (ts : TState) :
    (step2 excl inputs ts).1 =
      freshFrom (ts.label ++ "_copyin") (stateLabels ts) ∧
    (step2 excl inputs ts).2.iedges =
      ts.iedges ++ [⟨(step2 excl inputs ts).1, ts.startLabel, []⟩] ∧
    stateLabels (step2 excl inputs ts).2 =
      stateLabels ts ++ [(step2 excl inputs ts).1] ∧
    (step2 excl inputs ts).2.loops = ts.loops ∧
    (step2 excl inputs ts).2.startLabel = ts.startLabel ∧
    (step2 excl inputs ts).2.label = ts.label := by
  have key := foldl_pres (fun ts' =>
      ts'.iedges = ts.iedges ++ [(⟨freshFrom (ts.label ++ "_copyin") (stateLabels ts), ts.startLabel, []⟩ : CEdge)] ∧
      stateLabels ts' = stateLabels ts ++ [freshFrom (ts.label ++ "_copyin") (stateLabels ts)] ∧
      ts'.loops = ts.loops ∧ ts'.startLabel = ts.startLabel ∧
      ts'.label = ts.label)
    (fun ts' p => if p.1 ∈ excl || !(ts'.arrs.on_gpu p.1) then ts'
      else addCopyPair ts' (freshFrom (ts.label ++ "_copyin") (stateLabels ts)) p.1 ((ts'.arrs.gpu_array p.1).getD p.1) p.1)
    ?_ (dedupFirst inputs)
    ({ (addState ts (ts.label ++ "_copyin")).2 with iedges := (addState ts (ts.label ++ "_copyin")).2.iedges ++ [(⟨(addState ts (ts.label ++ "_copyin")).1, (addState ts (ts.label ++ "_copyin")).2.startLabel, []⟩ : CEdge)] } : TState)
    ⟨rfl, (stateLabels_addState ts (ts.label ++ "_copyin")), rfl, rfl, rfl⟩
  · exact ⟨rfl, key.1, key.2.1, key.2.2.1, key.2.2.2.1, key.2.2.2.2⟩
  · intro a p ha
    simp only []
    by_cases hc : (p.1 ∈ excl || !(a.arrs.on_gpu p.1)) = true
    · rw [if_pos hc]
      exact ha
    · rw [if_neg hc]
      refine ⟨ha.1, ?_, ha.2.2.1, ha.2.2.2.1, ha.2.2.2.2⟩
      unfold addCopyPair
      rw [stateLabels_updateState _ _ _ (appendCopy_label _ _ _)]
      exact ha.2.1

/-- The shape of the step-3 result: a fresh copy-out state label, one new
control edge into it from every sink, everything else untouched. -/
theorem step3_shape (excl : List String) (outputs : List (String × Desc))
    (sinks : List String) (ts : TState) :
    (step3 excl outputs sinks ts).1 =
      freshFrom (ts.label ++ "_copyout") (stateLabels ts) ∧
    (step3 excl outputs sinks ts).2.iedges =
      ts.iedges ++ sinks.map (fun s =>
        (⟨s, (step3 excl outputs sinks ts).1, []⟩ : CEdge)) ∧
    stateLabels (step3 excl outputs sinks ts).2 =
      stateLabels ts ++ [(step3 excl outputs sinks ts).1] ∧
    (step3 excl outputs sinks ts).2.loops = ts.loops ∧
    (step3 excl outputs sinks ts).2.startLabel = ts.startLabel ∧
    (step3 excl outputs sinks ts).2.label = ts.label := by
  have key := foldl_pres (fun ts' =>
      ts'.iedges = ts.iedges ++ sinks.map (fun s => (⟨s, freshFrom (ts.label ++ "_copyout") (stateLabels ts), []⟩ : CEdge)) ∧
      stateLabels ts' = stateLabels ts ++ [freshFrom (ts.label ++ "_copyout") (stateLabels ts)] ∧
      ts'.loops = ts.loops ∧ ts'.startLabel = ts.startLabel ∧
      ts'.label = ts.label)
    (fun ts' p => if p.1 ∈ excl || !(ts'.arrs.on_gpu p.1) then ts'
      else addCopyPair ts' (freshFrom (ts.label ++ "_copyout") (stateLabels ts)) ((ts'.arrs.gpu_array p.1).getD p.1) p.1 p.1)
    ?_ (dedupFirst outputs)
    ({ (addState ts (ts.label ++ "_copyout")).2 with iedges := (addState ts (ts.label ++ "_copyout")).2.iedges ++ sinks.map (fun s => (⟨s, (addState ts (ts.label ++ "_copyout")).1, []⟩ : CEdge)) } : TState)
    ⟨rfl, (stateLabels_addState ts (ts.label ++ "_copyout")), rfl, rfl, rfl⟩
  · exact ⟨rfl, key.1, key.2.1, key.2.2.1, key.2.2.2.1, key.2.2.2.2⟩
  · intro a p ha
    simp only []
    by_cases hc : (p.1 ∈ excl || !(a.arrs.on_gpu p.1)) = true
    · rw [if_pos hc]
      exact ha
    · rw [if_neg hc]
      refine ⟨ha.1, ?_, ha.2.2.1, ha.2.2.2.1, ha.2.2.2.2⟩
      unfold addCopyPair
      rw [stateLabels_updateState _ _ _ (appendCopy_label _ _ _)]
      exact ha.2.1

/-- The boundary-edge invariant: the copy-in state has exactly the one edge
to the start state, the copy-out state receives exactly one edge from each
sink, every sink's only successor is the copy-out state, and the three kinds
of boundary labels are state labels. -/
def C6Inv (ci co start : String) (sinks : List String) (ts : TState) : Prop :=
  ts.iedges.filter (fun e => e.src = ci) = [⟨ci, start, []⟩] ∧
  ts.iedges.filter (fun e => e.dst = co) =
    sinks.map (fun s => (⟨s, co, []⟩ : CEdge)) ∧
  (∀ s ∈ sinks, ts.iedges.filter (fun e => e.src = s) =
    [(⟨s, co, []⟩ : CEdge)]) ∧
  ci ∈ stateLabels ts ∧ co ∈ stateLabels ts ∧ ∀ s ∈ sinks, s ∈ stateLabels ts

theorem c6inv_hieName (ci co start : String) (sinks : List String)
    (colbl : String) (h : HIEState) (n : String)
    (hci : ci ≠ colbl) (hsnk : ∀ s ∈ sinks, s ≠ colbl)
    (hinv : C6Inv ci co start sinks h.ts) :
    C6Inv ci co start sinks (hieName colbl h n).ts := by
  obtain ⟨d, hn, hE, hL, _, _⟩ := hieName_shape colbl h n
  obtain ⟨i1, i2, i3, i4, i5, i6⟩ := hinv
  refine ⟨?_, ?_, ?_, ?_, ?_, ?_⟩
  · rw [hE, filter_map_pred _ _ _ (fun e => by rw [swapSym_src]), i1,
      List.map_cons, List.map_nil,
      swapSym_skip _ _ _ _ hci]
  · rw [hE, filter_map_pred _ _ _ (fun e => by rw [swapSym_dst]), i2,
      List.map_map]
    refine List.map_congr_left ?_
    intro s hsm
    simp only [Function.comp_apply]
    exact swapSym_skip _ _ _ _ (hsnk s hsm)
  · intro s hsm
    rw [hE, filter_map_pred _ _ _ (fun e => by rw [swapSym_src]), i3 s hsm,
      List.map_cons, List.map_nil, swapSym_skip _ _ _ _ (hsnk s hsm)]
  · rw [hL]; exact i4
  · rw [hL]; exact i5
  · intro s hsm
    rw [hL]; exact i6 s hsm

theorem c6inv_hieState (ci co start : String) (sinks : List String)
    (cloned : List String) (h : HIEState) (lbl : String)
    (hinv : C6Inv ci co start sinks h.ts) :
    C6Inv ci co start sinks (hieState cloned h lbl).ts := by
  by_cases hused : outSyms h.ts.iedges lbl cloned = []
  · rw [show hieState cloned h lbl = h from by
      simp only [hieState]; rw [if_pos hused]]
    exact hinv
  · obtain ⟨i1, i2, i3, i4, i5, i6⟩ := hinv
    have hlci : ¬ lbl = ci := by
      intro he
      refine hused (outSyms_nil_of_filter _ _ _ ?_)
      rw [he, i1]
      intro e he2
      rw [List.mem_singleton.mp he2]
    have hlsk : lbl ∉ sinks := by
      intro hmem
      refine hused (outSyms_nil_of_filter _ _ _ ?_)
      rw [i3 lbl hmem]
      intro e he2
      rw [List.mem_singleton.mp he2]
    have hfr := freshFrom_not_mem (lbl ++ "_icopyout") (stateLabels h.ts)
    have hci2 : ci ≠ freshFrom (lbl ++ "_icopyout") (stateLabels h.ts) :=
      fun he => hfr (he ▸ i4)
    have hco2 : co ≠ freshFrom (lbl ++ "_icopyout") (stateLabels h.ts) :=
      fun he => hfr (he ▸ i5)
    have hsnk2 : ∀ s ∈ sinks,
        s ≠ freshFrom (lbl ++ "_icopyout") (stateLabels h.ts) :=
      fun s hm he => hfr (he ▸ i6 s hm)
    rw [show hieState cloned h lbl = (outSyms h.ts.iedges lbl cloned).foldl
        (hieName (freshFrom (lbl ++ "_icopyout") (stateLabels h.ts)))
        ({ h with ts := { (addState h.ts (lbl ++ "_icopyout")).2 with iedges := ((addState h.ts (lbl ++ "_icopyout")).2.iedges.map (fun e => if e.src = lbl then { e with src := (addState h.ts (lbl ++ "_icopyout")).1 } else e)) ++ [⟨lbl, (addState h.ts (lbl ++ "_icopyout")).1, []⟩] } } : HIEState)
      from by
        simp only [hieState]
        rw [if_neg hused]
        rfl]
    refine foldl_pres (fun hh => C6Inv ci co start sinks hh.ts) _
      (fun a b ha => c6inv_hieName ci co start sinks _ a b hci2 hsnk2 ha) _ _
      ⟨?_, ?_, ?_, ?_, ?_, ?_⟩
    · show ((h.ts.iedges.map (fun e => if e.src = lbl then { e with src := freshFrom (lbl ++ "_icopyout") (stateLabels h.ts) } else e)) ++ [(⟨lbl, freshFrom (lbl ++ "_icopyout") (stateLabels h.ts), []⟩ : CEdge)]).filter (fun e => e.src = ci) = [⟨ci, start, []⟩]
      rw [List.filter_append, filter_map_pred _ _ _ ?_, i1]
      · rw [List.map_cons, List.map_nil,
          if_neg (show ¬ (ci = lbl) from fun hh => hlci hh.symm),
          List.filter_cons, if_neg (by simpa using hlci), List.filter_nil,
          List.append_nil]
      · intro e
        by_cases hc : e.src = lbl
        · rw [if_pos hc]
          exact decide_eq_decide.mpr (iff_of_false
            (fun hh => hci2 hh.symm) (fun hh => hlci (hc ▸ hh)))
        · rw [if_neg hc]
    · show ((h.ts.iedges.map (fun e => if e.src = lbl then { e with src := freshFrom (lbl ++ "_icopyout") (stateLabels h.ts) } else e)) ++ [(⟨lbl, freshFrom (lbl ++ "_icopyout") (stateLabels h.ts), []⟩ : CEdge)]).filter (fun e => e.dst = co) = sinks.map (fun s => (⟨s, co, []⟩ : CEdge))
      rw [List.filter_append, filter_map_pred _ _ _ ?_, i2]
      · rw [List.map_map, List.filter_cons,
          if_neg (by simpa using fun hh => hco2 (Eq.symm hh)), List.filter_nil,
          List.append_nil]
        refine List.map_congr_left ?_
        intro t hsm
        simp only [Function.comp_apply]
        rw [if_neg (show ¬ (t = lbl) from fun hh => hlsk (hh ▸ hsm))]
      · intro e
        by_cases hc : e.src = lbl
        · rw [if_pos hc]
        · rw [if_neg hc]
    · intro t hsm
      show ((h.ts.iedges.map (fun e => if e.src = lbl then { e with src := freshFrom (lbl ++ "_icopyout") (stateLabels h.ts) } else e)) ++ [(⟨lbl, freshFrom (lbl ++ "_icopyout") (stateLabels h.ts), []⟩ : CEdge)]).filter (fun e => e.src = t) = [(⟨t, co, []⟩ : CEdge)]
      rw [List.filter_append, filter_map_pred _ _ _ ?_, i3 t hsm]
      · rw [List.map_cons, List.map_nil,
          if_neg (show ¬ (t = lbl) from fun hh => hlsk (hh ▸ hsm)),
          List.filter_cons,
          if_neg (by simpa using fun hh => hlsk ((hh : lbl = t) ▸ hsm)),
          List.filter_nil, List.append_nil]
      · intro e
        by_cases hc : e.src = lbl
        · rw [if_pos hc]
          refine decide_eq_decide.mpr (iff_of_false
            (fun hh => hsnk2 t hsm hh.symm) (fun hh => hlsk ?_))
          have hlt : lbl = t := by rw [← hc, hh]
          rw [hlt]
          exact hsm
        · rw [if_neg hc]
    · show ci ∈ stateLabels (addState h.ts (lbl ++ "_icopyout")).2
      rw [stateLabels_addState]
      exact List.mem_append.mpr (Or.inl i4)
    · show co ∈ stateLabels (addState h.ts (lbl ++ "_icopyout")).2
      rw [stateLabels_addState]
      exact List.mem_append.mpr (Or.inl i5)
    · intro t hsm
      show t ∈ stateLabels (addState h.ts (lbl ++ "_icopyout")).2
      rw [stateLabels_addState]
      exact List.mem_append.mpr (Or.inl (i6 t hsm))

theorem c6inv_hie (ci co start : String) (sinks : List String)
    (ts : TState) (scal : List (String × Option String))
    (hinv : C6Inv ci co start sinks ts) :
    C6Inv ci co start sinks (handle_interstate_edges ts scal).ts := by
  unfold handle_interstate_edges
  exact foldl_pres (fun hh : HIEState => C6Inv ci co start sinks hh.ts)
    (hieState (dedupFirst (ts.arrs.arrayKeys ++ akeys scal)))
    (fun a b ha => c6inv_hieState ci co start sinks _ a b ha)
    (stateLabels ts) ⟨ts, scal, []⟩ hinv

theorem hieState_loops (cloned : List String) (h : HIEState) (lbl : String) :
    (hieState cloned h lbl).ts.loops = h.ts.loops := by
  by_cases hused : outSyms h.ts.iedges lbl cloned = []
  · rw [show hieState cloned h lbl = h from by
      simp only [hieState]; rw [if_pos hused]]
  · rw [show hieState cloned h lbl = (outSyms h.ts.iedges lbl cloned).foldl
        (hieName (freshFrom (lbl ++ "_icopyout") (stateLabels h.ts)))
        ({ h with ts := { (addState h.ts (lbl ++ "_icopyout")).2 with iedges := ((addState h.ts (lbl ++ "_icopyout")).2.iedges.map (fun e => if e.src = lbl then { e with src := (addState h.ts (lbl ++ "_icopyout")).1 } else e)) ++ [⟨lbl, (addState h.ts (lbl ++ "_icopyout")).1, []⟩] } } : HIEState)
      from by
        simp only [hieState]
        rw [if_neg hused]
        rfl]
    refine foldl_pres (fun hh : HIEState => hh.ts.loops = h.ts.loops) _ ?_ _ _
      rfl
    intro a b ha
    obtain ⟨d, hn, _, _, hLp, _⟩ := hieName_shape _ a b
    rw [hLp]
    exact ha

theorem hie_loops (ts : TState) (scal : List (String × Option String)) :
    (handle_interstate_edges ts scal).ts.loops = ts.loops := by
  unfold handle_interstate_edges
  exact foldl_pres (fun hh : HIEState => hh.ts.loops = ts.loops)
    (hieState (dedupFirst (ts.arrs.arrayKeys ++ akeys scal)))
    (fun a b ha => (hieState_loops _ a b).trans ha)
    (stateLabels ts) ⟨ts, scal, []⟩ rfl

theorem sweepInEdge_keep (lbl : String) (i : Nat) (c : String)
    (li : Option LoopInfo) (hli : li = none) (s : SweepState) (e : DEdge) :
    (sweepInEdge lbl i c li s e).ts.iedges = s.ts.iedges ∧
    (sweepInEdge lbl i c li s e).ts.loops = s.ts.loops ∧
    (sweepInEdge lbl i c li s e).cpuObl = s.cpuObl ∧
    (sweepInEdge lbl i c li s e).gpuObl = s.gpuObl := by
  subst hli
  unfold sweepInEdge
  repeat' split
  all_goals first
  | exact ⟨rfl, rfl, rfl, rfl⟩
  | simp_all

theorem sweepOutEdge_keep (lbl : String) (i : Nat) (c : String)
    (li : Option LoopInfo) (hli : li = none) (s : SweepState) (e : DEdge) :
    (sweepOutEdge lbl i c li s e).ts.iedges = s.ts.iedges ∧
    (sweepOutEdge lbl i c li s e).ts.loops = s.ts.loops ∧
    (sweepOutEdge lbl i c li s e).cpuObl = s.cpuObl ∧
    (sweepOutEdge lbl i c li s e).gpuObl = s.gpuObl := by
  subst hli
  unfold sweepOutEdge
  repeat' split
  all_goals first
  | exact ⟨rfl, rfl, rfl, rfl⟩
  | simp_all

theorem sweepTasklet_keep (s : SweepState) (r : String × Nat)
    (h : s.ts.loops = []) :
    (sweepTasklet s r).ts.iedges = s.ts.iedges ∧
    (sweepTasklet s r).ts.loops = s.ts.loops ∧
    (sweepTasklet s r).cpuObl = s.cpuObl ∧
    (sweepTasklet s r).gpuObl = s.gpuObl := by
  have hnil : stateInsideLoop s.ts.loops r.1 = none := by
    rw [h]
    rfl
  unfold sweepTasklet
  simp only [hnil]
  split
  · exact ⟨rfl, rfl, rfl, rfl⟩
  · split
    · split
      · refine foldl_pres (fun x : SweepState => x.ts.iedges = s.ts.iedges ∧
          x.ts.loops = s.ts.loops ∧ x.cpuObl = s.cpuObl ∧ x.gpuObl = s.gpuObl)
          _ ?_ _ _ (foldl_pres (fun x : SweepState =>
            x.ts.iedges = s.ts.iedges ∧ x.ts.loops = s.ts.loops ∧
            x.cpuObl = s.cpuObl ∧ x.gpuObl = s.gpuObl) _ ?_ _ _
            ⟨rfl, rfl, rfl, rfl⟩)
        · intro a b ha
          split
          · refine foldl_pres (fun x : SweepState =>
              x.ts.iedges = s.ts.iedges ∧
              x.ts.loops = s.ts.loops ∧ x.cpuObl = s.cpuObl ∧
              x.gpuObl = s.gpuObl) _ ?_ _ _ ha
            intro a2 e ha2
            obtain ⟨k1, k2, k3, k4⟩ := sweepInEdge_keep _ _ _ _ rfl a2 e
            exact ⟨k1.trans ha2.1, k2.trans ha2.2.1, k3.trans ha2.2.2.1,
              k4.trans ha2.2.2.2⟩
          · exact ha
        · intro a b ha
          split
          · refine foldl_pres (fun x : SweepState =>
              x.ts.iedges = s.ts.iedges ∧
              x.ts.loops = s.ts.loops ∧ x.cpuObl = s.cpuObl ∧
              x.gpuObl = s.gpuObl) _ ?_ _ _ ha
            intro a2 e ha2
            obtain ⟨k1, k2, k3, k4⟩ := sweepOutEdge_keep _ _ _ _ rfl a2 e
            exact ⟨k1.trans ha2.1, k2.trans ha2.2.1, k3.trans ha2.2.2.1,
              k4.trans ha2.2.2.2⟩
          · exact ha
      · exact ⟨rfl, rfl, rfl, rfl⟩
    · exact ⟨rfl, rfl, rfl, rfl⟩

theorem handle_cpu_code_keep (ts : TState) (h : ts.loops = []) :
    ∃ ts', handle_cpu_code ts = Except.ok ts' ∧ ts'.iedges = ts.iedges := by
  have key := foldl_pres (fun x : SweepState => x.ts.iedges = ts.iedges ∧
      x.ts.loops = [] ∧ x.cpuObl = [] ∧ x.gpuObl = [])
    sweepTasklet ?_
    ((ts.states.map (fun st => (taskletIdx st).map (fun i => (st.label, i)))).flatten)
    ({ ts := ts, cpuObl := [], gpuObl := [], moved := [] } : SweepState)
    ⟨rfl, h, rfl, rfl⟩
  · refine ⟨_, ?_, key.1⟩
    show (let s := ((ts.states.map (fun st => (taskletIdx st).map (fun i => (st.label, i)))).flatten).foldl sweepTasklet { ts := ts, cpuObl := [], gpuObl := [], moved := [] }; (s.gpuObl.foldlM (fun ts p => materializeGpuLoop ts p.1 p.2) (s.cpuObl.foldl (fun ts p => materializeCpuLoop ts p.1 p.2) s.ts))) = Except.ok _
    simp only []
    rw [key.2.2.1, key.2.2.2]
    rfl
  · intro a b ha
    obtain ⟨k1, k2, k3, k4⟩ := sweepTasklet_keep a b ha.2.1
    exact ⟨k1.trans ha.1, k2.trans ha.2.1, k3.trans ha.2.2.1,
      k4.trans ha.2.2.2⟩

/-- The renamed transform state entering step 2. -/
def c6TSr (g : SDFG) : TState :=
  { arrs := step1 (discover g) (SDFGArrays.from_sdfg g.arrays),
    states := g.states.map (renameState (step1 (discover g)
      (SDFGArrays.from_sdfg g.arrays))),
    iedges := g.iedges, startLabel := g.startLabel, label := g.label,
    loops := g.loops }

/-- C6 amended: on an SDFG without structural loops (whose state labels are
distinct and whose control edges connect existing states), the transform
succeeds and the boundary shape is exactly as claimed: the copy-in state has
the single outgoing control edge to the original start state, the copy-out
state has exactly one incoming control edge from each original sink, and no
original sink retains any successor other than the copy-out state.  (With a
structural loop whose guard is the start state, the loop copy-in scaffold is
spliced onto the copy-in edge and the first property fails — the
counterexample.) -/
theorem c6_amended (exclCI exclCO constSyms : List String) (g : SDFG)
    (hloop : g.loops = [])
    (hnodup : (g.states.map DState.label).Nodup)
    (hwfe : ∀ e ∈ g.iedges, e.src ∈ g.states.map DState.label ∧
      e.dst ∈ g.states.map DState.label)
    (hstart : g.startLabel ∈ g.states.map DState.label) :
    ∃ r, applyTransformFull exclCI exclCO constSyms g = Except.ok r ∧
      r.sinks = sinkLabels g.states g.iedges ∧
      r.ts.iedges.filter (fun e => e.src = r.copyinLabel) =
        [⟨r.copyinLabel, g.startLabel, []⟩] ∧
      r.ts.iedges.filter (fun e => e.dst = r.copyoutLabel) =
        r.sinks.map (fun s => (⟨s, r.copyoutLabel, []⟩ : CEdge)) ∧
      (∀ s ∈ r.sinks, r.ts.iedges.filter (fun e => e.src = s) =
        [(⟨s, r.copyoutLabel, []⟩ : CEdge)]) := by
  obtain ⟨h2l, h2E, h2L, h2lp, h2s, h2lab⟩ :=
    step2_shape exclCI (discover g).input_nodes (c6TSr g)
  obtain ⟨h3l, h3E, h3L, h3lp, h3s, h3lab⟩ :=
    step3_shape exclCO (discover g).output_nodes
      (sinkLabels g.states g.iedges) (step2 exclCI (discover g).input_nodes (c6TSr g)).2
  have hlr : stateLabels (c6TSr g) = g.states.map DState.label :=
    stateLabels_rename _ _
  have hciNot : (step2 exclCI (discover g).input_nodes (c6TSr g)).1 ∉ g.states.map DState.label := by
    rw [h2l, ← hlr]
    exact freshFrom_not_mem _ _
  have hcoNot : (step3 exclCO (discover g).output_nodes (sinkLabels g.states g.iedges) (step2 exclCI (discover g).input_nodes (c6TSr g)).2).1 ∉ stateLabels (step2 exclCI (discover g).input_nodes (c6TSr g)).2 := by
    rw [h3l]
    exact freshFrom_not_mem _ _
  rw [h2L, hlr] at hcoNot
  have hco1 : (step3 exclCO (discover g).output_nodes (sinkLabels g.states g.iedges) (step2 exclCI (discover g).input_nodes (c6TSr g)).2).1 ∉ g.states.map DState.label :=
    fun hm => hcoNot (List.mem_append.mpr (Or.inl hm))
  have hco2 : (step3 exclCO (discover g).output_nodes (sinkLabels g.states g.iedges) (step2 exclCI (discover g).input_nodes (c6TSr g)).2).1 ≠ (step2 exclCI (discover g).input_nodes (c6TSr g)).1 :=
    fun he => hcoNot (List.mem_append.mpr (Or.inr (List.mem_singleton.mpr he)))
  have hsub : ∀ s ∈ sinkLabels g.states g.iedges,
      s ∈ g.states.map DState.label :=
    fun s hs => sinkLabels_subset g.states g.iedges s hs
  have hnd : (sinkLabels g.states g.iedges).Nodup :=
    sinkLabels_nodup g.states g.iedges hnodup
  have hE : (step6 (absorb (step4 (step3 exclCO (discover g).output_nodes (sinkLabels g.states g.iedges) (step2 exclCI (discover g).input_nodes (c6TSr g)).2).2).arrs.sdfgArrays (step4 (step3 exclCO (discover g).output_nodes (sinkLabels g.states g.iedges) (step2 exclCI (discover g).input_nodes (c6TSr g)).2).2).states (codeNodeCount (step4 (step3 exclCO (discover g).output_nodes (sinkLabels g.states g.iedges) (step2 exclCI (discover g).input_nodes (c6TSr g)).2).2).states + scalarCount (step4 (step3 exclCO (discover g).output_nodes (sinkLabels g.states g.iedges) (step2 exclCI (discover g).input_nodes (c6TSr g)).2).2).arrs.sdfgArrays + 1) ⟨[], []⟩).gpuScalars constSyms true true (step4 (step3 exclCO (discover g).output_nodes (sinkLabels g.states g.iedges) (step2 exclCI (discover g).input_nodes (c6TSr g)).2).2)).iedges =
      (g.iedges ++ [⟨(step2 exclCI (discover g).input_nodes (c6TSr g)).1, g.startLabel, []⟩]) ++
        (sinkLabels g.states g.iedges).map
          (fun s => (⟨s, (step3 exclCO (discover g).output_nodes (sinkLabels g.states g.iedges) (step2 exclCI (discover g).input_nodes (c6TSr g)).2).1, []⟩ : CEdge)) := by
    show (step3 exclCO (discover g).output_nodes (sinkLabels g.states g.iedges) (step2 exclCI (discover g).input_nodes (c6TSr g)).2).2.iedges = _
    rw [h3E, h2E]
    rfl
  have hL6 : stateLabels (step6 (absorb (step4 (step3 exclCO (discover g).output_nodes (sinkLabels g.states g.iedges) (step2 exclCI (discover g).input_nodes (c6TSr g)).2).2).arrs.sdfgArrays (step4 (step3 exclCO (discover g).output_nodes (sinkLabels g.states g.iedges) (step2 exclCI (discover g).input_nodes (c6TSr g)).2).2).states (codeNodeCount (step4 (step3 exclCO (discover g).output_nodes (sinkLabels g.states g.iedges) (step2 exclCI (discover g).input_nodes (c6TSr g)).2).2).states + scalarCount (step4 (step3 exclCO (discover g).output_nodes (sinkLabels g.states g.iedges) (step2 exclCI (discover g).input_nodes (c6TSr g)).2).2).arrs.sdfgArrays + 1) ⟨[], []⟩).gpuScalars constSyms true true (step4 (step3 exclCO (discover g).output_nodes (sinkLabels g.states g.iedges) (step2 exclCI (discover g).input_nodes (c6TSr g)).2).2)) =
      (g.states.map DState.label ++ [(step2 exclCI (discover g).input_nodes (c6TSr g)).1]) ++ [(step3 exclCO (discover g).output_nodes (sinkLabels g.states g.iedges) (step2 exclCI (discover g).input_nodes (c6TSr g)).2).1] := by
    show stateLabels (step4 (step3 exclCO (discover g).output_nodes (sinkLabels g.states g.iedges) (step2 exclCI (discover g).input_nodes (c6TSr g)).2).2) = _
    rw [stateLabels_step4, h3L, h2L, hlr]
  have hbase : C6Inv (step2 exclCI (discover g).input_nodes (c6TSr g)).1 (step3 exclCO (discover g).output_nodes (sinkLabels g.states g.iedges) (step2 exclCI (discover g).input_nodes (c6TSr g)).2).1 g.startLabel
      (sinkLabels g.states g.iedges) (step6 (absorb (step4 (step3 exclCO (discover g).output_nodes (sinkLabels g.states g.iedges) (step2 exclCI (discover g).input_nodes (c6TSr g)).2).2).arrs.sdfgArrays (step4 (step3 exclCO (discover g).output_nodes (sinkLabels g.states g.iedges) (step2 exclCI (discover g).input_nodes (c6TSr g)).2).2).states (codeNodeCount (step4 (step3 exclCO (discover g).output_nodes (sinkLabels g.states g.iedges) (step2 exclCI (discover g).input_nodes (c6TSr g)).2).2).states + scalarCount (step4 (step3 exclCO (discover g).output_nodes (sinkLabels g.states g.iedges) (step2 exclCI (discover g).input_nodes (c6TSr g)).2).2).arrs.sdfgArrays + 1) ⟨[], []⟩).gpuScalars constSyms true true (step4 (step3 exclCO (discover g).output_nodes (sinkLabels g.states g.iedges) (step2 exclCI (discover g).input_nodes (c6TSr g)).2).2)) := by
    refine ⟨?_, ?_, ?_, ?_, ?_, ?_⟩
    · rw [hE, List.filter_append, List.filter_append]
      rw [List.filter_eq_nil_iff.mpr (fun e he => by
        simp only [decide_eq_true_eq, Bool.not_eq_true]
        intro hh
        exact hciNot (hh ▸ (hwfe e he).1))]
      rw [List.filter_cons, if_pos (by simp), List.filter_nil]
      rw [List.filter_eq_nil_iff.mpr (fun e he => by
        obtain ⟨t, ht, rfl⟩ := List.mem_map.mp he
        simp only [decide_eq_true_eq, Bool.not_eq_true]
        intro hh
        exact hciNot (hh ▸ hsub t ht))]
      rfl
    · rw [hE, List.filter_append, List.filter_append]
      rw [List.filter_eq_nil_iff.mpr (fun e he => by
        simp only [decide_eq_true_eq, Bool.not_eq_true]
        intro hh
        exact hco1 (hh ▸ (hwfe e he).2))]
      rw [List.filter_cons, if_neg (by
        simp only [decide_eq_true_eq]
        intro hh
        exact hco1 (hh ▸ hstart)), List.filter_nil]
      rw [List.filter_eq_self.mpr (fun e he => by
        obtain ⟨t, ht, rfl⟩ := List.mem_map.mp he
        simp)]
      rfl
    · intro t htm
      rw [hE, List.filter_append, List.filter_append]
      rw [List.filter_eq_nil_iff.mpr (fun e he => by
        simp only [decide_eq_true_eq, Bool.not_eq_true]
        exact sinkLabels_no_out g.states g.iedges t htm e he)]
      rw [List.filter_cons, if_neg (by
        simp only [decide_eq_true_eq]
        intro hh
        exact hciNot (hh ▸ hsub t htm)), List.filter_nil]
      rw [map_filter_single _ _ _ htm hnd]
      rfl
    · rw [hL6]
      exact List.mem_append.mpr (Or.inl (List.mem_append.mpr
        (Or.inr (List.mem_singleton.mpr rfl))))
    · rw [hL6]
      exact List.mem_append.mpr (Or.inr (List.mem_singleton.mpr rfl))
    · intro t htm
      rw [hL6]
      exact List.mem_append.mpr (Or.inl (List.mem_append.mpr
        (Or.inl (hsub t htm))))
  have hInv : C6Inv (step2 exclCI (discover g).input_nodes (c6TSr g)).1 (step3 exclCO (discover g).output_nodes (sinkLabels g.states g.iedges) (step2 exclCI (discover g).input_nodes (c6TSr g)).2).1 g.startLabel
      (sinkLabels g.states g.iedges) (handle_interstate_edges (step6 (absorb (step4 (step3 exclCO (discover g).output_nodes (sinkLabels g.states g.iedges) (step2 exclCI (discover g).input_nodes (c6TSr g)).2).2).arrs.sdfgArrays (step4 (step3 exclCO (discover g).output_nodes (sinkLabels g.states g.iedges) (step2 exclCI (discover g).input_nodes (c6TSr g)).2).2).states (codeNodeCount (step4 (step3 exclCO (discover g).output_nodes (sinkLabels g.states g.iedges) (step2 exclCI (discover g).input_nodes (c6TSr g)).2).2).states + scalarCount (step4 (step3 exclCO (discover g).output_nodes (sinkLabels g.states g.iedges) (step2 exclCI (discover g).input_nodes (c6TSr g)).2).2).arrs.sdfgArrays + 1) ⟨[], []⟩).gpuScalars constSyms true true (step4 (step3 exclCO (discover g).output_nodes (sinkLabels g.states g.iedges) (step2 exclCI (discover g).input_nodes (c6TSr g)).2).2)) (absorb (step4 (step3 exclCO (discover g).output_nodes (sinkLabels g.states g.iedges) (step2 exclCI (discover g).input_nodes (c6TSr g)).2).2).arrs.sdfgArrays (step4 (step3 exclCO (discover g).output_nodes (sinkLabels g.states g.iedges) (step2 exclCI (discover g).input_nodes (c6TSr g)).2).2).states (codeNodeCount (step4 (step3 exclCO (discover g).output_nodes (sinkLabels g.states g.iedges) (step2 exclCI (discover g).input_nodes (c6TSr g)).2).2).states + scalarCount (step4 (step3 exclCO (discover g).output_nodes (sinkLabels g.states g.iedges) (step2 exclCI (discover g).input_nodes (c6TSr g)).2).2).arrs.sdfgArrays + 1) ⟨[], []⟩).gpuScalars).ts :=
    c6inv_hie _ _ _ _ _ _ hbase
  have hLoops : (handle_interstate_edges (step6 (absorb (step4 (step3 exclCO (discover g).output_nodes (sinkLabels g.states g.iedges) (step2 exclCI (discover g).input_nodes (c6TSr g)).2).2).arrs.sdfgArrays (step4 (step3 exclCO (discover g).output_nodes (sinkLabels g.states g.iedges) (step2 exclCI (discover g).input_nodes (c6TSr g)).2).2).states (codeNodeCount (step4 (step3 exclCO (discover g).output_nodes (sinkLabels g.states g.iedges) (step2 exclCI (discover g).input_nodes (c6TSr g)).2).2).states + scalarCount (step4 (step3 exclCO (discover g).output_nodes (sinkLabels g.states g.iedges) (step2 exclCI (discover g).input_nodes (c6TSr g)).2).2).arrs.sdfgArrays + 1) ⟨[], []⟩).gpuScalars constSyms true true (step4 (step3 exclCO (discover g).output_nodes (sinkLabels g.states g.iedges) (step2 exclCI (discover g).input_nodes (c6TSr g)).2).2)) (absorb (step4 (step3 exclCO (discover g).output_nodes (sinkLabels g.states g.iedges) (step2 exclCI (discover g).input_nodes (c6TSr g)).2).2).arrs.sdfgArrays (step4 (step3 exclCO (discover g).output_nodes (sinkLabels g.states g.iedges) (step2 exclCI (discover g).input_nodes (c6TSr g)).2).2).states (codeNodeCount (step4 (step3 exclCO (discover g).output_nodes (sinkLabels g.states g.iedges) (step2 exclCI (discover g).input_nodes (c6TSr g)).2).2).states + scalarCount (step4 (step3 exclCO (discover g).output_nodes (sinkLabels g.states g.iedges) (step2 exclCI (discover g).input_nodes (c6TSr g)).2).2).arrs.sdfgArrays + 1) ⟨[], []⟩).gpuScalars).ts.loops = [] := by
    rw [hie_loops]
    show (step3 exclCO (discover g).output_nodes (sinkLabels g.states g.iedges) (step2 exclCI (discover g).input_nodes (c6TSr g)).2).2.loops = []
    rw [h3lp, h2lp]
    exact hloop
  obtain ⟨tsF, hok, hEF⟩ := handle_cpu_code_keep (handle_interstate_edges (step6 (absorb (step4 (step3 exclCO (discover g).output_nodes (sinkLabels g.states g.iedges) (step2 exclCI (discover g).input_nodes (c6TSr g)).2).2).arrs.sdfgArrays (step4 (step3 exclCO (discover g).output_nodes (sinkLabels g.states g.iedges) (step2 exclCI (discover g).input_nodes (c6TSr g)).2).2).states (codeNodeCount (step4 (step3 exclCO (discover g).output_nodes (sinkLabels g.states g.iedges) (step2 exclCI (discover g).input_nodes (c6TSr g)).2).2).states + scalarCount (step4 (step3 exclCO (discover g).output_nodes (sinkLabels g.states g.iedges) (step2 exclCI (discover g).input_nodes (c6TSr g)).2).2).arrs.sdfgArrays + 1) ⟨[], []⟩).gpuScalars constSyms true true (step4 (step3 exclCO (discover g).output_nodes (sinkLabels g.states g.iedges) (step2 exclCI (discover g).input_nodes (c6TSr g)).2).2)) (absorb (step4 (step3 exclCO (discover g).output_nodes (sinkLabels g.states g.iedges) (step2 exclCI (discover g).input_nodes (c6TSr g)).2).2).arrs.sdfgArrays (step4 (step3 exclCO (discover g).output_nodes (sinkLabels g.states g.iedges) (step2 exclCI (discover g).input_nodes (c6TSr g)).2).2).states (codeNodeCount (step4 (step3 exclCO (discover g).output_nodes (sinkLabels g.states g.iedges) (step2 exclCI (discover g).input_nodes (c6TSr g)).2).2).states + scalarCount (step4 (step3 exclCO (discover g).output_nodes (sinkLabels g.states g.iedges) (step2 exclCI (discover g).input_nodes (c6TSr g)).2).2).arrs.sdfgArrays + 1) ⟨[], []⟩).gpuScalars).ts hLoops
  have happ : applyTransformFull exclCI exclCO constSyms g =
      (handle_cpu_code (handle_interstate_edges (step6 (absorb (step4 (step3 exclCO (discover g).output_nodes (sinkLabels g.states g.iedges) (step2 exclCI (discover g).input_nodes (c6TSr g)).2).2).arrs.sdfgArrays (step4 (step3 exclCO (discover g).output_nodes (sinkLabels g.states g.iedges) (step2 exclCI (discover g).input_nodes (c6TSr g)).2).2).states (codeNodeCount (step4 (step3 exclCO (discover g).output_nodes (sinkLabels g.states g.iedges) (step2 exclCI (discover g).input_nodes (c6TSr g)).2).2).states + scalarCount (step4 (step3 exclCO (discover g).output_nodes (sinkLabels g.states g.iedges) (step2 exclCI (discover g).input_nodes (c6TSr g)).2).2).arrs.sdfgArrays + 1) ⟨[], []⟩).gpuScalars constSyms true true (step4 (step3 exclCO (discover g).output_nodes (sinkLabels g.states g.iedges) (step2 exclCI (discover g).input_nodes (c6TSr g)).2).2)) (absorb (step4 (step3 exclCO (discover g).output_nodes (sinkLabels g.states g.iedges) (step2 exclCI (discover g).input_nodes (c6TSr g)).2).2).arrs.sdfgArrays (step4 (step3 exclCO (discover g).output_nodes (sinkLabels g.states g.iedges) (step2 exclCI (discover g).input_nodes (c6TSr g)).2).2).states (codeNodeCount (step4 (step3 exclCO (discover g).output_nodes (sinkLabels g.states g.iedges) (step2 exclCI (discover g).input_nodes (c6TSr g)).2).2).states + scalarCount (step4 (step3 exclCO (discover g).output_nodes (sinkLabels g.states g.iedges) (step2 exclCI (discover g).input_nodes (c6TSr g)).2).2).arrs.sdfgArrays + 1) ⟨[], []⟩).gpuScalars).ts).map (fun ts' =>
        { ts := ts', copyinLabel := (step2 exclCI (discover g).input_nodes (c6TSr g)).1, copyoutLabel := (step3 exclCO (discover g).output_nodes (sinkLabels g.states g.iedges) (step2 exclCI (discover g).input_nodes (c6TSr g)).2).1, sinks := sinkLabels g.states g.iedges }) := rfl
  refine ⟨{ ts := tsF, copyinLabel := (step2 exclCI (discover g).input_nodes (c6TSr g)).1, copyoutLabel := (step3 exclCO (discover g).output_nodes (sinkLabels g.states g.iedges) (step2 exclCI (discover g).input_nodes (c6TSr g)).2).1, sinks := sinkLabels g.states g.iedges }, ?_, rfl, ?_, ?_, ?_⟩
  · rw [happ, hok]
    rfl
  · show tsF.iedges.filter (fun e => e.src = (step2 exclCI (discover g).input_nodes (c6TSr g)).1) = _
    rw [hEF]
    exact hInv.1
  · show tsF.iedges.filter (fun e => e.dst = (step3 exclCO (discover g).output_nodes (sinkLabels g.states g.iedges) (step2 exclCI (discover g).input_nodes (c6TSr g)).2).1) = _
    rw [hEF]
    exact hInv.2.1
  · intro t htm
    show tsF.iedges.filter (fun e => e.src = t) = _
    rw [hEF]
    exact hInv.2.2.1 t htm

/-- A loop-free two-state graph for instantiating the C6 amended theorem. -/
def exampleC6W : SDFG :=
  { label := "w6", arrays := [],
    states := [⟨"S", [], [], []⟩, ⟨"T", [], [], []⟩],
    iedges := [⟨"S", "T", []⟩],
    startLabel := "S", loops := [] }

/-- Concrete instantiation of the C6 amended theorem at `exampleC6W`. -/
theorem c6_amended_witness :
    (exampleC6W.loops = [] ∧
     (exampleC6W.states.map DState.label).Nodup ∧
     (∀ e ∈ exampleC6W.iedges, e.src ∈ exampleC6W.states.map DState.label ∧
       e.dst ∈ exampleC6W.states.map DState.label) ∧
     exampleC6W.startLabel ∈ exampleC6W.states.map DState.label) ∧
    (∃ r, applyTransformFull [""] [""] [] exampleC6W = Except.ok r ∧
      r.sinks = sinkLabels exampleC6W.states exampleC6W.iedges ∧
      r.ts.iedges.filter (fun e => e.src = r.copyinLabel) =
        [⟨r.copyinLabel, exampleC6W.startLabel, []⟩] ∧
      r.ts.iedges.filter (fun e => e.dst = r.copyoutLabel) =
        r.sinks.map (fun s => (⟨s, r.copyoutLabel, []⟩ : CEdge)) ∧
      (∀ s ∈ r.sinks, r.ts.iedges.filter (fun e => e.src = s) =
        [(⟨s, r.copyoutLabel, []⟩ : CEdge)])) :=
  ⟨⟨rfl, by decide, by decide, by decide⟩,
   c6_amended [""] [""] [] exampleC6W rfl (by decide) (by decide) (by decide)⟩

end GpuXform
